import Mathlib

/-!
# Verification of the CronJobs10min reconciliation engine

A shallow embedding of the cron reconciliation engine:
the SKU resolver, the alert manager, the shipment stock deductor
(`runOnce`, step 6, `src/lib/supabase.js`), the multi-source shipment
merger (`src/jobs/backfillShipmentsFromEvents.js`, batched and unbatched
variants) and the order-tracking backfiller
(`src/jobs/fixShippedOrdersMissingTracking.js`).

Conventions of the embedding:
* nullable JavaScript values become `Option`;
* database row ids are `Nat`, quantities and money amounts are `Int`;
* the remote store is a list of rows; a `limit(1)` lookup without an
  explicit ordering is modelled as the first matching row in list order,
  and an ordered `limit(1)` as the first row of maximal key in list order
  (a deterministic refinement of the store's unspecified tie order);
* store calls never fail (the error branches of the source only log and
  skip, they are not data flow);
* JavaScript truthiness on strings/numbers/booleans is translated
  explicitly at each use site (`'' / 0 / false / null` are falsy).
-/

set_option maxRecDepth 4000

namespace CronJobs

/-! ## String helpers -/

/-- `String(raw).toLowerCase().replace(/\s+/g, '')` from
`skuResolver.normalizeSku` (ASCII lower-casing). -/
def normalizeSku (raw : String) : String :=
  ((raw.toList.filter (fun c => !c.isWhitespace)).map Char.toLower).asString

/-- JS `s.startsWith(pre)`. -/
def startsWithL (s pre : String) : Bool := decide (pre.toList <+: s.toList)

/-- JS `s.includes(sub)` (case sensitive substring test). -/
def strContains (s sub : String) : Bool := decide (sub.toList <:+: s.toList)

/-- Postgres `ilike '%sub%'`: case-insensitive substring test (ASCII). -/
def strContainsCI (s sub : String) : Bool :=
  strContains ((s.toList.map Char.toLower).asString) ((sub.toList.map Char.toLower).asString)

/-- JS `s.trim()`. -/
def trimL (s : String) : String :=
  (((s.toList.dropWhile Char.isWhitespace).reverse.dropWhile Char.isWhitespace).reverse).asString

/-- JS `s.split(/[-_.]/)[0]`: the segment before the first `-`, `_` or `.`. -/
def splitFirstSeg (s : String) : String :=
  (s.toList.takeWhile (fun c => !(c = '-' ∨ c = '_' ∨ c = '.'))).asString

/-- JS truthiness of a nullable string: `null`, `undefined` and `''` are falsy. -/
def strTruthy : Option String → Bool
  | some v => v ≠ ""
  | none => false

/-- JS `a || b` on nullable strings: `a` when truthy, otherwise `b`. -/
def jsOr (a b : Option String) : Option String :=
  if strTruthy a then a else b

/-! ## SKU resolver (`src/utils/skuResolver.js`, mirrored in `unnamed/part_000`) -/

inductive MatchType
  | bundle
  | product
  | client_product
deriving DecidableEq

/-- Result of `resolveSku`: the base SKU, the match type (`none` = JS `null`),
and the id of the matched catalog entity (bundle / product / client row). -/
structure Resolved where
  baseSku : String
  matchType : Option MatchType
  entity : Option Nat
deriving DecidableEq

/-- The `tryPrefix` accumulation loop of `resolveSku`: keep the key of
greatest length (first seen wins ties) among keys that start the SKU. -/
def tryKeys (norm : String) : List String → String → String
  | [], best => best
  | k :: rest, best =>
      tryKeys norm rest (if startsWithL norm k && best.length < k.length then k else best)

/-- The no-exact-match tail of `resolveSku`: longest bundle key starting the
normalized SKU, else longest product key, else first `-`/`_`/`.` segment. -/
def resolveTail (norm : String) (productMap bundleMap : List (String × Nat)) : Resolved :=
  let bestBundleKey := tryKeys norm (bundleMap.map Prod.fst) ""
  let bestProductKey := tryKeys norm (productMap.map Prod.fst) ""
  if bestBundleKey ≠ "" then ⟨bestBundleKey, some .bundle, bundleMap.lookup bestBundleKey⟩
  else if bestProductKey ≠ "" then ⟨bestProductKey, some .product, productMap.lookup bestProductKey⟩
  else ⟨splitFirstSeg norm, none, none⟩

/-- `resolveSku(rawSku, productMap, bundleMap)` from the SKU resolver:
exact bundle match, exact product match, longest bundle key starting the
SKU, longest product key, fallback first segment with null match type.
Maps are association lists keyed by normalized SKU with the entity id. -/
def resolveSku (rawSku : String) (productMap bundleMap : List (String × Nat)) : Resolved :=
  if rawSku = "" then ⟨"", none, none⟩
  else
    let norm := normalizeSku rawSku
    match bundleMap.lookup norm with
    | some b => ⟨norm, some .bundle, some b⟩
    | none =>
      match productMap.lookup norm with
      | some p => ⟨norm, some .product, some p⟩
      | none => resolveTail norm productMap bundleMap

/-- Modelled from the spec: the client-SKU-aware resolver.  The cron
entrypoint imports `buildClientSkuMap` and calls
`resolveSku(skuCanon, productMap, bundleMap, clientSkuMap)` expecting a
possible `client_product` match (spec 4.1:
`resolve(rawSku, productMap, bundleMap, optionalClientSkuMap)` with
`matchType ∈ {bundle, product, client_product, null}`), but the resolver
module with client-SKU support is not among the provided sources — the
in-tree resolver takes three arguments and never returns `client_product`.
Following the spec, exact matches keep bundle-before-product priority and
an exact client-SKU match (keyed by normalized `client_inventory.sku`)
resolves to a `client_product` identity; otherwise resolution falls back
to the in-tree longest-key logic. -/
def resolveSkuWithClient (rawSku : String)
    (productMap bundleMap clientSkuMap : List (String × Nat)) : Resolved :=
  if rawSku = "" then ⟨"", none, none⟩
  else
    let norm := normalizeSku rawSku
    match bundleMap.lookup norm with
    | some b => ⟨norm, some .bundle, some b⟩
    | none =>
      match productMap.lookup norm with
      | some p => ⟨norm, some .product, some p⟩
      | none =>
        match clientSkuMap.lookup norm with
        | some c => ⟨norm, some .client_product, some c⟩
        | none => resolveTail norm productMap bundleMap

/-- The catalog maps handed to the deductor (`productMap`, `bundleMap`,
`clientSkuMap` in `runOnce`). -/
structure SkuMaps where
  productMap : List (String × Nat)
  bundleMap : List (String × Nat)
  clientSkuMap : List (String × Nat)
deriving DecidableEq

/-- `runOnce` lines 289–297: map a resolution to the stock item reference.
`itemType` is `client_product` or `product` (a bundle or null match yields
no reference); `itemId` is `String(resolved.client?.id || '')` /
`String(resolved.product?.id || '')`, and a falsy id (missing or `0`)
makes the line unresolvable. -/
def itemRef (r : Resolved) : Option (String × String) :=
  match r.matchType with
  | some .client_product =>
      match r.entity with
      | some i => if i = 0 then none else some ("client_product", toString i)
      | none => none
  | some .product =>
      match r.entity with
      | some i => if i = 0 then none else some ("product", toString i)
      | none => none
  | _ => none

/-! ## Alert manager (`runOnce` lines 133–204) -/

/-- An `inventory_alerts` row (the fields this engine reads or writes). -/
structure Alert where
  client_id : Option Nat
  item_type : String
  alert_type : String
  message : String
  severity : String
  is_active : Bool
deriving DecidableEq

/-- `runOnce` lines 138–141 and 155: the per-SKU alert decision.
`needsPurchase = qtyNeeded > total` wins over
`needsRestock = qtyNeeded > pickable ∧ backstock > 0`; the result is
`(alert_type, severity)` or `none`. -/
def alertDecision (qtyNeeded pickAvailable back total : Int) : Option (String × String) :=
  let needsRestock := qtyNeeded > pickAvailable && back > 0
  let needsPurchase := qtyNeeded > total
  if needsPurchase then some ("purchase", "high")
  else if needsRestock then some ("restock", "medium")
  else none

/-- `runOnce` lines 144–150: deactivate (`is_active := false`) every active
`client_product` alert whose message is the SKU and whose client matches. -/
def clearAlerts (alerts : List Alert) (sku : String) (clientId : Option Nat) : List Alert :=
  alerts.map fun a =>
    if a.item_type = "client_product" ∧ a.message = sku ∧ a.client_id = clientId ∧ a.is_active
    then { a with is_active := false } else a

/-- `runOnce` lines 159–173: upsert on the logical key
`(client_id, item_type, alert_type, message)` — replace the severity and
re-activate a row with that key, or insert a fresh active row. -/
def upsertAlert (alerts : List Alert) (clientId : Option Nat) (alertType sku severity : String) :
    List Alert :=
  let payload : Alert :=
    { client_id := clientId, item_type := "client_product", alert_type := alertType,
      message := sku, severity := severity, is_active := true }
  let key := fun (a : Alert) =>
    a.client_id = clientId ∧ a.item_type = "client_product" ∧
    a.alert_type = alertType ∧ a.message = sku
  if alerts.any (fun a => decide (key a)) then
    alerts.map (fun a => if key a then payload else a)
  else alerts ++ [payload]

/-- `runOnce` lines 133–204, one demand entry: decide, then clear or upsert. -/
def alertStep (alerts : List Alert) (sku : String) (clientId : Option Nat)
    (qtyNeeded pickAvailable back total : Int) : List Alert :=
  match alertDecision qtyNeeded pickAvailable back total with
  | none => clearAlerts alerts sku clientId
  | some (ty, sev) => upsertAlert alerts clientId ty sku sev

/-! ## Generic row values and the fill-missing merge
(`backfillShipmentsFromEvents.js`) -/

/-- A column value: string, boolean or integer. -/
inductive FVal
  | s (v : String)
  | b (v : Bool)
  | i (v : Int)
deriving DecidableEq

/-- A row: association list from column name to nullable value. -/
abbrev Row := List (String × Option FVal)

/-- `row[key]`: first entry wins; an absent key reads as null/undefined. -/
def getField (row : Row) (k : String) : Option FVal :=
  match row.lookup k with
  | some v => v
  | none => none

/-- `buildUpdateForMissingFields(existing, candidate)` (lines 161–170):
keep each candidate entry whose value is non-null and whose field is
null/absent on `existing`. -/
def buildUpdateForMissingFields (existing candidate : Row) : List (String × FVal) :=
  candidate.filterMap fun p =>
    match p.2 with
    | none => none
    | some v => if getField existing p.1 = none then some (p.1, v) else none

/-- Apply an `update(update).eq('id', ...)` column set to a row's fields. -/
def applyUpdate (row : Row) (upd : List (String × FVal)) : Row :=
  row.map fun p =>
    match upd.lookup p.1 with
    | some v => (p.1, some v)
    | none => p

/-- The `select('col, ...')` view of a row: the listed columns only. -/
def selectCols (cols : List String) (row : Row) : Row :=
  cols.map fun c => (c, getField row c)

/-- Column list of the unbatched existing-shipment lookup
(`supabase.js` line 607). -/
def shipmentColsUnbatched : List String :=
  ["id", "order_number", "order_id", "tracking_number", "create_date", "ship_date",
   "carrier_code", "service_code", "package_code", "source", "source_api_shipment_id",
   "shipengine_label_id", "shipstation_actual_shipment_id"]

/-- Column list of the batched existing-shipment lookup
(`backfillShipmentsFromEvents.js` line 221). -/
def shipmentColsBatched : List String :=
  ["id", "tracking_number", "order_number", "order_id", "create_date", "ship_date",
   "carrier_code", "service_code", "package_code", "source", "source_api_shipment_id",
   "shipengine_label_id", "shipstation_actual_shipment_id"]

/-! ## Date normalization (`toIsoOrNull`) and the shipment candidate builders -/

/-- `/^\d{4}-\d{2}-\d{2}$/.test(value)`. -/
def isDateOnly (s : String) : Bool :=
  match s.toList with
  | [a, b, c, d, s1, e, f, s2, g, h] =>
      a.isDigit && b.isDigit && c.isDigit && d.isDigit && s1 = '-' &&
      e.isDigit && f.isDigit && s2 = '-' && g.isDigit && h.isDigit
  | _ => false

/-- `toIsoOrNull(value)`: falsy input gives null; a date-only string is
parsed with `T00:00:00Z` appended; otherwise the value is parsed directly.
`parse` stands for `new Date(x).toISOString()` returning `none` when the
date is invalid or throws. -/
def toIsoOrNull (parse : String → Option String) (v : Option String) : Option String :=
  match v with
  | none => none
  | some sv =>
      if sv = "" then none
      else if isDateOnly sv then parse (sv ++ "T00:00:00Z")
      else parse sv

/-- `evt.x || null` for strings: empty strings collapse to null. -/
def sOrNull (v : Option String) : Option FVal :=
  match v with
  | some x => if x = "" then none else some (.s x)
  | none => none

/-- `evt.x || null` for numbers: `0` collapses to null. -/
def iOrNull (v : Option Int) : Option FVal :=
  match v with
  | some x => if x = 0 then none else some (.i x)
  | none => none

/-- `evt.x || null` for booleans: `false` collapses to null. -/
def bOrNull (v : Option Bool) : Option FVal :=
  match v with
  | some x => if x then some (.b true) else none
  | none => none

/-- A `shipstation_events` row as selected by the backfill queries
(`store_id` only appears in the batched variant's select list; the
`ship_to_*` columns are not selected, so the ShipStation candidate's
`ship_to_*` fields are always null). -/
structure SSEvent where
  shipstation_id : Option Int
  order_id : Option Int
  order_number : Option String
  store_id : Option Int
  tracking_number : Option String
  carrier_code : Option String
  service_code : Option String
  package_code : Option String
  confirmation : Option String
  warehouse_id : Option Int
  shipment_cost : Option Int
  insurance_cost : Option Int
  fulfillment_fee : Option Int
  create_date : Option String
  ship_date : Option String
  voided : Option Bool
  marketplace_notified : Option Bool
  notify_error_message : Option String
  source_type : Option String
deriving DecidableEq

/-- A `shipengine_events` row as selected by the backfill queries. -/
structure SEEvent where
  shipengine_id : Option String
  order_number : Option String
  tracking_number : Option String
  carrier_code : Option String
  service_code : Option String
  package_code : Option String
  shipment_status : Option String
  ship_date : Option String
  create_date : Option String
  voided : Option Bool
  voided_at : Option String
  ship_to_name : Option String
  ship_to_company : Option String
  ship_to_street1 : Option String
  ship_to_street2 : Option String
  ship_to_street3 : Option String
  ship_to_city : Option String
  ship_to_state : Option String
  ship_to_postal_code : Option String
  ship_to_country : Option String
  ship_to_phone : Option String
  ship_to_residential : Option Bool
  shipping_amount : Option Int
  insurance_amount : Option Int
deriving DecidableEq

/-- The order row used to resolve `order_id` for a candidate. -/
structure OrderRow where
  order_id : Int
  order_number : Option String
  store_id : Option Int
deriving DecidableEq

/-- `makeShipmentRowFromShipStationEvent(evt, orderRow)`
(`backfillShipmentsFromEvents.js` lines 57–107). -/
def makeShipmentRowFromShipStationEvent (parse : String → Option String)
    (evt : SSEvent) (orderRow : Option OrderRow) : Row :=
  [("source", some (.s "shipstation")),
   ("type", none),
   ("shipstation_numeric_shipment_id", none),
   ("fulfillment_id", none),
   ("order_id",
     match orderRow with
     | some r => some (.s (toString r.order_id))
     | none =>
       match evt.order_id with
       | some v => some (.s (toString v))
       | none => none),
   ("order_number", sOrNull evt.order_number),
   ("user_id", none),
   ("customer_email", none),
   ("tracking_number", sOrNull evt.tracking_number),
   ("create_date", (toIsoOrNull parse evt.create_date).map .s),
   ("ship_date",
     (jsOr (toIsoOrNull parse evt.ship_date) (toIsoOrNull parse evt.create_date)).map .s),
   ("void_date", none),
   ("delivery_date", none),
   ("carrier_code", sOrNull evt.carrier_code),
   ("service_code", sOrNull evt.service_code),
   ("package_code", sOrNull evt.package_code),
   ("confirmation", sOrNull evt.confirmation),
   ("warehouse_id", iOrNull evt.warehouse_id),
   ("shipment_cost", iOrNull evt.shipment_cost),
   ("insurance_cost", iOrNull evt.insurance_cost),
   ("fulfillment_fee", iOrNull evt.fulfillment_fee),
   ("void_requested", none),
   ("voided", bOrNull evt.voided),
   ("marketplace_notified", bOrNull evt.marketplace_notified),
   ("notify_error_message", sOrNull evt.notify_error_message),
   ("ship_to_name", none),
   ("ship_to_company", none),
   ("ship_to_street1", none),
   ("ship_to_street2", none),
   ("ship_to_street3", none),
   ("ship_to_city", none),
   ("ship_to_state", none),
   ("ship_to_postal_code", none),
   ("ship_to_country", none),
   ("ship_to_phone", none),
   ("ship_to_residential", none),
   ("shipment_items", none),
   ("created_at", none),
   ("is_fulfillment",
     some (.b (match evt.source_type with
       | some st => st ≠ "" && strContainsCI st "fulfillment"
       | none => false))),
   ("source_api_shipment_id",
     match evt.shipstation_id with
     | some v => some (.s (toString v))
     | none => none),
   ("label_pdf_url", none),
   ("status", some (.s "active")),
   ("shipengine_label_id", none),
   ("receipt_pdf_url", none),
   ("usps_transaction_id", none),
   ("shipstation_actual_shipment_id",
     match evt.shipstation_id with
     | some v => some (.s (toString v))
     | none => none),
   ("create_date_shipstation", (toIsoOrNull parse evt.create_date).map .s)]

/-- `makeShipmentRowFromShipEngineEvent(evt, orderRow)`
(`backfillShipmentsFromEvents.js` lines 109–159). -/
def makeShipmentRowFromShipEngineEvent (parse : String → Option String)
    (evt : SEEvent) (orderRow : Option OrderRow) : Row :=
  [("source", some (.s "shipengine")),
   ("type", none),
   ("shipstation_numeric_shipment_id", none),
   ("fulfillment_id", none),
   ("order_id",
     match orderRow with
     | some r => some (.s (toString r.order_id))
     | none => none),
   ("order_number", sOrNull evt.order_number),
   ("user_id", none),
   ("customer_email", none),
   ("tracking_number", sOrNull evt.tracking_number),
   ("create_date", (toIsoOrNull parse evt.create_date).map .s),
   ("ship_date",
     (jsOr (toIsoOrNull parse evt.ship_date) (toIsoOrNull parse evt.create_date)).map .s),
   ("void_date", (toIsoOrNull parse evt.voided_at).map .s),
   ("delivery_date", none),
   ("carrier_code", sOrNull evt.carrier_code),
   ("service_code", sOrNull evt.service_code),
   ("package_code", sOrNull evt.package_code),
   ("confirmation", none),
   ("warehouse_id", none),
   ("shipment_cost", iOrNull evt.shipping_amount),
   ("insurance_cost", iOrNull evt.insurance_amount),
   ("fulfillment_fee", none),
   ("void_requested", none),
   ("voided", bOrNull evt.voided),
   ("marketplace_notified", none),
   ("notify_error_message", none),
   ("ship_to_name", sOrNull evt.ship_to_name),
   ("ship_to_company", sOrNull evt.ship_to_company),
   ("ship_to_street1", sOrNull evt.ship_to_street1),
   ("ship_to_street2", sOrNull evt.ship_to_street2),
   ("ship_to_street3", sOrNull evt.ship_to_street3),
   ("ship_to_city", sOrNull evt.ship_to_city),
   ("ship_to_state", sOrNull evt.ship_to_state),
   ("ship_to_postal_code", sOrNull evt.ship_to_postal_code),
   ("ship_to_country", sOrNull evt.ship_to_country),
   ("ship_to_phone", sOrNull evt.ship_to_phone),
   ("ship_to_residential", bOrNull evt.ship_to_residential),
   ("shipment_items", none),
   ("created_at", none),
   ("is_fulfillment", some (.b false)),
   ("source_api_shipment_id", sOrNull evt.shipengine_id),
   ("label_pdf_url", none),
   ("status", some (.s "active")),
   ("shipengine_label_id", sOrNull evt.shipengine_id),
   ("receipt_pdf_url", none),
   ("usps_transaction_id", none),
   ("shipstation_actual_shipment_id", none),
   ("create_date_shipstation", none)]

/-! ## Order tracking backfiller (`fixShippedOrdersMissingTracking.js`) -/

/-- A hit of the tracking/ship-date search. -/
structure FixFound where
  tracking : String
  shipDateIso : Option String
deriving DecidableEq

/-- `findFromShipStation`, lines 39–42, applied to a fetched event row:
trim the tracking number; the ship date is
`toIsoOrNull(ship_date) || toIsoOrNull(create_date)`; return the pair when
the tracking is non-empty (falling back to the create date alone when the
combined ship date is falsy); `none` when the row yields no hit. -/
def foundFromShipStationRow (parse : String → Option String)
    (tracking_number ship_date create_date : Option String) : Option FixFound :=
  let tracking := trimL (tracking_number.getD "")
  let shipDateIso := jsOr (toIsoOrNull parse ship_date) (toIsoOrNull parse create_date)
  if tracking ≠ "" ∧ strTruthy shipDateIso then some ⟨tracking, shipDateIso⟩
  else if tracking ≠ "" then some ⟨tracking, toIsoOrNull parse create_date⟩
  else none

/-- `runFixShippedOrdersMissingTracking` lines 169–171: the value written to
the order's `actual_ship_date` (only a truthy ship date is applied). -/
def actualShipDateUpdate (f : FixFound) : Option String :=
  match f.shipDateIso with
  | some v => if v = "" then none else some v
  | none => none

/-! ## The paginated fetch loop

All three jobs drive the same loop (`runOnce` lines 210–347,
`processShipStationEvents` / `processShipEngineEvents`,
`runFixShippedOrdersMissingTracking`):
`while (page < MAX_PAGES) { data := fetch(range); if empty break;
process(data); if (data.length < PAGE_SIZE) break; page += 1 }`.
`feed page` is the page the store returns; the result lists the pages
processed, in order. `fuel` is `maxPages - page`. -/
def pagedLoop {α : Type} (feed : Nat → List α) (pageSize : Nat) :
    Nat → Nat → List (List α)
  | _, 0 => []
  | page, fuel + 1 =>
      let data := feed page
      if data.length = 0 then []
      else if data.length < pageSize then [data]
      else data :: pagedLoop feed pageSize (page + 1) fuel

/-- A whole paginated run, starting at page 0 with `maxPages` iterations allowed. -/
def pagedRun {α : Type} (feed : Nat → List α) (pageSize maxPages : Nat) : List (List α) :=
  pagedLoop feed pageSize 0 maxPages

/-! ## Shipment stock deductor (`runOnce` step 6, lines 206–351) -/

/-- An `inventory_movements` row (fields this engine reads or writes). -/
structure Movement where
  id : Nat
  sku : Option String
  notes : Option String
  reference_type : Option String
  reference_id : Option String
  reason : Option String
  created_at : Int
deriving DecidableEq

/-- An `inventory_stock_levels` row joined with its location type. -/
structure StockRow where
  id : Nat
  item_type : String
  item_id : String
  on_hand : Option Int
  available : Option Int
  location_type : String
deriving DecidableEq

/-- A shipment line item after the variant-shape accessors of lines 235–236:
`itm?.sku || itm?.SKU || itm?.product?.sku` collapsed into `sku`, and
`itm?.quantity ?? itm?.Quantity ?? itm?.qty` into `quantity`
(`none` meaning the `?? 1` default applies). -/
structure ShipItem where
  sku : Option String
  quantity : Option Int
deriving DecidableEq

/-- A `shipments` row as read by the reconciliation loop, with the
line-item payload already flattened to a list (line 230 accepts an array,
`raw.items` or `raw.ShipmentItems`). -/
structure Shipment where
  id : Nat
  order_number : Option String
  items : List ShipItem
deriving DecidableEq

/-- The store state the deductor reads and writes. -/
structure ReconDB where
  movements : List Movement
  stocks : List StockRow
deriving DecidableEq

/-- `Map.set(k, get(k) + q)` on an association list: update in place,
append new keys at the end (JS `Map` insertion order). -/
def addQty : List (String × Int) → String → Int → List (String × Int)
  | [], k, q => [(k, q)]
  | (k', q') :: rest, k, q =>
      if k' = k then (k', q' + q) :: rest else (k', q') :: addQty rest k q

/-- `runOnce` lines 233–240: group line items by canonical SKU, summing
quantities; items with a falsy SKU or quantity are dropped. -/
def qtyBySku (items : List ShipItem) : List (String × Int) :=
  items.foldl
    (fun m itm =>
      match itm.sku with
      | none => m
      | some skuRaw =>
          let qty := itm.quantity.getD 1
          if skuRaw = "" ∨ qty = 0 then m else addQty m (normalizeSku skuRaw) qty)
    []

/-- The reconciliation stamp appended to the marker's notes. -/
def sentinel : String := "Reconciled via cron"

/-- Line 284: `typeof notes === 'string' && notes.includes('Reconciled via cron')`. -/
def isStamped (m : Movement) : Bool :=
  match m.notes with
  | some n => strContains n sentinel
  | none => false

/-- Lines 250–256: `reference_type = 'shipment' ∧ reference_id = String(s.id)`. -/
def byShipmentMatch (sid : Nat) (m : Movement) : Bool :=
  m.reference_type == some "shipment" && m.reference_id == some (toString sid)

/-- Lines 261–268: `reason = 'order_shipment'` and notes `ilike '%onum%'`. -/
def fallbackMatch (onum : String) (m : Movement) : Bool :=
  m.reason == some "order_shipment" &&
    (match m.notes with
     | some n => strContainsCI n onum
     | none => false)

/-- `order('created_at', descending).limit(1)`: the first row of maximal
`created_at` in list order. -/
def argmaxCreated : List Movement → Option Movement
  | [] => none
  | x :: xs =>
      match argmaxCreated xs with
      | none => some x
      | some b => if x.created_at < b.created_at then some b else some x

/-- Lines 247–271: locate the idempotency marker — first a movement with an
explicit shipment reference, else (when the order number is truthy) the
most recent `order_shipment` movement whose notes contain it. -/
def lookupMarkerM (movs : List Movement) (s : Shipment) : Option Movement :=
  match movs.find? (byShipmentMatch s.id) with
  | some m => some m
  | none =>
      match s.order_number with
      | some onum =>
          if onum = "" then none else argmaxCreated (movs.filter (fallbackMatch onum))
      | none => none

def lookupMarker (db : ReconDB) (s : Shipment) : Option Movement :=
  lookupMarkerM db.movements s

/-- Lines 300–307: the stock filter — matching item, location type `Batch`
or `Production`. -/
def stockMatch (ity iid : String) (r : StockRow) : Bool :=
  r.item_type == ity && r.item_id == iid &&
    (r.location_type == "Batch" || r.location_type == "Production")

/-- Strict descending comparison on `available` with nulls first
(Postgres default for a descending order). -/
def availGt : Option Int → Option Int → Bool
  | none, none => false
  | none, some _ => true
  | some _, none => false
  | some a, some b => decide (b < a)

/-- `order('available', descending).limit(1)`: the first row of maximal
`available` in list order. -/
def selectStock : List StockRow → Option StockRow
  | [] => none
  | x :: xs =>
      match selectStock xs with
      | none => some x
      | some b => if availGt b.available x.available then some b else some x

/-- Line 313: `stock?.available ?? stock?.on_hand ?? 0`. -/
def availOf (r : StockRow) : Int :=
  match r.available with
  | some v => v
  | none => r.on_hand.getD 0

/-- Lines 320–324, per row: set `on_hand` of a row with the given id. -/
def updStockFn (sid : Nat) (v : Int) (r : StockRow) : StockRow :=
  if r.id = sid then { r with on_hand := some v } else r

/-- Lines 320–324: set `on_hand` of the rows with the given id. -/
def updStockOnHand (stocks : List StockRow) (sid : Nat) (v : Int) : List StockRow :=
  stocks.map (updStockFn sid v)

/-- JS truthiness of the notes field (line 331). -/
def notesTruthy : Option String → Bool
  | some n => n ≠ ""
  | none => false

/-- Line 331: `` `${notes ? notes + ' | ' : ''}Reconciled via cron` ``. -/
def stampNotes (old : Option String) : String :=
  (if notesTruthy old then old.getD "" ++ " | " else "") ++ sentinel

/-- JS falsiness of the sku field (line 333). -/
def skuFalsy : Option String → Bool
  | some s => s = ""
  | none => true

/-- Lines 330–340, per row: the rows with the marker's id receive the
stamped notes (computed from the fetched marker `m`) and, when the
marker's sku was falsy, the backfilled `sku` column. -/
def stampFn (m : Movement) (skuCanon : String) (x : Movement) : Movement :=
  if x.id = m.id then
    { x with notes := some (stampNotes m.notes),
             sku := if skuFalsy m.sku then some skuCanon else x.sku }
  else x

/-- Lines 330–340: the movement update as applied to the whole table. -/
def stampMovement (movs : List Movement) (m : Movement) (skuCanon : String) : List Movement :=
  movs.map (stampFn m skuCanon)

/-- Observable effects of the deductor, for stating per-pair counts. -/
inductive ReconEvent
  | deduct (shipmentId : Nat) (sku : String) (stockId : Nat) (qty : Int)
  | stamp (shipmentId : Nat) (sku : String) (movementId : Nat)
deriving DecidableEq

/-- `runOnce` lines 242–341: process one `(skuCanon, qty)` entry of a
shipment — find the idempotency marker (skip when absent), skip when
already stamped, resolve the SKU (skip when unresolvable), pick the best
`Batch`/`Production` stock row (skip when missing or short), then
decrement `on_hand` and stamp the marker. -/
def processPair (maps : SkuMaps) (db : ReconDB) (s : Shipment)
    (skuCanon : String) (qty : Int) : ReconDB × List ReconEvent :=
  if skuCanon = "" ∨ qty = 0 then (db, [])
  else
    match lookupMarkerM db.movements s with
    | none => (db, [])
    | some m =>
        if isStamped m then (db, [])
        else
          match itemRef (resolveSkuWithClient skuCanon maps.productMap maps.bundleMap
              maps.clientSkuMap) with
          | none => (db, [])
          | some (ity, iid) =>
              match selectStock (db.stocks.filter (stockMatch ity iid)) with
              | none => (db, [])
              | some st =>
                  if availOf st < qty then (db, [])
                  else
                    let newOnHand := st.on_hand.getD 0 - qty
                    ({ movements := stampMovement db.movements m skuCanon,
                       stocks := updStockOnHand db.stocks st.id newOnHand },
                     [.deduct s.id skuCanon st.id qty, .stamp s.id skuCanon m.id])

/-- The flattened pair sequence of a run (each shipment contributes its
grouped SKU entries in order). -/
def allPairs (ss : List Shipment) : List (Shipment × String × Int) :=
  ss.flatMap fun s => (qtyBySku s.items).map fun p => (s, p.1, p.2)

/-- Process a sequence of `(shipment, sku, qty)` entries, threading the
store state and concatenating the emitted events. -/
def runPairsList (maps : SkuMaps) (db : ReconDB) :
    List (Shipment × String × Int) → ReconDB × List ReconEvent
  | [] => (db, [])
  | (s, k, q) :: rest =>
      let r := processPair maps db s k q
      let r2 := runPairsList maps r.1 rest
      (r2.1, r.2 ++ r2.2)

/-- One full pass of the deductor over a fetched shipment list
(lines 228–342). -/
def runShipments (maps : SkuMaps) (db : ReconDB) (ss : List Shipment) :
    ReconDB × List ReconEvent :=
  runPairsList maps db (allPairs ss)

/-- `n` scheduled runs of the deductor over the same shipment set. -/
def runShipmentsN (maps : SkuMaps) (db : ReconDB) (ss : List Shipment) :
    Nat → ReconDB × List ReconEvent
  | 0 => (db, [])
  | n + 1 =>
      let r := runShipments maps db ss
      let r2 := runShipmentsN maps r.1 ss n
      (r2.1, r.2 ++ r2.2)

/-- Number of stock decrements attributed to a shipment-SKU pair. -/
def countDeduct (tr : List ReconEvent) (sid : Nat) (k : String) : Nat :=
  tr.countP fun e =>
    match e with
    | .deduct s' k' _ _ => s' == sid && k' == k
    | _ => false

/-- Number of sentinel stamps attributed to a shipment-SKU pair. -/
def countStamp (tr : List ReconEvent) (sid : Nat) (k : String) : Nat :=
  tr.countP fun e =>
    match e with
    | .stamp s' k' _ => s' == sid && k' == k
    | _ => false

/-- Every marker the lookup can produce for this shipment is already
stamped (in particular when there is no marker at all): processing any of
the shipment's lines must skip. -/
def blocked (movs : List Movement) (s : Shipment) : Prop :=
  ∀ m, lookupMarkerM movs s = some m → isStamped m = true

/-- The chosen `Batch`/`Production` stock row for this item is missing or
too short for the quantity. -/
def stockShort (db : ReconDB) (ity iid : String) (q : Int) : Prop :=
  match selectStock (db.stocks.filter (stockMatch ity iid)) with
  | none => True
  | some st => availOf st < q

/-- The pair `(s, k, q)` is settled in `db`: processing it skips — a falsy
SKU or quantity, a blocked marker, an unresolvable SKU, or a missing or
insufficient stock pick. -/
def settled (maps : SkuMaps) (db : ReconDB) (s : Shipment) (k : String) (q : Int) : Prop :=
  k = "" ∨ q = 0 ∨ blocked db.movements s ∨
  match itemRef (resolveSkuWithClient k maps.productMap maps.bundleMap maps.clientSkuMap) with
  | none => True
  | some (ity, iid) => stockShort db ity iid q

/-! ## Multi-source shipment merger: unbatched and batched page processing
(ShipStation feed; `supabase.js` lines 733–757 / 785–810 and
`backfillShipmentsFromEvents.js` lines 193–272) -/

/-- A `shipments` table row: its id and its column values. -/
abbrev ShipRow := Nat × Row

/-- The `shipments` table, with the id the next insert receives. -/
structure ShipTable where
  rows : List ShipRow
  nextId : Nat
deriving DecidableEq

/-- `eq('tracking_number', t)` on a row (`t` is non-empty at call sites). -/
def trackingEq (t : String) (r : ShipRow) : Bool :=
  getField r.2 "tracking_number" == some (.s t)

/-- `findShipmentByTracking` (`supabase.js` lines 603–616): falsy tracking
gives null, else the first row with that tracking number. -/
def findShipmentByTracking (rows : List ShipRow) (t : String) : Option ShipRow :=
  if t = "" then none else rows.find? (trackingEq t)

/-- `findOrderByOrderNumber` (`supabase.js` lines 588–601): falsy order
number gives null, else the first order row with that number. -/
def findOrderByOrderNumber (orders : List OrderRow) (onum : Option String) : Option OrderRow :=
  match onum with
  | none => none
  | some o => if o = "" then none else orders.find? (fun r => r.order_number == some o)

/-- `upsertShipmentFromShipStationEvent` (`supabase.js` lines 733–757):
trim the tracking (skip when falsy), look up an existing shipment by it,
resolve the order by order number, build the candidate; insert it when no
row exists, else apply the fill-missing update computed against the
selected-column view of the existing row. -/
def upsertShipmentFromShipStationEvent (parse : String → Option String)
    (orders : List OrderRow) (tbl : ShipTable) (evt : SSEvent) : ShipTable :=
  let tracking := trimL (evt.tracking_number.getD "")
  if tracking = "" then tbl
  else
    let existing := findShipmentByTracking tbl.rows tracking
    let orderRow := findOrderByOrderNumber orders evt.order_number
    let candidate := makeShipmentRowFromShipStationEvent parse evt orderRow
    match existing with
    | none =>
        { rows := tbl.rows ++ [(tbl.nextId, candidate)], nextId := tbl.nextId + 1 }
    | some ex =>
        let upd := buildUpdateForMissingFields (selectCols shipmentColsUnbatched ex.2) candidate
        if upd.isEmpty then tbl
        else
          { tbl with
            rows := tbl.rows.map fun r =>
              if r.1 = ex.1 then (r.1, applyUpdate r.2 upd) else r }

/-- The unbatched page processing: one upsert per event, in order
(`supabase.js` lines 804–806). -/
def processPageUnbatched (parse : String → Option String) (orders : List OrderRow)
    (tbl : ShipTable) (events : List SSEvent) : ShipTable :=
  events.foldl (upsertShipmentFromShipStationEvent parse orders) tbl

/-- The row's truthy tracking value, as keyed by
`buildExistingShipmentMap` (lines 185–191). -/
def trackStrOf (r : Row) : Option String :=
  match getField r "tracking_number" with
  | some (.s v) => if v = "" then none else some v
  | _ => none

/-- One `update(upd).eq('id', id)` against the shipments table. -/
def applyUpd1 (t : ShipTable) (u : Nat × List (String × FVal)) : ShipTable :=
  { t with
    rows := t.rows.map fun r => if r.1 = u.1 then (r.1, applyUpdate r.2 u.2) else r }

/-- The page's trimmed, truthy tracking numbers
(`backfillShipmentsFromEvents.js` lines 198–201). -/
def pageTrackings (events : List SSEvent) : List String :=
  events.filterMap fun e =>
    let t := trimL (e.tracking_number.getD "")
    if t = "" then none else some t

/-- The batched existing-shipment snapshot: the rows whose stored tracking
is on the page, reduced to the selected columns (lines 185–191 and
219–224). -/
def existingViewsOf (tbl : ShipTable) (trackings : List String) : List (Nat × Row) :=
  (tbl.rows.filter fun r =>
    match getField r.2 "tracking_number" with
    | some (.s v) => trackings.contains v
    | _ => false).map fun r => (r.1, selectCols shipmentColsBatched r.2)

/-- The `existingByTracking` map lookup: JS `Map.set` keeps the last row
per tracking key. -/
def getExistingB (views : List (Nat × Row)) (t : String) : Option (Nat × Row) :=
  (views.filter fun rv => trackStrOf rv.2 = some t).getLast?

/-- The page's truthy order numbers (lines 203–206). -/
def pageOrderNumbers (events : List SSEvent) : List String :=
  events.filterMap fun e =>
    match e.order_number with
    | some o => if o = "" then none else some o
    | none => none

/-- The batched orders snapshot: order rows whose number is on the page
(lines 208–217). -/
def orderRowsOf (orders : List OrderRow) (nums : List String) : List OrderRow :=
  orders.filter fun r =>
    match r.order_number with
    | some o => nums.contains o
    | none => false

/-- The `` `on|storeId` `` composite map of `buildOrderMaps` (lines
171–183), modelled structurally as `(order_number, store_id)` pairs
(`'null'` encoded as `none`); `Map.set` keeps the last row per key. -/
def byCompositeB (orderRows : List OrderRow) (onum : Option String)
    (sid : Option Int) : Option OrderRow :=
  (orderRows.filter fun r => r.order_number = onum ∧ r.store_id = sid).getLast?

/-- The by-number order map of `buildOrderMaps`: the first row per
number. -/
def byNumberB (orderRows : List OrderRow) (onum : Option String) : Option OrderRow :=
  match onum with
  | none => none
  | some o => (orderRows.filter fun r => r.order_number = some o).head?

/-- One step of the batched partition fold (lines 226–258): skip a falsy
tracking, look the event up in the snapshots, and append either an insert
candidate or an id-keyed update. -/
def batchStep (parse : String → Option String) (views : List (Nat × Row))
    (orderRows : List OrderRow)
    (acc : List Row × List (Nat × List (String × FVal))) (evt : SSEvent) :
    List Row × List (Nat × List (String × FVal)) :=
  let tracking := trimL (evt.tracking_number.getD "")
  if tracking = "" then acc
  else
    let existing := getExistingB views tracking
    let orderRow :=
      match byCompositeB orderRows evt.order_number evt.store_id with
      | some r => some r
      | none => byNumberB orderRows evt.order_number
    let candidate := makeShipmentRowFromShipStationEvent parse evt orderRow
    match existing with
    | none => (acc.1 ++ [candidate], acc.2)
    | some ex =>
        let upd := buildUpdateForMissingFields ex.2 candidate
        if upd.isEmpty then acc else (acc.1, acc.2 ++ [(ex.1, upd)])

/-- The batched page processing (`processShipStationEvents`, lines
193–272): collect the page's trimmed tracking numbers and truthy order
numbers, fetch existing shipments and orders once, partition the events
into an insert list and an update list against those snapshots, then bulk
insert and apply the updates. -/
def processPageBatched (parse : String → Option String) (orders : List OrderRow)
    (tbl : ShipTable) (events : List SSEvent) : ShipTable :=
  let views := existingViewsOf tbl (pageTrackings events)
  let orderRows := orderRowsOf orders (pageOrderNumbers events)
  let res := events.foldl (batchStep parse views orderRows) ([], [])
  let afterIns : ShipTable :=
    { rows := tbl.rows ++ res.1.enum.map (fun p => (tbl.nextId + p.1, p.2)),
      nextId := tbl.nextId + res.1.length }
  res.2.foldl applyUpd1 afterIns

/-- Per-event classification of a page against a fixed table state: the
outcome (insert candidate, or id-keyed fill-missing update) each event
produces when looked up against `rows` — the common normal form of the
two page-processing paths when the page's trackings are distinct. -/
def classifyEvents (parse : String → Option String) (orders : List OrderRow)
    (rows : List ShipRow) :
    List SSEvent → List Row × List (Nat × List (String × FVal))
  | [] => ([], [])
  | evt :: rest =>
      let t := trimL (evt.tracking_number.getD "")
      let acc := classifyEvents parse orders rows rest
      if t = "" then acc
      else
        let candidate := makeShipmentRowFromShipStationEvent parse evt
          (findOrderByOrderNumber orders evt.order_number)
        match rows.find? (trackingEq t) with
        | none => (candidate :: acc.1, acc.2)
        | some ex =>
            let upd := buildUpdateForMissingFields (selectCols shipmentColsUnbatched ex.2)
              candidate
            if upd.isEmpty then acc else (acc.1, (ex.1, upd) :: acc.2)

/-! ## General list lemmas -/

theorem find?_map_of_pred {α : Type} (g : α → α) (p : α → Bool) :
    ∀ l : List α, (∀ x ∈ l, p (g x) = p x) → (l.map g).find? p = (l.find? p).map g := by
  intro l
  induction l with
  | nil => intro _; rfl
  | cons a t ih =>
      intro h
      simp only [List.map_cons, List.find?]
      rw [h a (by simp)]
      cases hpa : p a with
      | true => rfl
      | false => exact ih fun x hx => h x (by simp [hx])

theorem filter_map_of_pred {α : Type} (g : α → α) (p : α → Bool) :
    ∀ l : List α, (∀ x ∈ l, p (g x) = p x) → (l.map g).filter p = (l.filter p).map g := by
  intro l
  induction l with
  | nil => intro _; rfl
  | cons a t ih =>
      intro h
      simp only [List.map_cons, List.filter]
      rw [h a (by simp)]
      cases hpa : p a with
      | true => simp [ih fun x hx => h x (by simp [hx])]
      | false => exact ih fun x hx => h x (by simp [hx])

/-! ## Pagination (claim C9) -/

theorem pagedLoop_length_le {α : Type} (feed : Nat → List α) (pageSize : Nat) :
    ∀ fuel page, (pagedLoop feed pageSize page fuel).length ≤ fuel := by
  intro fuel
  induction fuel with
  | zero => intro page; simp [pagedLoop]
  | succ n ih =>
      intro page
      simp only [pagedLoop]
      split
      · simp
      · split
        · simp
        · simpa using Nat.succ_le_succ (ih (page + 1))

theorem pagedLoop_length_of_full {α : Type} (feed : Nat → List α) (pageSize : Nat)
    (hps : 0 < pageSize) (hfull : ∀ k, pageSize ≤ (feed k).length) :
    ∀ fuel page, (pagedLoop feed pageSize page fuel).length = fuel := by
  intro fuel
  induction fuel with
  | zero => intro page; simp [pagedLoop]
  | succ n ih =>
      intro page
      simp only [pagedLoop]
      have h1 : ¬ (feed page).length = 0 := by
        have := hfull page; omega
      have h2 : ¬ (feed page).length < pageSize := by
        have := hfull page; omega
      rw [if_neg h1, if_neg h2]
      simpa using ih (page + 1)

/-- C9: every paginated job loop terminates — a run never processes more
than the configured max-page count, a page shorter than the page size is
the last page of its loop, and a feed that never shrinks below the page
size is cut off at exactly the max-page ceiling. -/
theorem pagination_terminates {α : Type} (feed : Nat → List α)
    (pageSize maxPages page fuel : Nat) (hps : 0 < pageSize) :
    (pagedRun feed pageSize maxPages).length ≤ maxPages
    ∧ ((feed page).length < pageSize →
        pagedLoop feed pageSize page (fuel + 1) =
          if (feed page).length = 0 then [] else [feed page])
    ∧ ((∀ k, pageSize ≤ (feed k).length) →
        (pagedRun feed pageSize maxPages).length = maxPages) := by
  refine ⟨pagedLoop_length_le feed pageSize maxPages 0, ?_, ?_⟩
  · intro hshort
    simp only [pagedLoop]
    split <;> simp_all
  · intro hfull
    exact pagedLoop_length_of_full feed pageSize hps hfull maxPages 0

/-- Witness for C9 at a concrete feed. -/
theorem pagination_terminates_witness :
    (0 : Nat) < 2 ∧
    ((pagedRun (fun _ => [0]) 2 5).length ≤ 5
     ∧ (((fun (_ : Nat) => [(0 : Nat)]) 0).length < 2 →
         pagedLoop (fun _ => [0]) 2 0 (3 + 1) =
           if (((fun (_ : Nat) => [(0 : Nat)]) 0).length = 0) then [] else [[0]])
     ∧ ((∀ k, 2 ≤ (((fun (_ : Nat) => [(0 : Nat)])) k).length) →
         (pagedRun (fun _ => [0]) 2 5).length = 5)) :=
  ⟨by decide, pagination_terminates (fun _ => [0]) 2 5 0 3 (by decide)⟩

/-! ## Alert manager (claim C6) -/

/-- C6: the alert decision per SKU with queued demand — demand above total
supply raises `purchase/high`; otherwise demand above pickable with
positive backstock raises `restock/medium`; otherwise no alert is raised
and every existing active alert for that SKU and client is deactivated. -/
theorem alert_transition (alerts : List Alert) (sku : String) (cid : Option Nat)
    (qtyNeeded pick back total : Int) :
    (qtyNeeded > total →
      alertDecision qtyNeeded pick back total = some ("purchase", "high"))
    ∧ (qtyNeeded ≤ total → qtyNeeded > pick → back > 0 →
      alertDecision qtyNeeded pick back total = some ("restock", "medium"))
    ∧ (qtyNeeded ≤ total → (qtyNeeded ≤ pick ∨ back ≤ 0) →
      alertDecision qtyNeeded pick back total = none
      ∧ alertStep alerts sku cid qtyNeeded pick back total = clearAlerts alerts sku cid
      ∧ ∀ a ∈ alertStep alerts sku cid qtyNeeded pick back total,
          a.item_type = "client_product" → a.message = sku → a.client_id = cid →
          a.is_active = false) := by
  have hdec : ∀ (h1 : qtyNeeded ≤ total) (_ : qtyNeeded ≤ pick ∨ back ≤ 0),
      alertDecision qtyNeeded pick back total = none := by
    intro h1 h2
    simp only [alertDecision]
    have hp : ¬ qtyNeeded > total := by omega
    have hr : ¬ (qtyNeeded > pick ∧ back > 0) := by omega
    simp [hp, hr]
  refine ⟨?_, ?_, ?_⟩
  · intro h
    simp [alertDecision, h]
  · intro h1 h2 h3
    have hp : ¬ qtyNeeded > total := by omega
    simp [alertDecision, hp, h2, h3]
  · intro h1 h2
    have hnone := hdec h1 h2
    have hstep : alertStep alerts sku cid qtyNeeded pick back total =
        clearAlerts alerts sku cid := by
      simp [alertStep, hnone]
    refine ⟨hnone, hstep, ?_⟩
    intro a ha hit hmsg hcid
    rw [hstep] at ha
    simp only [clearAlerts, List.mem_map] at ha
    obtain ⟨a0, _, rfl⟩ := ha
    by_cases hc : a0.item_type = "client_product" ∧ a0.message = sku ∧
        a0.client_id = cid ∧ a0.is_active
    · simp [hc]
    · rw [if_neg hc] at hit hmsg hcid ⊢
      rcases Bool.eq_false_or_eq_true a0.is_active with hact | hact
      · exact absurd ⟨hit, hmsg, hcid, hact⟩ hc
      · exact hact

/-- Witness for C6 at the spec's concrete transitions. -/
theorem alert_transition_witness :
    ((100 : Int) > 50 →
      alertDecision 100 20 50 50 = some ("purchase", "high"))
    ∧ ((100 : Int) ≤ 200 → (100 : Int) > 20 → (50 : Int) > 0 →
      alertDecision 100 20 50 200 = some ("restock", "medium"))
    ∧ ((10 : Int) ≤ 200 → ((10 : Int) ≤ 20 ∨ (50 : Int) ≤ 0) →
      alertDecision 10 20 50 200 = none
      ∧ alertStep [⟨some 3, "client_product", "restock", "sku1", "medium", true⟩]
          "sku1" (some 3) 10 20 50 200 =
          clearAlerts [⟨some 3, "client_product", "restock", "sku1", "medium", true⟩]
            "sku1" (some 3)
      ∧ ∀ a ∈ alertStep [⟨some 3, "client_product", "restock", "sku1", "medium", true⟩]
            "sku1" (some 3) 10 20 50 200,
          a.item_type = "client_product" → a.message = "sku1" → a.client_id = some 3 →
          a.is_active = false) := by
  have hA := alert_transition ([] : List Alert) "sku1" (some 3) 100 20 50 50
  have hB := alert_transition ([] : List Alert) "sku1" (some 3) 100 20 50 200
  have hC := alert_transition
    [⟨some 3, "client_product", "restock", "sku1", "medium", true⟩]
    "sku1" (some 3) 10 20 50 200
  exact ⟨hA.1, hB.2.1, hC.2.2⟩

/-! ## Ship date defaulting (claim C10) -/

/-- C10: in both shipment-candidate builders and in the order tracking
backfiller, a missing or unparseable ship date with a parseable create
date makes the candidate's `ship_date` (resp. the backfilled
`actual_ship_date`) equal the create date. -/
theorem ship_date_defaults_to_create_date (parse : String → Option String) (d : String) :
    (∀ (evt : SSEvent) (orderRow : Option OrderRow),
      toIsoOrNull parse evt.ship_date = none →
      toIsoOrNull parse evt.create_date = some d →
      getField (makeShipmentRowFromShipStationEvent parse evt orderRow) "ship_date" =
        some (.s d))
    ∧ (∀ (evt : SEEvent) (orderRow : Option OrderRow),
      toIsoOrNull parse evt.ship_date = none →
      toIsoOrNull parse evt.create_date = some d →
      getField (makeShipmentRowFromShipEngineEvent parse evt orderRow) "ship_date" =
        some (.s d))
    ∧ (∀ tn sd cd : Option String,
      toIsoOrNull parse sd = none →
      toIsoOrNull parse cd = some d →
      trimL (tn.getD "") ≠ "" → d ≠ "" →
      foundFromShipStationRow parse tn sd cd = some ⟨trimL (tn.getD ""), some d⟩
      ∧ actualShipDateUpdate ⟨trimL (tn.getD ""), some d⟩ = some d) := by
  refine ⟨?_, ?_, ?_⟩
  · intro evt orderRow hsd hcd
    simp only [makeShipmentRowFromShipStationEvent, hsd, hcd]
    rfl
  · intro evt orderRow hsd hcd
    simp only [makeShipmentRowFromShipEngineEvent, hsd, hcd]
    rfl
  · intro tn sd cd hsd hcd htn hd
    refine ⟨?_, by simp [actualShipDateUpdate, hd]⟩
    simp [foundFromShipStationRow, hsd, hcd, jsOr, strTruthy, htn, hd]

/-- Witness for C10 at a concrete event with a missing ship date. -/
theorem ship_date_defaults_to_create_date_witness :
    getField (makeShipmentRowFromShipStationEvent (fun s => some s)
        ⟨none, none, none, none, some "T1", none, none, none, none, none, none, none, none,
          some "2024-06-01T10:00:00.000Z", none, none, none, none, none⟩ none)
        "ship_date" = some (.s "2024-06-01T10:00:00.000Z")
    ∧ getField (makeShipmentRowFromShipEngineEvent (fun s => some s)
        ⟨none, none, some "T1", none, none, none, none, none,
          some "2024-06-01T10:00:00.000Z", none, none, none, none, none, none, none, none,
          none, none, none, none, none, none, none⟩ none)
        "ship_date" = some (.s "2024-06-01T10:00:00.000Z")
    ∧ (foundFromShipStationRow (fun s => some s) (some "T1") none
          (some "2024-06-01T10:00:00.000Z") =
        some ⟨"T1", some "2024-06-01T10:00:00.000Z"⟩
      ∧ actualShipDateUpdate ⟨"T1", some "2024-06-01T10:00:00.000Z"⟩ =
        some "2024-06-01T10:00:00.000Z") := by
  have h := ship_date_defaults_to_create_date (fun s => some s) "2024-06-01T10:00:00.000Z"
  refine ⟨h.1 _ none (by decide) (by decide), h.2.1 _ none (by decide) (by decide), ?_⟩
  have h3 := h.2.2 (some "T1") none (some "2024-06-01T10:00:00.000Z")
    (by decide) (by decide) (by decide) (by decide)
  simpa [trimL] using h3

/-! ## SKU resolver (claims C5 and C4) -/

theorem tryKeys_cases (norm : String) :
    ∀ (keys : List String) (best : String),
      tryKeys norm keys best = best ∨
      (tryKeys norm keys best ∈ keys ∧ startsWithL norm (tryKeys norm keys best) = true) := by
  intro keys
  induction keys with
  | nil => intro best; left; rfl
  | cons k rest ih =>
      intro best
      simp only [tryKeys]
      by_cases hc : startsWithL norm k && best.length < k.length
      · rw [if_pos hc]
        rcases ih k with h | h
        · right
          refine ⟨by simp [h], ?_⟩
          rw [h]
          simp only [Bool.and_eq_true] at hc
          exact hc.1
        · right; exact ⟨by simp [h.1], h.2⟩
      · rw [if_neg hc]
        rcases ih best with h | h
        · left; exact h
        · right; exact ⟨by simp [h.1], h.2⟩

theorem tryKeys_le (norm : String) :
    ∀ (keys : List String) (best : String),
      best.length ≤ (tryKeys norm keys best).length := by
  intro keys
  induction keys with
  | nil => intro best; simp [tryKeys]
  | cons k rest ih =>
      intro best
      simp only [tryKeys]
      by_cases hc : startsWithL norm k && best.length < k.length
      · rw [if_pos hc]
        simp only [Bool.and_eq_true, decide_eq_true_eq] at hc
        exact (Nat.le_of_lt hc.2).trans (ih k)
      · rw [if_neg hc]; exact ih best

theorem tryKeys_max (norm : String) :
    ∀ (keys : List String) (best : String) (k : String), k ∈ keys →
      startsWithL norm k = true → k.length ≤ (tryKeys norm keys best).length := by
  intro keys
  induction keys with
  | nil => intro best k hk; exact absurd hk (List.not_mem_nil k)
  | cons k0 rest ih =>
      intro best k hk hsw
      simp only [tryKeys]
      rcases List.mem_cons.mp hk with rfl | hk'
      · by_cases hc : startsWithL norm k && best.length < k.length
        · rw [if_pos hc]
          exact (tryKeys_le norm rest k)
        · rw [if_neg hc]
          have : ¬ best.length < k.length := by
            intro hlt
            exact hc (by simp [hsw, hlt])
          exact (Nat.le_of_not_lt this).trans (tryKeys_le norm rest best)
      · by_cases hc : startsWithL norm k0 && best.length < k0.length
        · rw [if_pos hc]; exact ih k0 k hk' hsw
        · rw [if_neg hc]; exact ih best k hk' hsw

theorem string_length_eq_zero {s : String} (h : s.length = 0) : s = "" := by
  cases s with
  | mk data =>
      cases data with
      | nil => rfl
      | cons c cs => simp [String.length] at h

/-- C5: the resolution algorithm — normalize, then exact bundle match, then
exact product match, then the longest bundle key starting the normalized
SKU (a bundle key beating any product key), then the longest product key,
then the first segment of the SKU split on `-`, `_`, `.` with a null match
type; `"zz-001"` resolves to base `"zz"`, match type null. -/
theorem resolver_longest_key_spec (rawSku : String) (pm bm : List (String × Nat))
    (hraw : rawSku ≠ "") :
    ((bm.lookup (normalizeSku rawSku)).isSome →
      (resolveSku rawSku pm bm).baseSku = normalizeSku rawSku ∧
      (resolveSku rawSku pm bm).matchType = some .bundle)
    ∧ ((bm.lookup (normalizeSku rawSku)).isNone →
       (pm.lookup (normalizeSku rawSku)).isSome →
      (resolveSku rawSku pm bm).baseSku = normalizeSku rawSku ∧
      (resolveSku rawSku pm bm).matchType = some .product)
    ∧ ((bm.lookup (normalizeSku rawSku)).isNone →
       (pm.lookup (normalizeSku rawSku)).isNone →
       (∃ k ∈ bm.map Prod.fst, k ≠ "" ∧ startsWithL (normalizeSku rawSku) k = true) →
      (resolveSku rawSku pm bm).matchType = some .bundle
      ∧ (resolveSku rawSku pm bm).baseSku ∈ bm.map Prod.fst
      ∧ startsWithL (normalizeSku rawSku) (resolveSku rawSku pm bm).baseSku = true
      ∧ ∀ k ∈ bm.map Prod.fst, startsWithL (normalizeSku rawSku) k = true →
          k.length ≤ (resolveSku rawSku pm bm).baseSku.length)
    ∧ ((bm.lookup (normalizeSku rawSku)).isNone →
       (pm.lookup (normalizeSku rawSku)).isNone →
       (∀ k ∈ bm.map Prod.fst, startsWithL (normalizeSku rawSku) k = true → k = "") →
       (∃ k ∈ pm.map Prod.fst, k ≠ "" ∧ startsWithL (normalizeSku rawSku) k = true) →
      (resolveSku rawSku pm bm).matchType = some .product
      ∧ (resolveSku rawSku pm bm).baseSku ∈ pm.map Prod.fst
      ∧ startsWithL (normalizeSku rawSku) (resolveSku rawSku pm bm).baseSku = true
      ∧ ∀ k ∈ pm.map Prod.fst, startsWithL (normalizeSku rawSku) k = true →
          k.length ≤ (resolveSku rawSku pm bm).baseSku.length)
    ∧ ((bm.lookup (normalizeSku rawSku)).isNone →
       (pm.lookup (normalizeSku rawSku)).isNone →
       (∀ k ∈ bm.map Prod.fst, startsWithL (normalizeSku rawSku) k = true → k = "") →
       (∀ k ∈ pm.map Prod.fst, startsWithL (normalizeSku rawSku) k = true → k = "") →
      resolveSku rawSku pm bm = ⟨splitFirstSeg (normalizeSku rawSku), none, none⟩)
    ∧ resolveSku "zz-001" [] [] = ⟨"zz", none, none⟩ := by
  have hresolve : resolveSku rawSku pm bm =
      (match bm.lookup (normalizeSku rawSku) with
       | some b => ⟨normalizeSku rawSku, some .bundle, some b⟩
       | none =>
         match pm.lookup (normalizeSku rawSku) with
         | some p => ⟨normalizeSku rawSku, some .product, some p⟩
         | none => resolveTail (normalizeSku rawSku) pm bm) := by
    simp [resolveSku, hraw]
  have tailNoBundle : ∀ norm : String,
      (∀ k ∈ bm.map Prod.fst, startsWithL norm k = true → k = "") →
      tryKeys norm (bm.map Prod.fst) "" = "" := by
    intro norm hall
    rcases tryKeys_cases norm (bm.map Prod.fst) "" with h | h
    · exact h
    · exact hall _ h.1 h.2
  have tailNoProduct : ∀ norm : String,
      (∀ k ∈ pm.map Prod.fst, startsWithL norm k = true → k = "") →
      tryKeys norm (pm.map Prod.fst) "" = "" := by
    intro norm hall
    rcases tryKeys_cases norm (pm.map Prod.fst) "" with h | h
    · exact h
    · exact hall _ h.1 h.2
  refine ⟨?_, ?_, ?_, ?_, ?_, ?_⟩
  · intro hb
    rw [hresolve]
    obtain ⟨b, hbv⟩ := Option.isSome_iff_exists.mp hb
    rw [hbv]
    exact ⟨rfl, rfl⟩
  · intro hb hp
    rw [hresolve]
    rw [Option.isNone_iff_eq_none.mp hb]
    obtain ⟨p, hpv⟩ := Option.isSome_iff_exists.mp hp
    rw [hpv]
    exact ⟨rfl, rfl⟩
  · intro hb hp hex
    obtain ⟨k, hkmem, hkne, hksw⟩ := hex
    have hkey : tryKeys (normalizeSku rawSku) (bm.map Prod.fst) "" ≠ "" := by
      intro h0
      have := tryKeys_max (normalizeSku rawSku) (bm.map Prod.fst) "" k hkmem hksw
      rw [h0] at this
      simp only [String.length] at this
      exact hkne (string_length_eq_zero (Nat.le_zero.mp this))
    have hcase := tryKeys_cases (normalizeSku rawSku) (bm.map Prod.fst) ""
    rcases hcase with h | h
    · exact absurd h hkey
    · rw [hresolve, Option.isNone_iff_eq_none.mp hb, Option.isNone_iff_eq_none.mp hp]
      simp only [resolveTail]
      rw [if_pos hkey]
      exact ⟨rfl, h.1, h.2,
        fun k' hk' hsw' => tryKeys_max (normalizeSku rawSku) (bm.map Prod.fst) "" k' hk' hsw'⟩
  · intro hb hp hnob hex
    obtain ⟨k, hkmem, hkne, hksw⟩ := hex
    have hbkey := tailNoBundle (normalizeSku rawSku) hnob
    have hkey : tryKeys (normalizeSku rawSku) (pm.map Prod.fst) "" ≠ "" := by
      intro h0
      have := tryKeys_max (normalizeSku rawSku) (pm.map Prod.fst) "" k hkmem hksw
      rw [h0] at this
      simp only [String.length] at this
      exact hkne (string_length_eq_zero (Nat.le_zero.mp this))
    have hcase := tryKeys_cases (normalizeSku rawSku) (pm.map Prod.fst) ""
    rcases hcase with h | h
    · exact absurd h hkey
    · rw [hresolve, Option.isNone_iff_eq_none.mp hb, Option.isNone_iff_eq_none.mp hp]
      simp only [resolveTail]
      rw [hbkey]
      simp only [ne_eq, not_true_eq_false, if_false]
      rw [if_pos hkey]
      exact ⟨rfl, h.1, h.2,
        fun k' hk' hsw' => tryKeys_max (normalizeSku rawSku) (pm.map Prod.fst) "" k' hk' hsw'⟩
  · intro hb hp hnob hnop
    rw [hresolve, Option.isNone_iff_eq_none.mp hb, Option.isNone_iff_eq_none.mp hp]
    simp only [resolveTail]
    rw [tailNoBundle (normalizeSku rawSku) hnob, tailNoProduct (normalizeSku rawSku) hnop]
    simp
  · decide

/-- Witness for C5: the theorem applied at SKU `bundle123` with product
key `bundle` and bundle key `bun` (the bundle key wins though shorter). -/
theorem resolver_longest_key_spec_witness :
    ("bundle123" : String) ≠ ""
    ∧ (((([("bun", 2)] : List (String × Nat)).lookup (normalizeSku "bundle123")).isSome →
        (resolveSku "bundle123" [("bundle", 1)] [("bun", 2)]).baseSku =
          normalizeSku "bundle123" ∧
        (resolveSku "bundle123" [("bundle", 1)] [("bun", 2)]).matchType = some .bundle)
      ∧ ((([("bun", 2)] : List (String × Nat)).lookup (normalizeSku "bundle123")).isNone →
         (([("bundle", 1)] : List (String × Nat)).lookup (normalizeSku "bundle123")).isSome →
        (resolveSku "bundle123" [("bundle", 1)] [("bun", 2)]).baseSku =
          normalizeSku "bundle123" ∧
        (resolveSku "bundle123" [("bundle", 1)] [("bun", 2)]).matchType = some .product)
      ∧ ((([("bun", 2)] : List (String × Nat)).lookup (normalizeSku "bundle123")).isNone →
         (([("bundle", 1)] : List (String × Nat)).lookup (normalizeSku "bundle123")).isNone →
         (∃ k ∈ ([("bun", 2)] : List (String × Nat)).map Prod.fst, k ≠ "" ∧
            startsWithL (normalizeSku "bundle123") k = true) →
        (resolveSku "bundle123" [("bundle", 1)] [("bun", 2)]).matchType = some .bundle
        ∧ (resolveSku "bundle123" [("bundle", 1)] [("bun", 2)]).baseSku ∈
            ([("bun", 2)] : List (String × Nat)).map Prod.fst
        ∧ startsWithL (normalizeSku "bundle123")
            (resolveSku "bundle123" [("bundle", 1)] [("bun", 2)]).baseSku = true
        ∧ ∀ k ∈ ([("bun", 2)] : List (String × Nat)).map Prod.fst,
            startsWithL (normalizeSku "bundle123") k = true →
            k.length ≤ (resolveSku "bundle123" [("bundle", 1)] [("bun", 2)]).baseSku.length)
      ∧ ((([("bun", 2)] : List (String × Nat)).lookup (normalizeSku "bundle123")).isNone →
         (([("bundle", 1)] : List (String × Nat)).lookup (normalizeSku "bundle123")).isNone →
         (∀ k ∈ ([("bun", 2)] : List (String × Nat)).map Prod.fst,
            startsWithL (normalizeSku "bundle123") k = true → k = "") →
         (∃ k ∈ ([("bundle", 1)] : List (String × Nat)).map Prod.fst, k ≠ "" ∧
            startsWithL (normalizeSku "bundle123") k = true) →
        (resolveSku "bundle123" [("bundle", 1)] [("bun", 2)]).matchType = some .product
        ∧ (resolveSku "bundle123" [("bundle", 1)] [("bun", 2)]).baseSku ∈
            ([("bundle", 1)] : List (String × Nat)).map Prod.fst
        ∧ startsWithL (normalizeSku "bundle123")
            (resolveSku "bundle123" [("bundle", 1)] [("bun", 2)]).baseSku = true
        ∧ ∀ k ∈ ([("bundle", 1)] : List (String × Nat)).map Prod.fst,
            startsWithL (normalizeSku "bundle123") k = true →
            k.length ≤ (resolveSku "bundle123" [("bundle", 1)] [("bun", 2)]).baseSku.length)
      ∧ ((([("bun", 2)] : List (String × Nat)).lookup (normalizeSku "bundle123")).isNone →
         (([("bundle", 1)] : List (String × Nat)).lookup (normalizeSku "bundle123")).isNone →
         (∀ k ∈ ([("bun", 2)] : List (String × Nat)).map Prod.fst,
            startsWithL (normalizeSku "bundle123") k = true → k = "") →
         (∀ k ∈ ([("bundle", 1)] : List (String × Nat)).map Prod.fst,
            startsWithL (normalizeSku "bundle123") k = true → k = "") →
        resolveSku "bundle123" [("bundle", 1)] [("bun", 2)] =
          ⟨splitFirstSeg (normalizeSku "bundle123"), none, none⟩)
      ∧ resolveSku "zz-001" [] [] = ⟨"zz", none, none⟩) :=
  ⟨by decide, resolver_longest_key_spec "bundle123" [("bundle", 1)] [("bun", 2)] (by decide)⟩

/-- C4 (spec-modelled): the client-aware resolver's match type is always
one of bundle, product, client_product or null; a supplied client-SKU map
can produce a `client_product` match, and the deductor maps that match to
a `client_product` item reference and performs a deduction against it. -/
theorem resolver_client_product_contract :
    (∀ (raw : String) (pm bm cm : List (String × Nat)),
      (resolveSkuWithClient raw pm bm cm).matchType = none ∨
      (resolveSkuWithClient raw pm bm cm).matchType = some .bundle ∨
      (resolveSkuWithClient raw pm bm cm).matchType = some .product ∨
      (resolveSkuWithClient raw pm bm cm).matchType = some .client_product)
    ∧ resolveSkuWithClient "abc" [] [] [("abc", 7)] = ⟨"abc", some .client_product, some 7⟩
    ∧ itemRef (resolveSkuWithClient "abc" [] [] [("abc", 7)]) =
        some ("client_product", "7")
    ∧ (runShipments ⟨[], [], [("abc", 7)]⟩
        ⟨[⟨1, none, none, some "shipment", some "9", none, 0⟩],
         [⟨4, "client_product", "7", some 10, some 10, "Batch"⟩]⟩
        [⟨9, none, [⟨some "abc", some 2⟩]⟩]).2 =
        [.deduct 9 "abc" 4 2, .stamp 9 "abc" 1] := by
  refine ⟨?_, by decide, by decide, by decide⟩
  intro raw pm bm cm
  rcases h : (resolveSkuWithClient raw pm bm cm).matchType with _ | mt
  · left; rfl
  · rcases mt with _ | _ | _
    · right; left; rfl
    · right; right; left; rfl
    · right; right; right; rfl

/-! ## Fill-missing merge (claim C2) -/

theorem getField_applyUpdate (upd : List (String × FVal)) (k : String) :
    ∀ row : Row, getField (applyUpdate row upd) k =
      match row.lookup k with
      | none => none
      | some _ =>
        match upd.lookup k with
        | some v => some v
        | none => getField row k := by
  intro row
  induction row with
  | nil => rfl
  | cons p rest ih =>
      obtain ⟨k1, w⟩ := p
      by_cases hk : k = k1
      · subst hk
        cases hu : upd.lookup k with
        | none => simp [getField, applyUpdate, List.lookup, hu]
        | some v => simp [getField, applyUpdate, List.lookup, hu]
      · have hbeq := beq_eq_false_iff_ne.mpr hk
        cases hu : upd.lookup k1 with
        | none =>
            simp only [applyUpdate, List.map_cons, hu, getField, List.lookup, hbeq]
            simpa [getField, applyUpdate] using ih
        | some v =>
            simp only [applyUpdate, List.map_cons, hu, getField, List.lookup, hbeq]
            simpa [getField, applyUpdate] using ih

theorem buildUpdate_lookup_none (ex : Row) (k : String)
    (h : getField ex k ≠ none) :
    ∀ cand : Row, (buildUpdateForMissingFields ex cand).lookup k = none := by
  intro cand
  induction cand with
  | nil => rfl
  | cons p rest ih =>
      obtain ⟨k1, w⟩ := p
      cases w with
      | none => simpa [buildUpdateForMissingFields] using ih
      | some v =>
          by_cases hmiss : getField ex k1 = none
          · have hne : k ≠ k1 := by
              intro hkp
              rw [hkp] at h
              exact h hmiss
            simp only [buildUpdateForMissingFields, List.filterMap, if_pos hmiss,
              List.lookup, beq_eq_false_iff_ne.mpr hne]
            simpa [buildUpdateForMissingFields] using ih
          · simp only [buildUpdateForMissingFields, List.filterMap, if_neg hmiss]
            simpa [buildUpdateForMissingFields] using ih

theorem lookup_some_mem_keys {β : Type} (k : String) (v : β) :
    ∀ l : List (String × β), l.lookup k = some v → k ∈ l.map Prod.fst := by
  intro l
  induction l with
  | nil => intro h; exact absurd h (by simp [List.lookup])
  | cons p rest ih =>
      intro h
      simp only [List.lookup] at h
      by_cases hk : k = p.1
      · simp [hk]
      · rw [beq_eq_false_iff_ne.mpr hk] at h
        simp only [List.map_cons, List.mem_cons]
        exact Or.inr (ih h)

theorem buildUpdate_keys_sub (ex : Row) (k : String) :
    ∀ cand : Row, k ∈ (buildUpdateForMissingFields ex cand).map Prod.fst →
      k ∈ cand.map Prod.fst := by
  intro cand
  induction cand with
  | nil => intro h; exact absurd h (by simp [buildUpdateForMissingFields])
  | cons p rest ih =>
      obtain ⟨k1, w⟩ := p
      intro h
      simp only [List.map_cons, List.mem_cons]
      cases w with
      | none =>
          exact Or.inr (ih (by simpa [buildUpdateForMissingFields] using h))
      | some v0 =>
          by_cases hmiss : getField ex k1 = none
          · simp only [buildUpdateForMissingFields, List.filterMap, if_pos hmiss,
              List.map_cons, List.mem_cons] at h
            rcases h with h | h
            · exact Or.inl h
            · exact Or.inr (ih (by simpa [buildUpdateForMissingFields] using h))
          · simp only [buildUpdateForMissingFields, List.filterMap, if_neg hmiss] at h
            exact Or.inr (ih (by simpa [buildUpdateForMissingFields] using h))

theorem buildUpdate_mem_keys_aux (ex : Row) (cand : Row) (k : String) (v : FVal)
    (h : (buildUpdateForMissingFields ex cand).lookup k = some v) :
    k ∈ cand.map Prod.fst :=
  buildUpdate_keys_sub ex k cand (lookup_some_mem_keys k v _ h)

theorem buildUpdate_lookup_some (ex : Row) (k : String) (v : FVal) :
    ∀ cand : Row, (cand.map Prod.fst).Nodup →
      (buildUpdateForMissingFields ex cand).lookup k = some v →
      getField cand k = some v := by
  intro cand
  induction cand with
  | nil => intro _ h; exact absurd h (by simp [buildUpdateForMissingFields, List.lookup])
  | cons p rest ih =>
      obtain ⟨k1, w⟩ := p
      intro hnod h
      have hnod' : (rest.map Prod.fst).Nodup := (List.nodup_cons.mp hnod).2
      have hp1 : k1 ∉ rest.map Prod.fst := by
        have := (List.nodup_cons.mp hnod).1
        simpa using this
      by_cases hk : k = k1
      · subst hk
        cases w with
        | none =>
            have htail : (buildUpdateForMissingFields ex rest).lookup k = some v := by
              simpa [buildUpdateForMissingFields] using h
            exact absurd (buildUpdate_mem_keys_aux ex rest k v htail) hp1
        | some v0 =>
            by_cases hmiss : getField ex k = none
            · simp only [buildUpdateForMissingFields, List.filterMap, if_pos hmiss,
                List.lookup, beq_self_eq_true] at h
              simpa [getField, List.lookup] using h
            · simp only [buildUpdateForMissingFields, List.filterMap, if_neg hmiss] at h
              exact absurd (buildUpdate_mem_keys_aux ex rest k v h) hp1
      · have hbeq := beq_eq_false_iff_ne.mpr hk
        have htail : (buildUpdateForMissingFields ex rest).lookup k = some v := by
          cases w with
          | none => simpa [buildUpdateForMissingFields] using h
          | some v0 =>
              by_cases hmiss : getField ex k1 = none
              · simpa [buildUpdateForMissingFields, List.filterMap, if_pos hmiss,
                  List.lookup, hbeq] using h
              · simpa [buildUpdateForMissingFields, List.filterMap, if_neg hmiss] using h
        have := ih hnod' htail
        simpa [getField, List.lookup, hbeq] using this

theorem getField_selectCols (row : Row) (k : String) :
    ∀ cols : List String, k ∈ cols → getField (selectCols cols row) k = getField row k := by
  intro cols
  induction cols with
  | nil => intro h; exact absurd h (List.not_mem_nil k)
  | cons c rest ih =>
      intro h
      by_cases hk : k = c
      · subst hk
        simp [selectCols, getField, List.lookup]
      · have hmem : k ∈ rest := by
          rcases List.mem_cons.mp h with h' | h'
          · exact absurd h' hk
          · exact h'
        simp only [selectCols, List.map_cons, getField, List.lookup,
          beq_eq_false_iff_ne.mpr hk]
        simpa [selectCols, getField] using ih hmem

/-- C2 (amended): for every column in the existing-shipment lookup's
select list, the merge is fill-missing — a previously recorded value is
never overwritten, and a change can only fill a null field with the
candidate's non-null value.  (Fields outside that column list are read as
absent from the fetched existing row and are overwritten, see the
counterexample.) -/
theorem merge_fill_missing_selected_fields (exRow cand : Row) (k : String)
    (hnod : (cand.map Prod.fst).Nodup) (hk : k ∈ shipmentColsUnbatched) :
    (getField exRow k ≠ none →
      getField (applyUpdate exRow
        (buildUpdateForMissingFields (selectCols shipmentColsUnbatched exRow) cand)) k =
        getField exRow k)
    ∧ (getField (applyUpdate exRow
        (buildUpdateForMissingFields (selectCols shipmentColsUnbatched exRow) cand)) k ≠
          getField exRow k →
      getField exRow k = none
      ∧ getField (applyUpdate exRow
          (buildUpdateForMissingFields (selectCols shipmentColsUnbatched exRow) cand)) k =
          getField cand k
      ∧ getField cand k ≠ none) := by
  have hview : getField (selectCols shipmentColsUnbatched exRow) k = getField exRow k :=
    getField_selectCols exRow k shipmentColsUnbatched hk
  have happ := getField_applyUpdate
    (buildUpdateForMissingFields (selectCols shipmentColsUnbatched exRow) cand) k exRow
  have hkeep : getField exRow k ≠ none →
      getField (applyUpdate exRow
        (buildUpdateForMissingFields (selectCols shipmentColsUnbatched exRow) cand)) k =
        getField exRow k := by
    intro h
    have hub : (buildUpdateForMissingFields (selectCols shipmentColsUnbatched exRow)
        cand).lookup k = none :=
      buildUpdate_lookup_none _ k (by rw [hview]; exact h) cand
    rw [happ, hub]
    cases hex : exRow.lookup k with
    | none =>
        exact absurd (by simp [getField, hex]) h
    | some w => rfl
  refine ⟨hkeep, ?_⟩
  intro hchg
  by_cases hexn : getField exRow k = none
  · refine ⟨hexn, ?_⟩
    cases hex : exRow.lookup k with
    | none =>
        rw [happ, hex] at hchg
        rw [hexn] at hchg
        exact absurd rfl hchg
    | some w =>
        rw [happ, hex] at hchg ⊢
        cases hu : (buildUpdateForMissingFields (selectCols shipmentColsUnbatched exRow)
            cand).lookup k with
        | none =>
            rw [hu] at hchg
            exact absurd rfl hchg
        | some v =>
            have hc := buildUpdate_lookup_some _ k v cand hnod hu
            refine ⟨?_, ?_⟩
            · show some v = getField cand k
              exact hc.symm
            · rw [hc]
              simp
  · exact absurd (hkeep hexn) hchg

/-- C2 counterexample: `confirmation` is not in the existing-shipment
select list, so a recorded `confirmation` value is overwritten by a later
event's differing value — the merge does overwrite a previously-recorded
shipment field. -/
theorem merge_overwrites_unselected_field :
    getField [("tracking_number", some (.s "T1")), ("confirmation", some (.s "delivery"))]
      "confirmation" = some (.s "delivery")
    ∧ ((upsertShipmentFromShipStationEvent (fun _ => none) []
        ⟨[(1, [("tracking_number", some (.s "T1")),
               ("confirmation", some (.s "delivery"))])], 2⟩
        ⟨none, none, none, none, some "T1", none, none, none, some "signature",
         none, none, none, none, none, none, none, none, none, none⟩).rows.map
        (fun r => getField r.2 "confirmation")) = [some (.s "signature")] := by
  constructor
  · decide
  · decide

/-- Witness for the amended C2 at the spec's FedEx/UPS example. -/
theorem merge_fill_missing_selected_fields_witness :
    ((makeShipmentRowFromShipStationEvent (fun _ => none)
        ⟨none, none, none, none, some "T1", some "UPS", none, none, none,
         none, none, none, none, none, none, none, none, none, none⟩ none).map
        Prod.fst).Nodup
    ∧ "carrier_code" ∈ shipmentColsUnbatched
    ∧ ((getField [("tracking_number", some (.s "T1")),
          ("carrier_code", some (.s "FedEx"))] "carrier_code" ≠ none →
        getField (applyUpdate [("tracking_number", some (.s "T1")),
            ("carrier_code", some (.s "FedEx"))]
          (buildUpdateForMissingFields
            (selectCols shipmentColsUnbatched
              [("tracking_number", some (.s "T1")), ("carrier_code", some (.s "FedEx"))])
            (makeShipmentRowFromShipStationEvent (fun _ => none)
              ⟨none, none, none, none, some "T1", some "UPS", none, none, none,
               none, none, none, none, none, none, none, none, none, none⟩ none)))
          "carrier_code" =
          getField [("tracking_number", some (.s "T1")),
            ("carrier_code", some (.s "FedEx"))] "carrier_code")
      ∧ (getField (applyUpdate [("tracking_number", some (.s "T1")),
            ("carrier_code", some (.s "FedEx"))]
          (buildUpdateForMissingFields
            (selectCols shipmentColsUnbatched
              [("tracking_number", some (.s "T1")), ("carrier_code", some (.s "FedEx"))])
            (makeShipmentRowFromShipStationEvent (fun _ => none)
              ⟨none, none, none, none, some "T1", some "UPS", none, none, none,
               none, none, none, none, none, none, none, none, none, none⟩ none)))
          "carrier_code" ≠
          getField [("tracking_number", some (.s "T1")),
            ("carrier_code", some (.s "FedEx"))] "carrier_code" →
        getField [("tracking_number", some (.s "T1")),
          ("carrier_code", some (.s "FedEx"))] "carrier_code" = none
        ∧ getField (applyUpdate [("tracking_number", some (.s "T1")),
            ("carrier_code", some (.s "FedEx"))]
          (buildUpdateForMissingFields
            (selectCols shipmentColsUnbatched
              [("tracking_number", some (.s "T1")), ("carrier_code", some (.s "FedEx"))])
            (makeShipmentRowFromShipStationEvent (fun _ => none)
              ⟨none, none, none, none, some "T1", some "UPS", none, none, none,
               none, none, none, none, none, none, none, none, none, none⟩ none)))
          "carrier_code" =
          getField (makeShipmentRowFromShipStationEvent (fun _ => none)
            ⟨none, none, none, none, some "T1", some "UPS", none, none, none,
             none, none, none, none, none, none, none, none, none, none⟩ none)
            "carrier_code"
        ∧ getField (makeShipmentRowFromShipStationEvent (fun _ => none)
            ⟨none, none, none, none, some "T1", some "UPS", none, none, none,
             none, none, none, none, none, none, none, none, none, none⟩ none)
            "carrier_code" ≠ none)) :=
  ⟨by decide, by decide,
    merge_fill_missing_selected_fields
      [("tracking_number", some (.s "T1")), ("carrier_code", some (.s "FedEx"))]
      (makeShipmentRowFromShipStationEvent (fun _ => none)
        ⟨none, none, none, none, some "T1", some "UPS", none, none, none,
         none, none, none, none, none, none, none, none, none, none⟩ none)
      "carrier_code" (by decide) (by decide)⟩

/-! ## Shipment stock deductor: basic lemmas -/

theorem strContains_append_right (a b : String) : strContains (a ++ b) b = true := by
  simp only [strContains, decide_eq_true_eq, String.toList]
  rw [String.data_append]
  exact (List.suffix_append a.data b.data).isInfix

theorem stampNotes_contains_sentinel (o : Option String) :
    strContains (stampNotes o) sentinel = true := by
  unfold stampNotes
  exact strContains_append_right _ _

theorem stampFn_id (m : Movement) (kc : String) (x : Movement) :
    (stampFn m kc x).id = x.id := by
  unfold stampFn
  split <;> rfl

theorem stampFn_created (m : Movement) (kc : String) (x : Movement) :
    (stampFn m kc x).created_at = x.created_at := by
  unfold stampFn
  split <;> rfl

theorem byShipmentMatch_stampFn (sid : Nat) (m : Movement) (kc : String) (x : Movement) :
    byShipmentMatch sid (stampFn m kc x) = byShipmentMatch sid x := by
  unfold stampFn byShipmentMatch
  split <;> rfl

theorem stampFn_eq_of_ne (m : Movement) (kc : String) (x : Movement)
    (h : x.id ≠ m.id) : stampFn m kc x = x := by
  unfold stampFn
  rw [if_neg h]

theorem isStamped_stampFn_self (m : Movement) (kc : String) (x : Movement)
    (h : x.id = m.id) : isStamped (stampFn m kc x) = true := by
  unfold stampFn
  rw [if_pos h]
  simpa [isStamped] using stampNotes_contains_sentinel m.notes

theorem strContainsCI_iff (s sub : String) :
    strContainsCI s sub = true ↔
      sub.data.map Char.toLower <:+: s.data.map Char.toLower := by
  constructor
  · exact fun h => of_decide_eq_true h
  · exact fun h => decide_eq_true h

theorem strContainsCI_empty_iff (o : String) : strContainsCI "" o = true ↔ o = "" := by
  rw [strContainsCI_iff]
  constructor
  · intro h
    have h0 : o.data.map Char.toLower = [] := by
      simpa using List.eq_nil_of_infix_nil (by simpa using h)
    have hdata : o.data = [] := List.map_eq_nil_iff.mp h0
    cases o with
    | mk d =>
        simp only [String.data] at hdata
        simp [hdata]
  · intro h
    subst h
    simp

theorem strContainsCI_append_left (n t o : String)
    (h : strContainsCI n o = true) : strContainsCI (n ++ t) o = true := by
  rw [strContainsCI_iff] at h ⊢
  rw [String.data_append, List.map_append]
  exact h.trans ((List.prefix_append _ _).isInfix)

theorem fallbackMatch_stamp_self (onum : String) (m : Movement) (kc : String)
    (ho : onum ≠ "") (h : fallbackMatch onum m = true) :
    fallbackMatch onum (stampFn m kc m) = true := by
  simp only [fallbackMatch, Bool.and_eq_true] at h
  obtain ⟨hreason, hnotes⟩ := h
  cases hn : m.notes with
  | none => rw [hn] at hnotes; exact absurd hnotes (by simp)
  | some n =>
      rw [hn] at hnotes
      have hne : n ≠ "" := by
        intro h0
        rw [h0] at hnotes
        exact ho ((strContainsCI_empty_iff onum).mp hnotes)
      have hsn : stampNotes (some n) = n ++ " | " ++ sentinel := by
        simp [stampNotes, notesTruthy, hne]
      simp only [stampFn, if_pos rfl, fallbackMatch, Bool.and_eq_true]
      refine ⟨hreason, ?_⟩
      rw [hn, hsn]
      have h1 : strContainsCI (n ++ " | ") onum = true :=
        strContainsCI_append_left n " | " onum hnotes
      exact strContainsCI_append_left (n ++ " | ") sentinel onum h1

theorem argmaxCreated_cons (y : Movement) (l : List Movement) :
    argmaxCreated (y :: l) =
      match argmaxCreated l with
      | none => some y
      | some b => if y.created_at < b.created_at then some b else some y := rfl

theorem argmaxCreated_eq_none {l : List Movement} :
    argmaxCreated l = none ↔ l = [] := by
  cases l with
  | nil => simp [argmaxCreated]
  | cons x xs =>
      rw [argmaxCreated_cons]
      cases hr : argmaxCreated xs with
      | none => simp
      | some b =>
          dsimp only
          constructor
          · intro h
            split at h <;> exact absurd h (by simp)
          · intro h
            exact absurd h (by simp)

theorem argmaxCreated_mem : ∀ (l : List Movement) (m : Movement),
    argmaxCreated l = some m → m ∈ l := by
  intro l
  induction l with
  | nil => intro m h; simp [argmaxCreated] at h
  | cons x xs ih =>
      intro m h
      rw [argmaxCreated_cons] at h
      cases hr : argmaxCreated xs with
      | none =>
          rw [hr] at h
          simp only [Option.some.injEq] at h
          exact h ▸ List.mem_cons_self x xs
      | some b =>
          rw [hr] at h
          dsimp only at h
          by_cases hlt : x.created_at < b.created_at
          · rw [if_pos hlt] at h
            simp only [Option.some.injEq] at h
            exact List.mem_cons.mpr (Or.inr (h ▸ ih b hr))
          · rw [if_neg hlt] at h
            simp only [Option.some.injEq] at h
            exact h ▸ List.mem_cons_self x xs

theorem argmaxCreated_max : ∀ (l : List Movement) (m : Movement),
    argmaxCreated l = some m → ∀ y ∈ l, y.created_at ≤ m.created_at := by
  intro l
  induction l with
  | nil => intro m h; simp [argmaxCreated] at h
  | cons x xs ih =>
      intro m h y hy
      rw [argmaxCreated_cons] at h
      cases hr : argmaxCreated xs with
      | none =>
          rw [hr] at h
          simp only [Option.some.injEq] at h
          have hxs : xs = [] := argmaxCreated_eq_none.mp hr
          subst hxs
          rcases List.mem_cons.mp hy with rfl | hy'
          · rw [← h]
          · exact absurd hy' (by simp)
      | some b =>
          rw [hr] at h
          dsimp only at h
          by_cases hlt : x.created_at < b.created_at
          · rw [if_pos hlt] at h
            simp only [Option.some.injEq] at h
            subst h
            rcases List.mem_cons.mp hy with rfl | hy'
            · exact Int.le_of_lt hlt
            · exact ih _ hr y hy'
          · rw [if_neg hlt] at h
            simp only [Option.some.injEq] at h
            subst h
            rcases List.mem_cons.mp hy with rfl | hy'
            · exact Int.le_refl _
            · exact (ih b hr y hy').trans (Int.not_lt.mp hlt)

theorem argmaxCreated_map (g : Movement → Movement)
    (hg : ∀ x, (g x).created_at = x.created_at) :
    ∀ l : List Movement, argmaxCreated (l.map g) = (argmaxCreated l).map g := by
  intro l
  induction l with
  | nil => rfl
  | cons x xs ih =>
      rw [List.map_cons, argmaxCreated_cons, argmaxCreated_cons, ih]
      cases hr : argmaxCreated xs with
      | none => rfl
      | some b =>
          dsimp only [Option.map]
          rw [hg x, hg b]
          split <;> rfl

theorem argmaxCreated_insert : ∀ (l₁ : List Movement) (e : Movement) (l₂ : List Movement),
    argmaxCreated (l₁ ++ e :: l₂) = some e ∨
    argmaxCreated (l₁ ++ e :: l₂) = argmaxCreated (l₁ ++ l₂) := by
  intro l₁
  induction l₁ with
  | nil =>
      intro e l₂
      rw [List.nil_append, List.nil_append, argmaxCreated_cons]
      cases hr : argmaxCreated l₂ with
      | none => left; rfl
      | some b =>
          dsimp only
          by_cases hlt : e.created_at < b.created_at
          · rw [if_pos hlt]; right; rfl
          · rw [if_neg hlt]; left; rfl
  | cons a t ih =>
      intro e l₂
      rw [List.cons_append, List.cons_append, argmaxCreated_cons, argmaxCreated_cons]
      rcases ih e l₂ with h | h
      · rw [h]
        dsimp only
        by_cases hlt : a.created_at < e.created_at
        · rw [if_pos hlt]; left; rfl
        · rw [if_neg hlt]
          right
          cases hr : argmaxCreated (t ++ l₂) with
          | none => rfl
          | some b =>
              have hb : b.created_at ≤ e.created_at := by
                have hbm : b ∈ t ++ l₂ := argmaxCreated_mem _ b hr
                have hbm' : b ∈ t ++ e :: l₂ := by
                  rcases List.mem_append.mp hbm with h1 | h1
                  · exact List.mem_append.mpr (Or.inl h1)
                  · exact List.mem_append.mpr (Or.inr (List.mem_cons.mpr (Or.inr h1)))
                exact argmaxCreated_max _ e h b hbm'
              have hnab : ¬ a.created_at < b.created_at := by
                intro hab
                exact hlt (lt_of_lt_of_le hab hb)
              dsimp only
              rw [if_neg hnab]
      · rw [h]
        right
        rfl

theorem selectStock_cons (y : StockRow) (l : List StockRow) :
    selectStock (y :: l) =
      match selectStock l with
      | none => some y
      | some b => if availGt b.available y.available then some b else some y := rfl

theorem selectStock_mem : ∀ (l : List StockRow) (r : StockRow),
    selectStock l = some r → r ∈ l := by
  intro l
  induction l with
  | nil => intro r h; simp [selectStock] at h
  | cons x xs ih =>
      intro r h
      rw [selectStock_cons] at h
      cases hr : selectStock xs with
      | none =>
          rw [hr] at h
          simp only [Option.some.injEq] at h
          exact h ▸ List.mem_cons_self x xs
      | some b =>
          rw [hr] at h
          dsimp only at h
          by_cases hgt : availGt b.available x.available = true
          · rw [if_pos hgt] at h
            simp only [Option.some.injEq] at h
            exact List.mem_cons.mpr (Or.inr (h ▸ ih b hr))
          · rw [if_neg hgt] at h
            simp only [Option.some.injEq] at h
            exact h ▸ List.mem_cons_self x xs

theorem selectStock_map (g : StockRow → StockRow)
    (hg : ∀ x, (g x).available = x.available) :
    ∀ l : List StockRow, selectStock (l.map g) = (selectStock l).map g := by
  intro l
  induction l with
  | nil => rfl
  | cons x xs ih =>
      rw [List.map_cons, selectStock_cons, selectStock_cons, ih]
      cases hr : selectStock xs with
      | none => rfl
      | some b =>
          dsimp only [Option.map]
          rw [hg x, hg b]
          split <;> rfl

theorem eq_of_id_nodup {α : Type} (f : α → Nat) (l : List α)
    (hnod : (l.map f).Nodup) {a b : α} (ha : a ∈ l) (hb : b ∈ l) (h : f a = f b) :
    a = b := by
  induction l with
  | nil => exact absurd ha (by simp)
  | cons x xs ih =>
      simp only [List.map_cons, List.nodup_cons] at hnod
      rcases List.mem_cons.mp ha with rfl | ha'
      · rcases List.mem_cons.mp hb with rfl | hb'
        · rfl
        · exact absurd (by rw [h]; exact List.mem_map.mpr ⟨b, hb', rfl⟩) hnod.1
      · rcases List.mem_cons.mp hb with rfl | hb'
        · exact absurd (by rw [← h]; exact List.mem_map.mpr ⟨a, ha', rfl⟩) hnod.1
        · exact ih hnod.2 ha' hb'

theorem lookupMarkerM_eq (movs : List Movement) (s : Shipment) :
    lookupMarkerM movs s =
      match movs.find? (byShipmentMatch s.id) with
      | some m => some m
      | none =>
        match s.order_number with
        | some onum =>
            if onum = "" then none else argmaxCreated (movs.filter (fallbackMatch onum))
        | none => none := rfl

theorem lookupMarkerM_mem (movs : List Movement) (s : Shipment) (m : Movement)
    (h : lookupMarkerM movs s = some m) : m ∈ movs := by
  rw [lookupMarkerM_eq] at h
  cases hf : movs.find? (byShipmentMatch s.id) with
  | some mf =>
      rw [hf] at h
      simp only [Option.some.injEq] at h
      exact h ▸ List.mem_of_find?_eq_some hf
  | none =>
      rw [hf] at h
      cases ho : s.order_number with
      | none => rw [ho] at h; exact absurd h (by simp)
      | some onum =>
          rw [ho] at h
          dsimp only at h
          by_cases he : onum = ""
          · rw [if_pos he] at h; exact absurd h (by simp)
          · rw [if_neg he] at h
            exact List.mem_of_mem_filter (argmaxCreated_mem _ m h)

theorem updStockFn_id (sid : Nat) (v : Int) (r : StockRow) :
    (updStockFn sid v r).id = r.id := by
  unfold updStockFn
  split <;> rfl

theorem updStockFn_available (sid : Nat) (v : Int) (r : StockRow) :
    (updStockFn sid v r).available = r.available := by
  unfold updStockFn
  split <;> rfl

theorem stockMatch_updStockFn (ity iid : String) (sid : Nat) (v : Int) (r : StockRow) :
    stockMatch ity iid (updStockFn sid v r) = stockMatch ity iid r := by
  unfold updStockFn stockMatch
  split <;> rfl

theorem updStockFn_eq_of_ne (sid : Nat) (v : Int) (r : StockRow)
    (h : r.id ≠ sid) : updStockFn sid v r = r := by
  unfold updStockFn
  rw [if_neg h]

theorem lookupMarkerM_none₁ (movs : List Movement) (s : Shipment)
    (hf : movs.find? (byShipmentMatch s.id) = none) (ho : s.order_number = none) :
    lookupMarkerM movs s = none := by
  rw [lookupMarkerM_eq, hf]
  dsimp only
  rw [ho]

theorem lookupMarkerM_none₂ (movs : List Movement) (s : Shipment) (onum : String)
    (hf : movs.find? (byShipmentMatch s.id) = none) (ho : s.order_number = some onum)
    (he : onum = "") :
    lookupMarkerM movs s = none := by
  rw [lookupMarkerM_eq, hf]
  dsimp only
  rw [ho]
  dsimp only
  rw [if_pos he]

theorem lookupMarkerM_fallback (movs : List Movement) (s : Shipment) (onum : String)
    (hf : movs.find? (byShipmentMatch s.id) = none) (ho : s.order_number = some onum)
    (he : onum ≠ "") :
    lookupMarkerM movs s = argmaxCreated (movs.filter (fallbackMatch onum)) := by
  rw [lookupMarkerM_eq, hf]
  dsimp only
  rw [ho]
  dsimp only
  rw [if_neg he]

theorem lookupMarkerM_found (movs : List Movement) (s : Shipment) (mf : Movement)
    (hf : movs.find? (byShipmentMatch s.id) = some mf) :
    lookupMarkerM movs s = some mf := by
  rw [lookupMarkerM_eq, hf]

theorem stampMovement_find? (movs : List Movement) (m0 : Movement) (kc : String) (sid : Nat) :
    (stampMovement movs m0 kc).find? (byShipmentMatch sid) =
      (movs.find? (byShipmentMatch sid)).map (stampFn m0 kc) :=
  find?_map_of_pred (stampFn m0 kc) (byShipmentMatch sid) movs
    (fun x _ => byShipmentMatch_stampFn sid m0 kc x)

theorem isStamped_stampFn_of_stamped (m0 : Movement) (kc : String) (x : Movement)
    (h : isStamped x = true) : isStamped (stampFn m0 kc x) = true := by
  by_cases hid : x.id = m0.id
  · exact isStamped_stampFn_self m0 kc x hid
  · rw [stampFn_eq_of_ne m0 kc x hid]
    exact h

theorem blocked_stamp_preserved (movs : List Movement) (m0 : Movement) (kc : String)
    (s : Shipment) (hnod : (movs.map Movement.id).Nodup) (hm0 : m0 ∈ movs)
    (hb : blocked movs s) : blocked (stampMovement movs m0 kc) s := by
  intro m hm
  cases hf : movs.find? (byShipmentMatch s.id) with
  | some mf =>
      have hf' : (stampMovement movs m0 kc).find? (byShipmentMatch s.id) =
          some (stampFn m0 kc mf) := by
        rw [stampMovement_find?, hf]
        rfl
      rw [lookupMarkerM_found _ s _ hf'] at hm
      simp only [Option.some.injEq] at hm
      subst hm
      exact isStamped_stampFn_of_stamped m0 kc mf (hb mf (lookupMarkerM_found movs s mf hf))
  | none =>
      have hf' : (stampMovement movs m0 kc).find? (byShipmentMatch s.id) = none := by
        rw [stampMovement_find?, hf]
        rfl
      cases ho : s.order_number with
      | none =>
          rw [lookupMarkerM_none₁ _ s hf' ho] at hm
          exact absurd hm (by simp)
      | some onum =>
          by_cases he : onum = ""
          · rw [lookupMarkerM_none₂ _ s onum hf' ho he] at hm
            exact absurd hm (by simp)
          · rw [lookupMarkerM_fallback _ s onum hf' ho he] at hm
            by_cases hq : fallbackMatch onum (stampFn m0 kc m0) = fallbackMatch onum m0
            · have hpres : ∀ x ∈ movs,
                  fallbackMatch onum (stampFn m0 kc x) = fallbackMatch onum x := by
                intro x hx
                by_cases hid : x.id = m0.id
                · rw [eq_of_id_nodup Movement.id movs hnod hx hm0 hid]
                  exact hq
                · rw [stampFn_eq_of_ne m0 kc x hid]
              rw [show stampMovement movs m0 kc = movs.map (stampFn m0 kc) from rfl,
                filter_map_of_pred _ _ movs hpres,
                argmaxCreated_map _ (stampFn_created m0 kc) _] at hm
              cases hma : argmaxCreated (movs.filter (fallbackMatch onum)) with
              | none => rw [hma] at hm; exact absurd hm (by simp)
              | some mo =>
                  rw [hma] at hm
                  dsimp only [Option.map] at hm
                  simp only [Option.some.injEq] at hm
                  subst hm
                  exact isStamped_stampFn_of_stamped m0 kc mo
                    (hb mo ((lookupMarkerM_fallback movs s onum hf ho he).trans hma))
            · have hq0 : fallbackMatch onum m0 = false := by
                cases hq0 : fallbackMatch onum m0 with
                | false => rfl
                | true =>
                    exact absurd ((fallbackMatch_stamp_self onum m0 kc he hq0).trans
                      hq0.symm) hq
              have hq1 : fallbackMatch onum (stampFn m0 kc m0) = true := by
                cases hq1 : fallbackMatch onum (stampFn m0 kc m0) with
                | true => rfl
                | false => exact absurd (hq1.trans hq0.symm) hq
              obtain ⟨l₁, l₂, rfl⟩ := List.append_of_mem hm0
              have hnod' : (m0.id :: (l₁.map Movement.id ++ l₂.map Movement.id)).Nodup := by
                have h1 : (l₁ ++ m0 :: l₂).map Movement.id =
                    l₁.map Movement.id ++ m0.id :: l₂.map Movement.id := by
                  rw [List.map_append, List.map_cons]
                rw [h1] at hnod
                exact List.nodup_middle.mp hnod
              have hmid : m0.id ∉ l₁.map Movement.id ++ l₂.map Movement.id :=
                (List.nodup_cons.mp hnod').1
              have hg1 : l₁.map (stampFn m0 kc) = l₁ := by
                have hfix : ∀ x ∈ l₁, stampFn m0 kc x = id x := by
                  intro x hx
                  refine stampFn_eq_of_ne m0 kc x ?_
                  intro hid
                  exact hmid (List.mem_append.mpr (Or.inl (hid ▸ List.mem_map.mpr ⟨x, hx, rfl⟩)))
                calc l₁.map (stampFn m0 kc) = l₁.map id := List.map_congr_left hfix
                  _ = l₁ := List.map_id l₁
              have hg2 : l₂.map (stampFn m0 kc) = l₂ := by
                have hfix : ∀ x ∈ l₂, stampFn m0 kc x = id x := by
                  intro x hx
                  refine stampFn_eq_of_ne m0 kc x ?_
                  intro hid
                  exact hmid (List.mem_append.mpr (Or.inr (hid ▸ List.mem_map.mpr ⟨x, hx, rfl⟩)))
                calc l₂.map (stampFn m0 kc) = l₂.map id := List.map_congr_left hfix
                  _ = l₂ := List.map_id l₂
              have hmapped : stampMovement (l₁ ++ m0 :: l₂) m0 kc =
                  l₁ ++ stampFn m0 kc m0 :: l₂ := by
                show (l₁ ++ m0 :: l₂).map (stampFn m0 kc) = _
                rw [List.map_append, List.map_cons, hg1, hg2]
              have hfnew : (l₁ ++ stampFn m0 kc m0 :: l₂).filter (fallbackMatch onum) =
                  l₁.filter (fallbackMatch onum) ++
                    stampFn m0 kc m0 :: l₂.filter (fallbackMatch onum) := by
                rw [List.filter_append]
                simp [List.filter_cons, hq1]
              have hfold : (l₁ ++ m0 :: l₂).filter (fallbackMatch onum) =
                  l₁.filter (fallbackMatch onum) ++ l₂.filter (fallbackMatch onum) := by
                rw [List.filter_append]
                simp [List.filter_cons, hq0]
              rw [hmapped, hfnew] at hm
              rcases argmaxCreated_insert (l₁.filter (fallbackMatch onum))
                  (stampFn m0 kc m0) (l₂.filter (fallbackMatch onum)) with hins | hins
              · rw [hins] at hm
                simp only [Option.some.injEq] at hm
                subst hm
                exact isStamped_stampFn_self m0 kc m0 rfl
              · rw [hins, ← hfold] at hm
                exact hb m ((lookupMarkerM_fallback (l₁ ++ m0 :: l₂) s onum hf ho he).trans hm)
theorem blocked_after_self_stamp (movs : List Movement) (m0 : Movement) (kc : String)
    (s : Shipment) (hnod : (movs.map Movement.id).Nodup)
    (hlk : lookupMarkerM movs s = some m0) :
    blocked (stampMovement movs m0 kc) s := by
  intro m hm
  have hm0 : m0 ∈ movs := lookupMarkerM_mem movs s m0 hlk
  cases hf : movs.find? (byShipmentMatch s.id) with
  | some mf =>
      have hmf : mf = m0 := by
        have := (lookupMarkerM_found movs s mf hf).symm.trans hlk
        simpa using this
      subst hmf
      have hf' : (stampMovement movs mf kc).find? (byShipmentMatch s.id) =
          some (stampFn mf kc mf) := by
        rw [stampMovement_find?, hf]
        rfl
      rw [lookupMarkerM_found _ s _ hf'] at hm
      simp only [Option.some.injEq] at hm
      subst hm
      exact isStamped_stampFn_self mf kc mf rfl
  | none =>
      have hf' : (stampMovement movs m0 kc).find? (byShipmentMatch s.id) = none := by
        rw [stampMovement_find?, hf]
        rfl
      cases ho : s.order_number with
      | none =>
          rw [lookupMarkerM_none₁ movs s hf ho] at hlk
          exact absurd hlk (by simp)
      | some onum =>
          by_cases he : onum = ""
          · rw [lookupMarkerM_none₂ movs s onum hf ho he] at hlk
            exact absurd hlk (by simp)
          · have hold : argmaxCreated (movs.filter (fallbackMatch onum)) = some m0 :=
              (lookupMarkerM_fallback movs s onum hf ho he).symm.trans hlk
            have hq0 : fallbackMatch onum m0 = true :=
              List.of_mem_filter (argmaxCreated_mem _ m0 hold)
            have hq1 : fallbackMatch onum (stampFn m0 kc m0) = true :=
              fallbackMatch_stamp_self onum m0 kc he hq0
            have hpres : ∀ x ∈ movs,
                fallbackMatch onum (stampFn m0 kc x) = fallbackMatch onum x := by
              intro x hx
              by_cases hid : x.id = m0.id
              · rw [eq_of_id_nodup Movement.id movs hnod hx hm0 hid]
                exact hq1.trans hq0.symm
              · rw [stampFn_eq_of_ne m0 kc x hid]
            rw [lookupMarkerM_fallback _ s onum hf' ho he] at hm
            rw [show stampMovement movs m0 kc = movs.map (stampFn m0 kc) from rfl,
              filter_map_of_pred _ _ movs hpres,
              argmaxCreated_map _ (stampFn_created m0 kc) _, hold] at hm
            dsimp only [Option.map] at hm
            simp only [Option.some.injEq] at hm
            subst hm
            exact isStamped_stampFn_self m0 kc m0 rfl

theorem processPair_shape (maps : SkuMaps) (db : ReconDB) (s : Shipment)
    (k : String) (q : Int) :
    (processPair maps db s k q = (db, [])) ∨
    ∃ m st ity iid,
      k ≠ "" ∧ q ≠ 0 ∧
      lookupMarkerM db.movements s = some m ∧ isStamped m = false ∧
      itemRef (resolveSkuWithClient k maps.productMap maps.bundleMap maps.clientSkuMap) =
        some (ity, iid) ∧
      selectStock (db.stocks.filter (stockMatch ity iid)) = some st ∧
      ¬ availOf st < q ∧
      processPair maps db s k q =
        ({ movements := stampMovement db.movements m k,
           stocks := updStockOnHand db.stocks st.id (st.on_hand.getD 0 - q) },
         [.deduct s.id k st.id q, .stamp s.id k m.id]) := by
  unfold processPair
  by_cases h1 : k = "" ∨ q = 0
  · rw [if_pos h1]
    left
    rfl
  · rw [if_neg h1]
    cases hlk : lookupMarkerM db.movements s with
    | none => left; rfl
    | some m =>
        dsimp only
        by_cases hst : isStamped m = true
        · rw [if_pos hst]
          left
          rfl
        · rw [if_neg hst]
          cases hir : itemRef (resolveSkuWithClient k maps.productMap maps.bundleMap
              maps.clientSkuMap) with
          | none => left; rfl
          | some pr =>
              obtain ⟨ity, iid⟩ := pr
              dsimp only
              cases hsel : selectStock (db.stocks.filter (stockMatch ity iid)) with
              | none => left; rfl
              | some st =>
                  dsimp only
                  by_cases hav : availOf st < q
                  · rw [if_pos hav]
                    left
                    rfl
                  · rw [if_neg hav]
                    right
                    refine ⟨m, st, ity, iid, (not_or.mp h1).1, (not_or.mp h1).2, rfl,
                      ?_, rfl, hsel, hav, rfl⟩
                    cases hb : isStamped m with
                    | false => rfl
                    | true => exact absurd hb hst

theorem settled_skip (maps : SkuMaps) (db : ReconDB) (s : Shipment) (k : String) (q : Int)
    (hset : settled maps db s k q) : processPair maps db s k q = (db, []) := by
  unfold processPair
  by_cases h1 : k = "" ∨ q = 0
  · rw [if_pos h1]
  · rw [if_neg h1]
    cases hlk : lookupMarkerM db.movements s with
    | none => rfl
    | some m =>
        dsimp only
        by_cases hst : isStamped m = true
        · rw [if_pos hst]
        · rw [if_neg hst]
          have hrest : (match itemRef (resolveSkuWithClient k maps.productMap
              maps.bundleMap maps.clientSkuMap) with
              | none => True
              | some (ity, iid) => stockShort db ity iid q) := by
            rcases hset with hk | hq | hbl | hr
            · exact absurd (Or.inl hk) h1
            · exact absurd (Or.inr hq) h1
            · exact absurd (hbl m hlk) hst
            · exact hr
          cases hir : itemRef (resolveSkuWithClient k maps.productMap maps.bundleMap
              maps.clientSkuMap) with
          | none => rfl
          | some pr =>
              obtain ⟨ity, iid⟩ := pr
              rw [hir] at hrest
              dsimp only at hrest
              dsimp only
              cases hsel : selectStock (db.stocks.filter (stockMatch ity iid)) with
              | none => rfl
              | some st =>
                  have hav : availOf st < q := by
                    unfold stockShort at hrest
                    rw [hsel] at hrest
                    exact hrest
                  dsimp only
                  rw [if_pos hav]

theorem settled_establish (maps : SkuMaps) (db : ReconDB) (s : Shipment)
    (k : String) (q : Int) (hnodM : (db.movements.map Movement.id).Nodup) :
    settled maps (processPair maps db s k q).1 s k q := by
  unfold processPair
  by_cases h1 : k = "" ∨ q = 0
  · rw [if_pos h1]
    rcases h1 with hk | hq
    · exact Or.inl hk
    · exact Or.inr (Or.inl hq)
  · rw [if_neg h1]
    cases hlk : lookupMarkerM db.movements s with
    | none =>
        dsimp only
        refine Or.inr (Or.inr (Or.inl ?_))
        intro m' hm'
        have h2 : (none : Option Movement) = some m' := hlk.symm.trans hm'
        exact absurd h2 (by simp)
    | some m =>
        dsimp only
        by_cases hst : isStamped m = true
        · rw [if_pos hst]
          refine Or.inr (Or.inr (Or.inl ?_))
          intro m' hm'
          have h2 : some m = some m' := hlk.symm.trans hm'
          simp only [Option.some.injEq] at h2
          subst h2
          exact hst
        · rw [if_neg hst]
          cases hir : itemRef (resolveSkuWithClient k maps.productMap maps.bundleMap
              maps.clientSkuMap) with
          | none =>
              refine Or.inr (Or.inr (Or.inr ?_))
              rw [hir]
              exact trivial
          | some pr =>
              obtain ⟨ity, iid⟩ := pr
              dsimp only
              cases hsel : selectStock (db.stocks.filter (stockMatch ity iid)) with
              | none =>
                  refine Or.inr (Or.inr (Or.inr ?_))
                  rw [hir]
                  dsimp only
                  unfold stockShort
                  rw [hsel]
                  exact trivial
              | some st =>
                  dsimp only
                  by_cases hav : availOf st < q
                  · rw [if_pos hav]
                    refine Or.inr (Or.inr (Or.inr ?_))
                    rw [hir]
                    dsimp only
                    unfold stockShort
                    rw [hsel]
                    exact hav
                  · rw [if_neg hav]
                    refine Or.inr (Or.inr (Or.inl ?_))
                    exact blocked_after_self_stamp db.movements m k s hnodM hlk

theorem settled_preserved (maps : SkuMaps) (db : ReconDB) (s' : Shipment)
    (k' : String) (q' : Int) (s : Shipment) (k : String) (q : Int)
    (hnodM : (db.movements.map Movement.id).Nodup)
    (hnodS : (db.stocks.map StockRow.id).Nodup)
    (hq' : 0 < q')
    (hset : settled maps db s k q) :
    settled maps (processPair maps db s' k' q').1 s k q := by
  rcases processPair_shape maps db s' k' q' with h |
    ⟨m0, st0, ity0, iid0, _, _, hlk0, _, _, hsel0, hav0, heq⟩
  · rw [h]
    exact hset
  · rw [heq]
    rcases hset with hk | hq | hbl | hr
    · exact Or.inl hk
    · exact Or.inr (Or.inl hq)
    · refine Or.inr (Or.inr (Or.inl ?_))
      exact blocked_stamp_preserved db.movements m0 k' s hnodM
        (lookupMarkerM_mem _ _ _ hlk0) hbl
    · refine Or.inr (Or.inr (Or.inr ?_))
      cases hir : itemRef (resolveSkuWithClient k maps.productMap maps.bundleMap
          maps.clientSkuMap) with
      | none => exact trivial
      | some pr =>
          obtain ⟨ity, iid⟩ := pr
          rw [hir] at hr
          dsimp only at hr ⊢
          unfold stockShort at hr ⊢
          have hfilter := filter_map_of_pred (updStockFn st0.id (st0.on_hand.getD 0 - q'))
            (stockMatch ity iid) db.stocks (fun x _ => stockMatch_updStockFn ity iid _ _ x)
          rw [show updStockOnHand db.stocks st0.id (st0.on_hand.getD 0 - q') =
              db.stocks.map (updStockFn st0.id (st0.on_hand.getD 0 - q')) from rfl,
            hfilter, selectStock_map _ (updStockFn_available st0.id _) _]
          cases hS : selectStock (db.stocks.filter (stockMatch ity iid)) with
          | none => exact trivial
          | some stq =>
              rw [hS] at hr
              dsimp only at hr
              dsimp only [Option.map]
              by_cases hid : stq.id = st0.id
              · have hstq : stq ∈ db.stocks := List.mem_of_mem_filter (selectStock_mem _ _ hS)
                have hst0 : st0 ∈ db.stocks :=
                  List.mem_of_mem_filter (selectStock_mem _ _ hsel0)
                have heqs : stq = st0 := eq_of_id_nodup StockRow.id db.stocks hnodS hstq hst0 hid
                subst heqs
                unfold updStockFn
                rw [if_pos rfl]
                unfold availOf at hr ⊢
                cases hava : stq.available with
                | some a =>
                    rw [hava] at hr
                    dsimp only at hr ⊢
                    exact hr
                | none =>
                    rw [hava] at hr
                    dsimp only at hr ⊢
                    simp only [Option.getD] at hr ⊢
                    omega
              · rw [updStockFn_eq_of_ne _ _ _ hid]
                exact hr

theorem processPair_ids (maps : SkuMaps) (db : ReconDB) (s : Shipment)
    (k : String) (q : Int) :
    (processPair maps db s k q).1.movements.map Movement.id = db.movements.map Movement.id
    ∧ (processPair maps db s k q).1.stocks.map StockRow.id = db.stocks.map StockRow.id := by
  rcases processPair_shape maps db s k q with h |
    ⟨m0, st0, ity0, iid0, _, _, _, _, _, _, _, heq⟩
  · rw [h]
    exact ⟨rfl, rfl⟩
  · rw [heq]
    constructor
    · show (db.movements.map (stampFn m0 k)).map Movement.id = _
      rw [List.map_map]
      exact List.map_congr_left fun x _ => stampFn_id m0 k x
    · show (db.stocks.map (updStockFn st0.id _)).map StockRow.id = _
      rw [List.map_map]
      exact List.map_congr_left fun x _ => updStockFn_id st0.id _ x

theorem runPairsList_nil (maps : SkuMaps) (db : ReconDB) :
    runPairsList maps db [] = (db, []) := rfl

theorem runPairsList_cons (maps : SkuMaps) (db : ReconDB) (s : Shipment) (k : String)
    (q : Int) (rest : List (Shipment × String × Int)) :
    runPairsList maps db ((s, k, q) :: rest) =
      ((runPairsList maps (processPair maps db s k q).1 rest).1,
        (processPair maps db s k q).2 ++
          (runPairsList maps (processPair maps db s k q).1 rest).2) := rfl

theorem runPairsList_noop (maps : SkuMaps) :
    ∀ (pairs : List (Shipment × String × Int)) (db : ReconDB),
      (∀ p ∈ pairs, settled maps db p.1 p.2.1 p.2.2) →
      runPairsList maps db pairs = (db, []) := by
  intro pairs
  induction pairs with
  | nil => intro db _; rfl
  | cons p rest ih =>
      intro db hall
      obtain ⟨s, k, q⟩ := p
      have h1 : processPair maps db s k q = (db, []) :=
        settled_skip maps db s k q (hall (s, k, q) (by simp))
      rw [runPairsList_cons, h1]
      have h2 := ih db fun p hp => hall p (List.mem_cons.mpr (Or.inr hp))
      rw [h2]
      rfl

theorem runPairsList_ids (maps : SkuMaps) :
    ∀ (pairs : List (Shipment × String × Int)) (db : ReconDB),
      (runPairsList maps db pairs).1.movements.map Movement.id =
        db.movements.map Movement.id
      ∧ (runPairsList maps db pairs).1.stocks.map StockRow.id =
        db.stocks.map StockRow.id := by
  intro pairs
  induction pairs with
  | nil => intro db; exact ⟨rfl, rfl⟩
  | cons p rest ih =>
      intro db
      obtain ⟨s, k, q⟩ := p
      rw [runPairsList_cons]
      have h1 := processPair_ids maps db s k q
      have h2 := ih (processPair maps db s k q).1
      exact ⟨h2.1.trans h1.1, h2.2.trans h1.2⟩

theorem settled_run_preserved (maps : SkuMaps) (s : Shipment) (k : String) (q : Int) :
    ∀ (pairs : List (Shipment × String × Int)) (db : ReconDB),
      (db.movements.map Movement.id).Nodup →
      (db.stocks.map StockRow.id).Nodup →
      (∀ p ∈ pairs, 0 < p.2.2) →
      settled maps db s k q →
      settled maps (runPairsList maps db pairs).1 s k q := by
  intro pairs
  induction pairs with
  | nil => intro db _ _ _ hset; exact hset
  | cons p rest ih =>
      intro db hnodM hnodS hpos hset
      obtain ⟨s0, k0, q0⟩ := p
      rw [runPairsList_cons]
      have hq0 : 0 < q0 := hpos (s0, k0, q0) (by simp)
      have hset1 := settled_preserved maps db s0 k0 q0 s k q hnodM hnodS hq0 hset
      have hids := processPair_ids maps db s0 k0 q0
      exact ih (processPair maps db s0 k0 q0).1 (hids.1 ▸ hnodM) (hids.2 ▸ hnodS)
        (fun p hp => hpos p (List.mem_cons.mpr (Or.inr hp))) hset1

theorem runPairsList_settles (maps : SkuMaps) :
    ∀ (pairs : List (Shipment × String × Int)) (db : ReconDB),
      (db.movements.map Movement.id).Nodup →
      (db.stocks.map StockRow.id).Nodup →
      (∀ p ∈ pairs, 0 < p.2.2) →
      ∀ p ∈ pairs, settled maps (runPairsList maps db pairs).1 p.1 p.2.1 p.2.2 := by
  intro pairs
  induction pairs with
  | nil => intro db _ _ _ p hp; exact absurd hp (by simp)
  | cons p0 rest ih =>
      intro db hnodM hnodS hpos p hp
      obtain ⟨s0, k0, q0⟩ := p0
      rw [runPairsList_cons]
      have hq0 : 0 < q0 := hpos (s0, k0, q0) (by simp)
      have hids := processPair_ids maps db s0 k0 q0
      have hnodM1 : ((processPair maps db s0 k0 q0).1.movements.map Movement.id).Nodup :=
        hids.1 ▸ hnodM
      have hnodS1 : ((processPair maps db s0 k0 q0).1.stocks.map StockRow.id).Nodup :=
        hids.2 ▸ hnodS
      rcases List.mem_cons.mp hp with rfl | hp'
      · have hset1 : settled maps (processPair maps db s0 k0 q0).1 s0 k0 q0 :=
          settled_establish maps db s0 k0 q0 hnodM
        exact settled_run_preserved maps s0 k0 q0 rest (processPair maps db s0 k0 q0).1
          hnodM1 hnodS1 (fun p hp => hpos p (List.mem_cons.mpr (Or.inr hp))) hset1
      · exact ih (processPair maps db s0 k0 q0).1 hnodM1 hnodS1
          (fun p hp => hpos p (List.mem_cons.mpr (Or.inr hp))) p hp'

theorem countDeduct_append (t₁ t₂ : List ReconEvent) (sid : Nat) (k : String) :
    countDeduct (t₁ ++ t₂) sid k = countDeduct t₁ sid k + countDeduct t₂ sid k :=
  List.countP_append _ _ _

theorem countStamp_append (t₁ t₂ : List ReconEvent) (sid : Nat) (k : String) :
    countStamp (t₁ ++ t₂) sid k = countStamp t₁ sid k + countStamp t₂ sid k :=
  List.countP_append _ _ _

theorem processPair_counts (maps : SkuMaps) (db : ReconDB) (s : Shipment) (k : String)
    (q : Int) (sid : Nat) (k' : String) :
    (countDeduct (processPair maps db s k q).2 sid k' ≤ 1
      ∧ countStamp (processPair maps db s k q).2 sid k' ≤ 1)
    ∧ (¬ (s.id = sid ∧ k = k') →
      countDeduct (processPair maps db s k q).2 sid k' = 0
      ∧ countStamp (processPair maps db s k q).2 sid k' = 0) := by
  rcases processPair_shape maps db s k q with h |
    ⟨m0, st0, ity0, iid0, _, _, _, _, _, _, _, heq⟩
  · rw [h]
    exact ⟨⟨by simp [countDeduct], by simp [countStamp]⟩,
      fun _ => ⟨by simp [countDeduct], by simp [countStamp]⟩⟩
  · rw [heq]
    by_cases h1 : s.id = sid
    · by_cases h2 : k = k'
      · subst h1
        subst h2
        constructor
        · constructor
          · simp [countDeduct, List.countP_cons]
          · simp [countStamp, List.countP_cons]
        · intro hc
          exact absurd ⟨rfl, rfl⟩ hc
      · constructor
        · constructor
          · simp [countDeduct, List.countP_cons, h2]
          · simp [countStamp, List.countP_cons, h2]
        · intro _
          constructor
          · simp [countDeduct, List.countP_cons, h2]
          · simp [countStamp, List.countP_cons, h2]
    · constructor
      · constructor
        · simp [countDeduct, List.countP_cons, h1]
        · simp [countStamp, List.countP_cons, h1]
      · intro _
        constructor
        · simp [countDeduct, List.countP_cons, h1]
        · simp [countStamp, List.countP_cons, h1]

theorem runPairsList_count_zero (maps : SkuMaps) (sid : Nat) (k' : String) :
    ∀ (pairs : List (Shipment × String × Int)) (db : ReconDB),
      (∀ p ∈ pairs, ¬ (p.1.id = sid ∧ p.2.1 = k')) →
      countDeduct (runPairsList maps db pairs).2 sid k' = 0
      ∧ countStamp (runPairsList maps db pairs).2 sid k' = 0 := by
  intro pairs
  induction pairs with
  | nil => intro db _; exact ⟨rfl, rfl⟩
  | cons p rest ih =>
      intro db hall
      obtain ⟨s, k, q⟩ := p
      rw [runPairsList_cons]
      have h1 := (processPair_counts maps db s k q sid k').2 (hall (s, k, q) (by simp))
      have h2 := ih (processPair maps db s k q).1
        (fun p hp => hall p (List.mem_cons.mpr (Or.inr hp)))
      constructor
      · rw [countDeduct_append, h1.1, h2.1]
      · rw [countStamp_append, h1.2, h2.2]

theorem runPairsList_count_le_one (maps : SkuMaps) (sid : Nat) (k' : String) :
    ∀ (pairs : List (Shipment × String × Int)) (db : ReconDB),
      (pairs.map (fun p => (p.1.id, p.2.1))).Nodup →
      countDeduct (runPairsList maps db pairs).2 sid k' ≤ 1
      ∧ countStamp (runPairsList maps db pairs).2 sid k' ≤ 1 := by
  intro pairs
  induction pairs with
  | nil =>
      intro db _
      exact ⟨by simp [runPairsList_nil, countDeduct],
        by simp [runPairsList_nil, countStamp]⟩
  | cons p rest ih =>
      intro db hnod
      obtain ⟨s, k, q⟩ := p
      rw [runPairsList_cons]
      simp only [List.map_cons, List.nodup_cons] at hnod
      by_cases hkey : s.id = sid ∧ k = k'
      · have hz := runPairsList_count_zero maps sid k' rest (processPair maps db s k q).1
          (by
            intro p hp hc
            exact hnod.1 (by
              rw [show ((s, k, q).1.id, (s, k, q).2.1) = (sid, k') by
                simp [hkey.1, hkey.2]]
              rw [show (sid, k') = (p.1.id, p.2.1) by simp [hc.1, hc.2]]
              exact List.mem_map.mpr ⟨p, hp, rfl⟩))
        have h1 := (processPair_counts maps db s k q sid k').1
        constructor
        · rw [countDeduct_append, hz.1]
          omega
        · rw [countStamp_append, hz.2]
          omega
      · have h1 := (processPair_counts maps db s k q sid k').2 hkey
        have h2 := ih (processPair maps db s k q).1 hnod.2
        constructor
        · rw [countDeduct_append, h1.1]
          omega
        · rw [countStamp_append, h1.2]
          omega

theorem addQty_keys (k : String) (q : Int) :
    ∀ m : List (String × Int),
      (addQty m k q).map Prod.fst =
        if k ∈ m.map Prod.fst then m.map Prod.fst else m.map Prod.fst ++ [k] := by
  intro m
  induction m with
  | nil => simp [addQty]
  | cons p rest ih =>
      obtain ⟨k1, q1⟩ := p
      by_cases hk : k1 = k
      · subst hk
        simp [addQty]
      · have hne : k ≠ k1 := fun h => hk h.symm
        simp only [addQty, if_neg hk, List.map_cons, ih]
        by_cases hmem : k ∈ rest.map Prod.fst
        · rw [if_pos hmem, if_pos (by simp [hmem])]
        · rw [if_neg hmem, if_neg (by simp [hne, hmem])]
          simp

theorem addQty_keys_nodup (k : String) (q : Int) (m : List (String × Int))
    (hm : (m.map Prod.fst).Nodup) : ((addQty m k q).map Prod.fst).Nodup := by
  rw [addQty_keys]
  by_cases hmem : k ∈ m.map Prod.fst
  · rw [if_pos hmem]
    exact hm
  · rw [if_neg hmem]
    simp [List.nodup_append, hm, hmem]

theorem qtyBySku_keys_nodup (items : List ShipItem) :
    ((qtyBySku items).map Prod.fst).Nodup := by
  suffices h : ∀ (its : List ShipItem) (m : List (String × Int)),
      (m.map Prod.fst).Nodup →
      ((its.foldl
        (fun m itm =>
          match itm.sku with
          | none => m
          | some skuRaw =>
              let qty := itm.quantity.getD 1
              if skuRaw = "" ∨ qty = 0 then m else addQty m (normalizeSku skuRaw) qty)
        m).map Prod.fst).Nodup by
    exact h items [] (by simp)
  intro its
  induction its with
  | nil => intro m hm; simpa using hm
  | cons itm rest ih =>
      intro m hm
      simp only [List.foldl_cons]
      apply ih
      cases hsku : itm.sku with
      | none => exact hm
      | some skuRaw =>
          dsimp only
          by_cases hc : skuRaw = "" ∨ itm.quantity.getD 1 = 0
          · rw [if_pos hc]
            exact hm
          · rw [if_neg hc]
            exact addQty_keys_nodup _ _ m hm

theorem allPairs_cons (s : Shipment) (rest : List Shipment) :
    allPairs (s :: rest) =
      (qtyBySku s.items).map (fun p => (s, p.1, p.2)) ++ allPairs rest := by
  simp [allPairs]

theorem allPairs_mem (p : Shipment × String × Int) :
    ∀ ss : List Shipment, p ∈ allPairs ss → p.1 ∈ ss := by
  intro ss
  induction ss with
  | nil => intro h; simp [allPairs] at h
  | cons s rest ih =>
      intro h
      rw [allPairs_cons] at h
      rcases List.mem_append.mp h with h1 | h1
      · obtain ⟨pr, _, hpr⟩ := List.mem_map.mp h1
        rw [← hpr]
        simp
      · exact List.mem_cons.mpr (Or.inr (ih h1))

theorem allPairs_keys_nodup (ss : List Shipment)
    (hsid : (ss.map Shipment.id).Nodup) :
    ((allPairs ss).map (fun p => (p.1.id, p.2.1))).Nodup := by
  induction ss with
  | nil => simp [allPairs]
  | cons s rest ih =>
      simp only [List.map_cons, List.nodup_cons] at hsid
      rw [allPairs_cons, List.map_append]
      rw [List.nodup_append]
      refine ⟨?_, ih hsid.2, ?_⟩
      · rw [List.map_map]
        have heq : ((fun p : Shipment × String × Int => (p.1.id, p.2.1)) ∘
            (fun p : String × Int => (s, p.1, p.2))) =
            fun p : String × Int => (s.id, p.1) := rfl
        rw [heq]
        have hinj : Function.Injective fun k : String => (s.id, k) := by
          intro a b hab
          simpa using hab
        have : (qtyBySku s.items).map (fun p => (s.id, p.1)) =
            ((qtyBySku s.items).map Prod.fst).map (fun k => (s.id, k)) := by
          rw [List.map_map]
          rfl
        rw [this]
        exact (qtyBySku_keys_nodup s.items).map hinj
      · intro x hx hy
        obtain ⟨pr, hprm, hpr⟩ := List.mem_map.mp hx
        obtain ⟨p2, hp2, hp2e⟩ := List.mem_map.mp hy
        apply hsid.1
        have hx1 : x.1 = s.id := by
          rw [← hpr]
          obtain ⟨pr0, _, hpr0e⟩ := List.mem_map.mp hprm
          rw [← hpr0e]
        have hy1 : x.1 = p2.1.id := by rw [← hp2e]
        have hse : s.id = p2.1.id := by rw [← hx1, hy1]
        rw [hse]
        exact List.mem_map.mpr ⟨p2.1, allPairs_mem p2 rest hp2, rfl⟩

theorem runShipmentsN_succ (maps : SkuMaps) (db : ReconDB) (ss : List Shipment) (n : Nat) :
    runShipmentsN maps db ss (n + 1) =
      ((runShipmentsN maps (runShipments maps db ss).1 ss n).1,
        (runShipments maps db ss).2 ++
          (runShipmentsN maps (runShipments maps db ss).1 ss n).2) := rfl

theorem runPairsList_blocked_zero (maps : SkuMaps) (s : Shipment) (k : String) :
    ∀ (pairs : List (Shipment × String × Int)) (db : ReconDB),
      (db.movements.map Movement.id).Nodup →
      blocked db.movements s →
      (∀ p ∈ pairs, p.1.id = s.id → p.1 = s) →
      countDeduct (runPairsList maps db pairs).2 s.id k = 0
      ∧ countStamp (runPairsList maps db pairs).2 s.id k = 0
      ∧ blocked (runPairsList maps db pairs).1.movements s
      ∧ ((runPairsList maps db pairs).1.movements.map Movement.id).Nodup := by
  intro pairs
  induction pairs with
  | nil =>
      intro db hnodM hbl _
      exact ⟨by simp [runPairsList_nil, countDeduct],
        by simp [runPairsList_nil, countStamp], hbl, hnodM⟩
  | cons p rest ih =>
      intro db hnodM hbl hown
      obtain ⟨s0, k0, q0⟩ := p
      rw [runPairsList_cons]
      have hheadz : countDeduct (processPair maps db s0 k0 q0).2 s.id k = 0
          ∧ countStamp (processPair maps db s0 k0 q0).2 s.id k = 0 := by
        by_cases hkey : s0.id = s.id ∧ k0 = k
        · have hs0 : s0 = s := hown (s0, k0, q0) (by simp) hkey.1
          subst hs0
          have hskip : processPair maps db s0 k0 q0 = (db, []) :=
            settled_skip maps db s0 k0 q0 (Or.inr (Or.inr (Or.inl hbl)))
          rw [hskip]
          exact ⟨by simp [countDeduct], by simp [countStamp]⟩
        · exact (processPair_counts maps db s0 k0 q0 s.id k).2 hkey
      have hbl1 : blocked (processPair maps db s0 k0 q0).1.movements s := by
        rcases processPair_shape maps db s0 k0 q0 with h |
          ⟨m0, st0, ity0, iid0, _, _, hlk0, _, _, _, _, heq⟩
        · rw [h]
          exact hbl
        · rw [heq]
          exact blocked_stamp_preserved db.movements m0 k0 s hnodM
            (lookupMarkerM_mem _ _ _ hlk0) hbl
      have hids := processPair_ids maps db s0 k0 q0
      have hrec := ih (processPair maps db s0 k0 q0).1 (hids.1 ▸ hnodM) hbl1
        (fun p hp => hown p (List.mem_cons.mpr (Or.inr hp)))
      refine ⟨?_, ?_, hrec.2.2.1, hrec.2.2.2⟩
      · rw [countDeduct_append, hheadz.1, hrec.1]
      · rw [countStamp_append, hheadz.2, hrec.2.1]

/-- C7: a shipment line with no idempotency marker (no movement referencing
the shipment and no `order_shipment` movement whose notes contain its order
number) receives zero stock deductions and zero sentinel stamps across any
number of runs of the deductor. -/
theorem no_marker_skip (maps : SkuMaps) (db : ReconDB) (ss : List Shipment)
    (s : Shipment) (k : String) (n : Nat)
    (hnodM : (db.movements.map Movement.id).Nodup)
    (hsid : (ss.map Shipment.id).Nodup)
    (hmem : s ∈ ss)
    (hnone : lookupMarker db s = none) :
    countDeduct (runShipmentsN maps db ss n).2 s.id k = 0
    ∧ countStamp (runShipmentsN maps db ss n).2 s.id k = 0 := by
  have hbl : blocked db.movements s := by
    intro m hm
    rw [show lookupMarkerM db.movements s = lookupMarker db s from rfl, hnone] at hm
    exact absurd hm (by simp)
  clear hnone
  induction n generalizing db with
  | zero => exact ⟨rfl, rfl⟩
  | succ n ihn =>
      rw [runShipmentsN_succ]
      have hown : ∀ p ∈ allPairs ss, p.1.id = s.id → p.1 = s := by
        intro p hp hid
        exact eq_of_id_nodup Shipment.id ss hsid (allPairs_mem p ss hp) hmem hid
      have hrun := runPairsList_blocked_zero maps s k (allPairs ss) db hnodM hbl hown
      have hrec := ihn (runShipments maps db ss).1 hrun.2.2.2 hrun.2.2.1
      have hr1 : countDeduct (runShipments maps db ss).2 s.id k = 0 := hrun.1
      have hr2 : countStamp (runShipments maps db ss).2 s.id k = 0 := hrun.2.1
      constructor
      · rw [countDeduct_append, hr1, hrec.1]
      · rw [countStamp_append, hr2, hrec.2]

/-- Witness for C7: a shipment with a line item but no matching movement
row; three runs perform no deduction and no stamp for it. -/
theorem no_marker_skip_witness :
    (([⟨1, none, none, some "adjustment", some "3", none, 0⟩] :
        List Movement).map Movement.id).Nodup
    ∧ (([⟨5, some "A100", [⟨some "a", some 2⟩]⟩] : List Shipment).map Shipment.id).Nodup
    ∧ (⟨5, some "A100", [⟨some "a", some 2⟩]⟩ : Shipment) ∈
        ([⟨5, some "A100", [⟨some "a", some 2⟩]⟩] : List Shipment)
    ∧ lookupMarker ⟨[⟨1, none, none, some "adjustment", some "3", none, 0⟩],
        [⟨1, "product", "1", some 5, some 5, "Batch"⟩]⟩
        ⟨5, some "A100", [⟨some "a", some 2⟩]⟩ = none
    ∧ (countDeduct (runShipmentsN ⟨[("a", 1)], [], []⟩
          ⟨[⟨1, none, none, some "adjustment", some "3", none, 0⟩],
           [⟨1, "product", "1", some 5, some 5, "Batch"⟩]⟩
          [⟨5, some "A100", [⟨some "a", some 2⟩]⟩] 3).2 5 "a" = 0
      ∧ countStamp (runShipmentsN ⟨[("a", 1)], [], []⟩
          ⟨[⟨1, none, none, some "adjustment", some "3", none, 0⟩],
           [⟨1, "product", "1", some 5, some 5, "Batch"⟩]⟩
          [⟨5, some "A100", [⟨some "a", some 2⟩]⟩] 3).2 5 "a" = 0) :=
  ⟨by decide, by decide, by decide, by decide,
    no_marker_skip ⟨[("a", 1)], [], []⟩
      ⟨[⟨1, none, none, some "adjustment", some "3", none, 0⟩],
       [⟨1, "product", "1", some 5, some 5, "Batch"⟩]⟩
      [⟨5, some "A100", [⟨some "a", some 2⟩]⟩]
      ⟨5, some "A100", [⟨some "a", some 2⟩]⟩ "a" 3
      (by decide) (by decide) (by decide) (by decide)⟩

/-- C1 counterexample: a shipment with two SKUs shares a single
shipment-referenced idempotency marker.  Running the deductor twice
performs a deduction for the first SKU only — the pair `(7, "b")` has
queued quantity and ample stock yet receives zero decrements, while the
claim demands exactly one per shipment-SKU pair. -/
theorem deduct_twice_missing_second_sku :
    ("b", 1) ∈ qtyBySku [⟨some "a", some 1⟩, ⟨some "b", some 1⟩]
    ∧ countDeduct (runShipmentsN ⟨[("a", 1), ("b", 2)], [], []⟩
        ⟨[⟨1, none, none, some "shipment", some "7", none, 0⟩],
         [⟨1, "product", "1", some 10, some 10, "Batch"⟩,
          ⟨2, "product", "2", some 10, some 10, "Batch"⟩]⟩
        [⟨7, none, [⟨some "a", some 1⟩, ⟨some "b", some 1⟩]⟩] 2).2 7 "a" = 1
    ∧ countDeduct (runShipmentsN ⟨[("a", 1), ("b", 2)], [], []⟩
        ⟨[⟨1, none, none, some "shipment", some "7", none, 0⟩],
         [⟨1, "product", "1", some 10, some 10, "Batch"⟩,
          ⟨2, "product", "2", some 10, some 10, "Batch"⟩]⟩
        [⟨7, none, [⟨some "a", some 1⟩, ⟨some "b", some 1⟩]⟩] 2).2 7 "b" = 0 := by
  refine ⟨by decide, by decide, by decide⟩

/-- C1 (amended): with unique movement, stock-row and shipment ids and
positive per-pair quantities, a second run of the deductor over the same
shipment set is a no-op (same store state, no events), and one run
performs at most one stock decrement and at most one sentinel stamp per
shipment-SKU pair. -/
theorem deductor_at_most_once_and_second_run_noop (maps : SkuMaps) (db : ReconDB)
    (ss : List Shipment) (sid : Nat) (k : String)
    (hnodM : (db.movements.map Movement.id).Nodup)
    (hnodS : (db.stocks.map StockRow.id).Nodup)
    (hsid : (ss.map Shipment.id).Nodup)
    (hpos : ∀ p ∈ allPairs ss, 0 < p.2.2) :
    runShipments maps (runShipments maps db ss).1 ss = ((runShipments maps db ss).1, [])
    ∧ countDeduct (runShipments maps db ss).2 sid k ≤ 1
    ∧ countStamp (runShipments maps db ss).2 sid k ≤ 1 := by
  have hsettled := runPairsList_settles maps (allPairs ss) db hnodM hnodS hpos
  have hcount := runPairsList_count_le_one maps sid k (allPairs ss) db
    (allPairs_keys_nodup ss hsid)
  exact ⟨runPairsList_noop maps (allPairs ss) _ hsettled, hcount.1, hcount.2⟩

/-- Witness for the amended C1 at the two-SKU shipment. -/
theorem deductor_at_most_once_and_second_run_noop_witness :
    (([⟨1, none, none, some "shipment", some "7", none, 0⟩] :
        List Movement).map Movement.id).Nodup
    ∧ (([⟨1, "product", "1", some 10, some 10, "Batch"⟩,
         ⟨2, "product", "2", some 10, some 10, "Batch"⟩] :
        List StockRow).map StockRow.id).Nodup
    ∧ (([⟨7, none, [⟨some "a", some 1⟩, ⟨some "b", some 1⟩]⟩] :
        List Shipment).map Shipment.id).Nodup
    ∧ (∀ p ∈ allPairs [⟨7, none, [⟨some "a", some 1⟩, ⟨some "b", some 1⟩]⟩], 0 < p.2.2)
    ∧ (runShipments ⟨[("a", 1), ("b", 2)], [], []⟩
        (runShipments ⟨[("a", 1), ("b", 2)], [], []⟩
          ⟨[⟨1, none, none, some "shipment", some "7", none, 0⟩],
           [⟨1, "product", "1", some 10, some 10, "Batch"⟩,
            ⟨2, "product", "2", some 10, some 10, "Batch"⟩]⟩
          [⟨7, none, [⟨some "a", some 1⟩, ⟨some "b", some 1⟩]⟩]).1
        [⟨7, none, [⟨some "a", some 1⟩, ⟨some "b", some 1⟩]⟩] =
        ((runShipments ⟨[("a", 1), ("b", 2)], [], []⟩
          ⟨[⟨1, none, none, some "shipment", some "7", none, 0⟩],
           [⟨1, "product", "1", some 10, some 10, "Batch"⟩,
            ⟨2, "product", "2", some 10, some 10, "Batch"⟩]⟩
          [⟨7, none, [⟨some "a", some 1⟩, ⟨some "b", some 1⟩]⟩]).1, [])
      ∧ countDeduct (runShipments ⟨[("a", 1), ("b", 2)], [], []⟩
          ⟨[⟨1, none, none, some "shipment", some "7", none, 0⟩],
           [⟨1, "product", "1", some 10, some 10, "Batch"⟩,
            ⟨2, "product", "2", some 10, some 10, "Batch"⟩]⟩
          [⟨7, none, [⟨some "a", some 1⟩, ⟨some "b", some 1⟩]⟩]).2 7 "a" ≤ 1
      ∧ countStamp (runShipments ⟨[("a", 1), ("b", 2)], [], []⟩
          ⟨[⟨1, none, none, some "shipment", some "7", none, 0⟩],
           [⟨1, "product", "1", some 10, some 10, "Batch"⟩,
            ⟨2, "product", "2", some 10, some 10, "Batch"⟩]⟩
          [⟨7, none, [⟨some "a", some 1⟩, ⟨some "b", some 1⟩]⟩]).2 7 "a" ≤ 1) :=
  ⟨by decide, by decide, by decide, by decide,
    deductor_at_most_once_and_second_run_noop ⟨[("a", 1), ("b", 2)], [], []⟩
      ⟨[⟨1, none, none, some "shipment", some "7", none, 0⟩],
       [⟨1, "product", "1", some 10, some 10, "Batch"⟩,
        ⟨2, "product", "2", some 10, some 10, "Batch"⟩]⟩
      [⟨7, none, [⟨some "a", some 1⟩, ⟨some "b", some 1⟩]⟩] 7 "a"
      (by decide) (by decide) (by decide) (by decide)⟩

/-- C8 counterexample: the deduction guard checks the row's `available`
figure but decrements `on_hand`; with `on_hand = 1` and `available = 5`,
shipping quantity 3 drives `on_hand` to `-2` — the engine does drive stock
negative. -/
theorem deductor_drives_stock_negative :
    (runShipments ⟨[("a", 5)], [], []⟩
      ⟨[⟨1, none, none, some "shipment", some "7", none, 0⟩],
       [⟨1, "product", "5", some 1, some 5, "Batch"⟩]⟩
      [⟨7, none, [⟨some "a", some 3⟩]⟩]).1.stocks =
      [⟨1, "product", "5", some (-2), some 5, "Batch"⟩]
    ∧ (-2 : Int) < 0 := by
  refine ⟨by decide, by decide⟩

/-- C8 (amended): for a positive quantity, when every stock row's
`available` figure (with `on_hand` as fallback) is at most its `on_hand`
and stock-row ids are unique, every mutation the deductor issues strictly
decreases the touched row's `on_hand`, never below zero, leaves its
`available` unchanged and leaves all other rows intact; and a deduction
event is only emitted for a stored row whose `available` figure is at
least the shipped quantity. -/
theorem deduction_monotone_nonneg (maps : SkuMaps) (db : ReconDB) (s : Shipment)
    (k : String) (q : Int)
    (hnodS : (db.stocks.map StockRow.id).Nodup)
    (hq : 0 < q)
    (hcons : ∀ r ∈ db.stocks, availOf r ≤ r.on_hand.getD 0) :
    (∀ r' ∈ (processPair maps db s k q).1.stocks,
      ∃ r, r ∈ db.stocks ∧ r'.id = r.id ∧
        (r' = r ∨ (r'.on_hand.getD 0 < r.on_hand.getD 0 ∧ 0 ≤ r'.on_hand.getD 0 ∧
          r'.available = r.available)))
    ∧ (∀ sid k' stid q', ReconEvent.deduct sid k' stid q' ∈ (processPair maps db s k q).2 →
        ∃ st, st ∈ db.stocks ∧ st.id = stid ∧ q' = q ∧ q ≤ availOf st) := by
  rcases processPair_shape maps db s k q with h |
    ⟨m0, st0, ity0, iid0, _, _, _, _, _, hsel0, hav0, heq⟩
  · rw [h]
    constructor
    · intro r' hr'
      exact ⟨r', hr', rfl, Or.inl rfl⟩
    · intro sid k' stid q' hmem
      exact absurd hmem (by simp)
  · have hst0 : st0 ∈ db.stocks := List.mem_of_mem_filter (selectStock_mem _ _ hsel0)
    rw [heq]
    constructor
    · intro r' hr'
      obtain ⟨r, hrmem, hreq⟩ := List.mem_map.mp hr'
      refine ⟨r, hrmem, ?_, ?_⟩
      · rw [← hreq]
        exact updStockFn_id _ _ r
      · by_cases hid : r.id = st0.id
        · have hrst : r = st0 := eq_of_id_nodup StockRow.id db.stocks hnodS hrmem hst0 hid
          subst hrst
          right
          rw [← hreq]
          unfold updStockFn
          rw [if_pos rfl]
          have hc : availOf r ≤ r.on_hand.getD 0 := hcons r hrmem
          have hg : q ≤ availOf r := Int.not_lt.mp hav0
          refine ⟨?_, ?_, rfl⟩
          · simp only [Option.getD_some]
            omega
          · simp only [Option.getD_some]
            omega
        · left
          rw [← hreq]
          exact updStockFn_eq_of_ne _ _ r hid
    · intro sid k' stid q' hmem
      rcases List.mem_cons.mp hmem with heq1 | hmem1
      · injection heq1 with h1 h2 h3 h4
        exact ⟨st0, hst0, h3.symm, h4, Int.not_lt.mp hav0⟩
      · rcases List.mem_cons.mp hmem1 with heq2 | hmem2
        · exact absurd heq2 (by simp)
        · exact absurd hmem2 (by simp)

/-- Witness for the amended C8 at a consistent concrete stock row. -/
theorem deduction_monotone_nonneg_witness :
    (([⟨1, "product", "5", some 10, some 4, "Batch"⟩] :
        List StockRow).map StockRow.id).Nodup
    ∧ (0 : Int) < 3
    ∧ (∀ r ∈ ([⟨1, "product", "5", some 10, some 4, "Batch"⟩] : List StockRow),
        availOf r ≤ r.on_hand.getD 0)
    ∧ ((∀ r' ∈ (processPair ⟨[("a", 5)], [], []⟩
          ⟨[⟨1, none, none, some "shipment", some "7", none, 0⟩],
           [⟨1, "product", "5", some 10, some 4, "Batch"⟩]⟩
          ⟨7, none, []⟩ "a" 3).1.stocks,
        ∃ r, r ∈ ([⟨1, "product", "5", some 10, some 4, "Batch"⟩] : List StockRow) ∧
          r'.id = r.id ∧
          (r' = r ∨ (r'.on_hand.getD 0 < r.on_hand.getD 0 ∧ 0 ≤ r'.on_hand.getD 0 ∧
            r'.available = r.available)))
      ∧ (∀ sid k' stid q', ReconEvent.deduct sid k' stid q' ∈
          (processPair ⟨[("a", 5)], [], []⟩
            ⟨[⟨1, none, none, some "shipment", some "7", none, 0⟩],
             [⟨1, "product", "5", some 10, some 4, "Batch"⟩]⟩
            ⟨7, none, []⟩ "a" 3).2 →
          ∃ st, st ∈ ([⟨1, "product", "5", some 10, some 4, "Batch"⟩] : List StockRow) ∧
            st.id = stid ∧ q' = 3 ∧ (3 : Int) ≤ availOf st)) :=
  ⟨by decide, by decide, by decide,
    deduction_monotone_nonneg ⟨[("a", 5)], [], []⟩
      ⟨[⟨1, none, none, some "shipment", some "7", none, 0⟩],
       [⟨1, "product", "5", some 10, some 4, "Batch"⟩]⟩
      ⟨7, none, []⟩ "a" 3 (by decide) (by decide) (by decide)⟩

theorem find?_append_eq {α : Type} (p : α → Bool) :
    ∀ l₁ l₂ : List α, (l₁ ++ l₂).find? p =
      match l₁.find? p with
      | some x => some x
      | none => l₂.find? p := by
  intro l₁ l₂
  induction l₁ with
  | nil => rfl
  | cons a t ih =>
      simp only [List.cons_append, List.find?]
      cases p a with
      | true => rfl
      | false => exact ih

theorem find?_eq_filter_head {α : Type} (p : α → Bool) :
    ∀ l : List α, l.find? p = (l.filter p).head? := by
  intro l
  induction l with
  | nil => rfl
  | cons a t ih =>
      simp only [List.find?, List.filter]
      cases p a with
      | true => rfl
      | false => exact ih

theorem getLast?_eq_head?_of_short {α : Type} (l : List α) (h : l.length ≤ 1) :
    l.getLast? = l.head? := by
  match l with
  | [] => rfl
  | [a] => rfl
  | a :: b :: t => simp at h

theorem filter_filterMap_short {α β : Type} (f : α → Option β) (p : α → Bool) (t : β)
    (hp : ∀ x, p x = true → f x = some t) :
    ∀ l : List α, (l.filterMap f).Nodup → (l.filter p).length ≤ 1 := by
  intro l
  induction l with
  | nil => intro _; simp
  | cons a rest ih =>
      intro hnod
      simp only [List.filter]
      cases hpa : p a with
      | false =>
          refine ih ?_
          cases hfa : f a with
          | none => rw [List.filterMap_cons_none hfa] at hnod; exact hnod
          | some b =>
              rw [List.filterMap_cons_some hfa] at hnod
              exact hnod.of_cons
      | true =>
          have hfa : f a = some t := hp a hpa
          rw [List.filterMap_cons_some hfa] at hnod
          have hnot : t ∉ rest.filterMap f := (List.nodup_cons.mp hnod).1
          have hnil : rest.filter p = [] := by
            refine List.eq_nil_iff_forall_not_mem.mpr ?_
            intro x hx
            have hxm := List.mem_of_mem_filter hx
            have hxp := List.of_mem_filter hx
            exact hnot (List.mem_filterMap.mpr ⟨x, hxm, hp x hxp⟩)
          simp [hnil]

theorem filter_of_filter_imp {α : Type} (p q : α → Bool)
    (h : ∀ x, q x = true → p x = true) :
    ∀ l : List α, (l.filter p).filter q = l.filter q := by
  intro l
  induction l with
  | nil => rfl
  | cons a t ih =>
      simp only [List.filter]
      cases hq : q a with
      | true =>
          rw [h a hq]
          simp only [List.filter, hq, ih]
      | false =>
          cases hp : p a with
          | true => simp only [List.filter, hq, ih]
          | false => exact ih

theorem filter_of_map_eq {α β : Type} (g : α → β) (p : β → Bool) :
    ∀ l : List α, (l.map g).filter p = (l.filter fun x => p (g x)).map g := by
  intro l
  induction l with
  | nil => rfl
  | cons a t ih =>
      simp only [List.map, List.filter]
      cases hp : p (g a) with
      | true => simp [ih]
      | false => exact ih

theorem enumFrom_map_shift {α : Type} (n : Nat) :
    ∀ (l : List α) (k : Nat),
      (List.enumFrom k l).map (fun p => (n + p.1, p.2)) = List.enumFrom (n + k) l := by
  intro l
  induction l with
  | nil => intro k; rfl
  | cons a t ih =>
      intro k
      simp only [List.enumFrom, List.map_cons]
      rw [ih (k + 1), Nat.add_succ]

theorem enum_shift_cons {α : Type} (n : Nat) (a : α) (l : List α) :
    (a :: l).enum.map (fun p => (n + p.1, p.2)) =
      (n, a) :: l.enum.map (fun p => (n + 1 + p.1, p.2)) := by
  rw [show (a :: l).enum = List.enumFrom 0 (a :: l) from rfl, enumFrom_map_shift,
    show l.enum = List.enumFrom 0 l from rfl, enumFrom_map_shift]
  simp [List.enumFrom]

theorem filter_ext {α : Type} (p q : α → Bool) :
    ∀ l : List α, (∀ x ∈ l, p x = q x) → l.filter p = l.filter q := by
  intro l
  induction l with
  | nil => intro _; rfl
  | cons a t ih =>
      intro h
      simp only [List.filter]
      rw [h a (by simp)]
      cases q a with
      | true => rw [ih fun x hx => h x (by simp [hx])]
      | false => exact ih fun x hx => h x (by simp [hx])

theorem getField_cons (a : String) (w : Option FVal) (l : Row) (k : String) :
    getField ((a, w) :: l) k = if k = a then w else getField l k := by
  by_cases hka : k = a
  · subst hka
    simp [getField, List.lookup]
  · have hb : (k == a) = false := beq_eq_false_iff_ne.mpr hka
    simp [getField, List.lookup, hb, hka]

theorem getField_selectCols_ite (r : Row) (k : String) :
    ∀ cols : List String,
      getField (selectCols cols r) k = if k ∈ cols then getField r k else none := by
  intro cols
  induction cols with
  | nil => simp [selectCols, getField]
  | cons c cs ih =>
      have hsel : selectCols (c :: cs) r = (c, getField r c) :: selectCols cs r := rfl
      rw [hsel, getField_cons]
      by_cases hkc : k = c
      · subst hkc
        simp
      · rw [if_neg hkc, ih]
        simp [List.mem_cons, hkc]

theorem colsB_mem_iff (k : String) :
    k ∈ shipmentColsBatched ↔ k ∈ shipmentColsUnbatched := by
  simp only [shipmentColsBatched, shipmentColsUnbatched, List.mem_cons,
    List.not_mem_nil, or_false]
  tauto

theorem buildUpdate_congr (e₁ e₂ : Row) (h : ∀ k, getField e₁ k = getField e₂ k) :
    ∀ cand : Row, buildUpdateForMissingFields e₁ cand = buildUpdateForMissingFields e₂ cand := by
  intro cand
  induction cand with
  | nil => rfl
  | cons p rest ih =>
      unfold buildUpdateForMissingFields
      rw [List.filterMap_cons, List.filterMap_cons]
      have hfa : (match p.2 with
          | none => none
          | some v => if getField e₁ p.1 = none then some (p.1, v) else none)
          = (match p.2 with
          | none => (none : Option (String × FVal))
          | some v => if getField e₂ p.1 = none then some (p.1, v) else none) := by
        cases p.2 with
        | none => rfl
        | some v => rw [h p.1]
      rw [hfa]
      cases (match p.2 with
          | none => (none : Option (String × FVal))
          | some v => if getField e₂ p.1 = none then some (p.1, v) else none) with
      | none => exact ih
      | some q =>
          dsimp only
          exact congrArg (fun l => q :: l) ih

theorem buildUpdate_views_agree (r cand : Row) :
    buildUpdateForMissingFields (selectCols shipmentColsBatched r) cand =
      buildUpdateForMissingFields (selectCols shipmentColsUnbatched r) cand := by
  refine buildUpdate_congr _ _ (fun k => ?_) cand
  rw [getField_selectCols_ite, getField_selectCols_ite]
  exact if_congr (colsB_mem_iff k) rfl rfl

theorem getField_applyUpdate_miss (upd : List (String × FVal)) (k : String)
    (h : upd.lookup k = none) (r : Row) :
    getField (applyUpdate r upd) k = getField r k := by
  rw [getField_applyUpdate]
  cases hr : r.lookup k with
  | none => simp [getField, hr]
  | some w =>
      dsimp only
      rw [h]

theorem trackStr_selectColsB (r : Row) :
    trackStrOf (selectCols shipmentColsBatched r) = trackStrOf r := by
  unfold trackStrOf
  rw [getField_selectCols_ite]
  rw [if_pos (by simp [shipmentColsBatched])]

theorem trackingEq_true_iff (t : String) (ht : t ≠ "") (r : ShipRow) :
    trackingEq t r = true ↔ trackStrOf r.2 = some t := by
  unfold trackingEq trackStrOf
  constructor
  · intro h
    have heq : getField r.2 "tracking_number" = some (.s t) := beq_iff_eq.mp h
    rw [heq]
    simp [ht]
  · intro h
    cases hf : getField r.2 "tracking_number" with
    | none => rw [hf] at h; exact absurd h (by simp)
    | some v =>
        cases v with
        | s sv =>
            rw [hf] at h
            dsimp only at h
            by_cases hsv : sv = ""
            · rw [if_pos hsv] at h
              exact absurd h (by simp)
            · rw [if_neg hsv] at h
              have hst : sv = t := by
                simpa using h
              subst hst
              exact beq_iff_eq.mpr rfl
        | b bv => rw [hf] at h; exact absurd h (by simp)
        | i iv => rw [hf] at h; exact absurd h (by simp)

theorem contains_of_mem (t : String) : ∀ l : List String, t ∈ l → l.contains t = true := by
  intro l
  induction l with
  | nil => intro h; exact absurd h (List.not_mem_nil t)
  | cons a rest ih =>
      intro h
      rcases List.mem_cons.mp h with h' | h'
      · subst h'
        simp [List.contains_cons]
      · rw [List.contains_cons, ih h', Bool.or_true]

theorem trackStr_some_getField (row : Row) (t : String) (h : trackStrOf row = some t) :
    getField row "tracking_number" = some (.s t) := by
  unfold trackStrOf at h
  cases hf : getField row "tracking_number" with
  | none => rw [hf] at h; exact absurd h (by simp)
  | some v =>
      cases v with
      | s sv =>
          rw [hf] at h
          dsimp only at h
          by_cases hsv : sv = ""
          · rw [if_pos hsv] at h
            exact absurd h (by simp)
          · rw [if_neg hsv] at h
            have hst : sv = t := by simpa using h
            rw [hst]
      | b bv => rw [hf] at h; exact absurd h (by simp)
      | i iv => rw [hf] at h; exact absurd h (by simp)

theorem decide_eq_beq {α : Type} [BEq α] [LawfulBEq α] [DecidableEq α] (x y : α) :
    decide (x = y) = (x == y) := by
  by_cases h : x = y
  · subst h
    simp
  · rw [decide_eq_false h, Eq.symm (beq_eq_false_iff_ne.mpr h)]

theorem decide_and_eq (p q : Prop) [Decidable p] [Decidable q] :
    decide (p ∧ q) = (decide p && decide q) := by
  by_cases hp : p
  · by_cases hq : q
    · simp [hp, hq]
    · simp [hp, hq]
  · simp [hp]

theorem filter_and_split {α : Type} (p q : α → Bool) :
    ∀ l : List α, (l.filter fun x => p x && q x) = (l.filter p).filter q := by
  intro l
  induction l with
  | nil => rfl
  | cons a t ih =>
      simp only [List.filter]
      cases hp : p a with
      | true =>
          cases hq : q a with
          | true => simp only [Bool.and_self, List.filter, hq, ih]
          | false => simp only [Bool.true_and, hq, List.filter, ih]
      | false =>
          simp only [Bool.false_and]
          exact ih

theorem short_head_eq_singleton {α : Type} (l : List α) (u : α)
    (hlen : l.length ≤ 1) (hh : l.head? = some u) : l = [u] := by
  match l with
  | [] => exact absurd hh (by simp)
  | [a] =>
      have : a = u := by simpa using hh
      rw [this]
  | a :: b :: t => simp at hlen

theorem orderRowsOf_mem_num (orders : List OrderRow) (nums : List String) (r : OrderRow)
    (h : r ∈ orderRowsOf orders nums) :
    ∃ o, r.order_number = some o ∧ nums.contains o = true := by
  have hp := List.of_mem_filter h
  cases hn : r.order_number with
  | none => rw [hn] at hp; exact absurd hp (by simp)
  | some o =>
      rw [hn] at hp
      exact ⟨o, rfl, hp⟩

theorem pageOrderNumbers_ne (events : List SSEvent) (n : String)
    (h : n ∈ pageOrderNumbers events) : n ≠ "" := by
  obtain ⟨e, _, he⟩ := List.mem_filterMap.mp h
  cases ho : e.order_number with
  | none => rw [ho] at he; exact absurd he (by simp)
  | some o =>
      rw [ho] at he
      dsimp only at he
      by_cases hoe : o = ""
      · rw [if_pos hoe] at he
        exact absurd he (by simp)
      · rw [if_neg hoe] at he
        have : o = n := by simpa using he
        rw [← this]
        exact hoe

theorem pageOrderNumbers_mem (events : List SSEvent) (e : SSEvent) (o : String)
    (he : e ∈ events) (ho : e.order_number = some o) (hoe : o ≠ "") :
    o ∈ pageOrderNumbers events := by
  refine List.mem_filterMap.mpr ⟨e, he, ?_⟩
  rw [ho]
  simp [hoe]

theorem pageTrackings_mem (events : List SSEvent) (e : SSEvent)
    (he : e ∈ events) (ht : trimL (e.tracking_number.getD "") ≠ "") :
    trimL (e.tracking_number.getD "") ∈ pageTrackings events := by
  refine List.mem_filterMap.mpr ⟨e, he, ?_⟩
  simp [ht]

theorem mem_of_contains (t : String) : ∀ l : List String, l.contains t = true → t ∈ l := by
  intro l
  induction l with
  | nil => intro h; exact absurd h (by simp)
  | cons a rest ih =>
      intro h
      rw [List.contains_cons] at h
      rcases Bool.or_eq_true_iff.mp h with h' | h'
      · exact List.mem_cons.mpr (Or.inl (beq_iff_eq.mp h'))
      · exact List.mem_cons.mpr (Or.inr (ih h'))

theorem getExistingB_core (t : String) (ht : t ≠ "") (trackings : List String)
    (htm : t ∈ trackings) :
    ∀ rows : List ShipRow, (rows.filterMap fun r => trackStrOf r.2).Nodup →
      (((rows.filter fun r =>
            match getField r.2 "tracking_number" with
            | some (.s v) => trackings.contains v
            | _ => false).map fun r =>
          (r.1, selectCols shipmentColsBatched r.2)).filter fun rv =>
        trackStrOf rv.2 = some t).getLast? =
      (rows.find? (trackingEq t)).map fun r => (r.1, selectCols shipmentColsBatched r.2) := by
  intro rows
  induction rows with
  | nil => intro _; rfl
  | cons r rest ih =>
      intro hnod
      have hnodtail : (rest.filterMap fun x => trackStrOf x.2).Nodup := by
        have h0 := hnod
        rw [List.filterMap_cons] at h0
        cases hts0 : trackStrOf r.2 with
        | none => rw [hts0] at h0; exact h0
        | some s =>
            rw [hts0] at h0
            exact (List.nodup_cons.mp h0).2
      by_cases htr : trackingEq t r = true
      · have hts : trackStrOf r.2 = some t := (trackingEq_true_iff t ht r).mp htr
        have hpre : (match getField r.2 "tracking_number" with
            | some (.s v) => trackings.contains v
            | _ => false) = true := by
          rw [trackStr_some_getField r.2 t hts]
          exact contains_of_mem t trackings htm
        have hview : trackStrOf (selectCols shipmentColsBatched r.2) = some t := by
          rw [trackStr_selectColsB]; exact hts
        have hnot : t ∉ rest.filterMap fun x => trackStrOf x.2 := by
          have h0 := hnod
          rw [List.filterMap_cons] at h0
          rw [hts] at h0
          exact (List.nodup_cons.mp h0).1
        have hnil : (((rest.filter fun x =>
              match getField x.2 "tracking_number" with
              | some (.s v) => trackings.contains v
              | _ => false).map fun x =>
            (x.1, selectCols shipmentColsBatched x.2)).filter fun rv =>
          trackStrOf rv.2 = some t) = [] := by
          refine List.eq_nil_iff_forall_not_mem.mpr ?_
          intro y hy
          have hyp := List.of_mem_filter hy
          have hym := List.mem_of_mem_filter hy
          obtain ⟨x, hxm, hxy⟩ := List.mem_map.mp hym
          have hyx2 : trackStrOf y.2 = some t := of_decide_eq_true hyp
          rw [← hxy] at hyx2
          have hxts : trackStrOf x.2 = some t := by
            rw [← trackStr_selectColsB x.2]
            exact hyx2
          exact hnot (List.mem_filterMap.mpr ⟨x, List.mem_of_mem_filter hxm, hxts⟩)
        have hd : decide (trackStrOf ((r.1, selectCols shipmentColsBatched r.2) :
            Nat × Row).2 = some t) = true := decide_eq_true hview
        simp only [List.filter, hpre, List.map_cons, hd, hnil, List.find?, htr]
        simp
      · have htr' : trackingEq t r = false := by
          cases h2 : trackingEq t r
          · rfl
          · exact absurd h2 htr
        have hnts : trackStrOf r.2 ≠ some t := by
          intro hc
          exact htr ((trackingEq_true_iff t ht r).mpr hc)
        have hd : decide (trackStrOf ((r.1, selectCols shipmentColsBatched r.2) :
            Nat × Row).2 = some t) = false := by
          refine decide_eq_false ?_
          intro hc
          have hc' : trackStrOf (selectCols shipmentColsBatched r.2) = some t := hc
          rw [trackStr_selectColsB] at hc'
          exact hnts hc'
        cases hpre : (match getField r.2 "tracking_number" with
            | some (.s v) => trackings.contains v
            | _ => false) with
        | false =>
            simp only [List.filter, hpre, List.find?, htr']
            exact ih hnodtail
        | true =>
            simp only [List.filter, hpre, List.map_cons, hd, List.find?, htr']
            exact ih hnodtail

theorem getExistingB_eq (tbl : ShipTable) (trackings : List String) (t : String)
    (ht : t ≠ "") (htm : t ∈ trackings)
    (hnod : (tbl.rows.filterMap fun r => trackStrOf r.2).Nodup) :
    getExistingB (existingViewsOf tbl trackings) t =
      (tbl.rows.find? (trackingEq t)).map
        fun r => (r.1, selectCols shipmentColsBatched r.2) :=
  getExistingB_core t ht trackings htm tbl.rows hnod

theorem orderLookup_eq (orders : List OrderRow) (nums : List String)
    (onum : Option String) (sid : Option Int)
    (hnod : (orders.filterMap OrderRow.order_number).Nodup)
    (hnums : ∀ n ∈ nums, n ≠ "")
    (hmem : ∀ o, onum = some o → o ≠ "" → o ∈ nums) :
    (match byCompositeB (orderRowsOf orders nums) onum sid with
     | some r => some r
     | none => byNumberB (orderRowsOf orders nums) onum) =
      findOrderByOrderNumber orders onum := by
  cases onum with
  | none =>
      have hcomp : ((orderRowsOf orders nums).filter fun r =>
          r.order_number = none ∧ r.store_id = sid) = [] := by
        refine List.eq_nil_iff_forall_not_mem.mpr ?_
        intro x hx
        have hxp := List.of_mem_filter hx
        have hxm := List.mem_of_mem_filter hx
        obtain ⟨o, hxo, _⟩ := orderRowsOf_mem_num orders nums x hxm
        have hprop := of_decide_eq_true hxp
        rw [hxo] at hprop
        exact absurd hprop.1 (by simp)
      have hbc : byCompositeB (orderRowsOf orders nums) none sid = none := by
        unfold byCompositeB
        rw [hcomp]
        rfl
      rw [hbc]
      rfl
  | some o =>
      by_cases ho : o = ""
      · subst ho
        have hnone : ∀ x ∈ orderRowsOf orders nums, x.order_number ≠ some "" := by
          intro x hxm hc
          obtain ⟨o', hxo, hco⟩ := orderRowsOf_mem_num orders nums x hxm
          rw [hxo] at hc
          have ho' : o' = "" := by simpa using hc
          exact hnums o' (mem_of_contains o' nums hco) ho'
        have hcomp : ((orderRowsOf orders nums).filter fun r =>
            r.order_number = some "" ∧ r.store_id = sid) = [] := by
          refine List.eq_nil_iff_forall_not_mem.mpr ?_
          intro x hx
          have hxp := List.of_mem_filter hx
          have hxm := List.mem_of_mem_filter hx
          exact hnone x hxm (of_decide_eq_true hxp).1
        have hnum : ((orderRowsOf orders nums).filter fun r =>
            r.order_number = some "") = [] := by
          refine List.eq_nil_iff_forall_not_mem.mpr ?_
          intro x hx
          have hxp := List.of_mem_filter hx
          have hxm := List.mem_of_mem_filter hx
          exact hnone x hxm (of_decide_eq_true hxp)
        have hbc : byCompositeB (orderRowsOf orders nums) (some "") sid = none := by
          unfold byCompositeB
          rw [hcomp]
          rfl
        have hbn : byNumberB (orderRowsOf orders nums) (some "") = none := by
          unfold byNumberB
          dsimp only
          rw [hnum]
          rfl
        rw [hbc, hbn]
        rfl
      · have homem : o ∈ nums := hmem o rfl ho
        have himp : ∀ x : OrderRow, decide (x.order_number = some o) = true →
            (match x.order_number with
             | some oo => nums.contains oo
             | none => false) = true := by
          intro x hx
          rw [of_decide_eq_true hx]
          exact contains_of_mem o nums homem
        have hfilt : ((orderRowsOf orders nums).filter fun r => r.order_number = some o)
            = orders.filter fun r => r.order_number == some o := by
          unfold orderRowsOf
          rw [filter_of_filter_imp _ _ himp orders]
          exact filter_ext _ _ orders fun x _ => decide_eq_beq x.order_number (some o)
        have hlen : (orders.filter fun r => r.order_number == some o).length ≤ 1 :=
          filter_filterMap_short OrderRow.order_number _ o
            (fun x hx => beq_iff_eq.mp hx) orders hnod
        have hcompfilt : ((orderRowsOf orders nums).filter fun r =>
            r.order_number = some o ∧ r.store_id = sid)
            = (((orderRowsOf orders nums).filter fun r => r.order_number = some o).filter
              fun r => r.store_id = sid) := by
          rw [← filter_and_split]
          refine filter_ext _ _ _ fun x _ => ?_
          exact decide_and_eq _ _
        cases hfind : orders.find? (fun r => r.order_number == some o) with
        | none =>
            have hnil : (orders.filter fun r => r.order_number == some o) = [] := by
              have hh := find?_eq_filter_head (fun r => r.order_number == some o) orders
              rw [hfind] at hh
              cases hfl : orders.filter fun r => r.order_number == some o with
              | nil => rfl
              | cons a l => rw [hfl] at hh; exact absurd hh.symm (by simp)
            have hbc : byCompositeB (orderRowsOf orders nums) (some o) sid = none := by
              unfold byCompositeB
              rw [hcompfilt, hfilt, hnil]
              rfl
            have hbn : byNumberB (orderRowsOf orders nums) (some o) = none := by
              unfold byNumberB
              dsimp only
              rw [hfilt, hnil]
              rfl
            rw [hbc, hbn]
            unfold findOrderByOrderNumber
            dsimp only
            rw [if_neg ho, hfind]
        | some u =>
            have hsingle : (orders.filter fun r => r.order_number == some o) = [u] := by
              refine short_head_eq_singleton _ u hlen ?_
              rw [← find?_eq_filter_head, hfind]
            cases hsid : decide (u.store_id = sid) with
            | true =>
                have hbc : byCompositeB (orderRowsOf orders nums) (some o) sid = some u := by
                  unfold byCompositeB
                  rw [hcompfilt, hfilt, hsingle]
                  simp only [List.filter, hsid]
                  rfl
                rw [hbc]
                unfold findOrderByOrderNumber
                dsimp only
                rw [if_neg ho, hfind]
            | false =>
                have hbc : byCompositeB (orderRowsOf orders nums) (some o) sid = none := by
                  unfold byCompositeB
                  rw [hcompfilt, hfilt, hsingle]
                  simp only [List.filter, hsid]
                  rfl
                have hbn : byNumberB (orderRowsOf orders nums) (some o) = some u := by
                  unfold byNumberB
                  dsimp only
                  rw [hfilt, hsingle]
                  rfl
                rw [hbc, hbn]
                unfold findOrderByOrderNumber
                dsimp only
                rw [if_neg ho, hfind]

theorem classifyEvents_cons (parse : String → Option String) (orders : List OrderRow)
    (rows : List ShipRow) (evt : SSEvent) (rest : List SSEvent) :
    classifyEvents parse orders rows (evt :: rest) =
      (let t := trimL (evt.tracking_number.getD "")
       let acc := classifyEvents parse orders rows rest
       if t = "" then acc
       else
         let candidate := makeShipmentRowFromShipStationEvent parse evt
           (findOrderByOrderNumber orders evt.order_number)
         match rows.find? (trackingEq t) with
         | none => (candidate :: acc.1, acc.2)
         | some ex =>
             let upd := buildUpdateForMissingFields (selectCols shipmentColsUnbatched ex.2)
               candidate
             if upd.isEmpty then acc else (acc.1, (ex.1, upd) :: acc.2)) := rfl

theorem batchFold_eq_classify (parse : String → Option String) (orders : List OrderRow)
    (views : List (Nat × Row)) (orderRows : List OrderRow) (rows : List ShipRow) :
    ∀ events : List SSEvent,
      (∀ e ∈ events, trimL (e.tracking_number.getD "") ≠ "" →
        getExistingB views (trimL (e.tracking_number.getD "")) =
          (rows.find? (trackingEq (trimL (e.tracking_number.getD "")))).map
            fun r => (r.1, selectCols shipmentColsBatched r.2)) →
      (∀ e ∈ events,
        (match byCompositeB orderRows e.order_number e.store_id with
         | some r => some r
         | none => byNumberB orderRows e.order_number) =
          findOrderByOrderNumber orders e.order_number) →
      ∀ acc : List Row × List (Nat × List (String × FVal)),
        events.foldl (batchStep parse views orderRows) acc =
          (acc.1 ++ (classifyEvents parse orders rows events).1,
           acc.2 ++ (classifyEvents parse orders rows events).2) := by
  intro events
  induction events with
  | nil =>
      intro _ _ acc
      simp [classifyEvents]
  | cons evt rest ih =>
      intro hex hord acc
      have hex' := fun e he => hex e (List.mem_cons_of_mem evt he)
      have hord' := fun e he => hord e (List.mem_cons_of_mem evt he)
      rw [List.foldl_cons]
      by_cases ht : trimL (evt.tracking_number.getD "") = ""
      · rw [show batchStep parse views orderRows acc evt = acc from by
          unfold batchStep; dsimp only; rw [if_pos ht]]
        rw [ih hex' hord' acc, classifyEvents_cons]
        dsimp only
        rw [if_pos ht]
      · have hgx := hex evt (List.mem_cons_self evt rest) ht
        have hgo := hord evt (List.mem_cons_self evt rest)
        rw [classifyEvents_cons]
        dsimp only
        rw [if_neg ht]
        have hstep : batchStep parse views orderRows acc evt =
            (match rows.find? (trackingEq (trimL (evt.tracking_number.getD ""))) with
             | none => (acc.1 ++ [makeShipmentRowFromShipStationEvent parse evt
                 (findOrderByOrderNumber orders evt.order_number)], acc.2)
             | some r =>
                 if (buildUpdateForMissingFields (selectCols shipmentColsBatched r.2)
                     (makeShipmentRowFromShipStationEvent parse evt
                       (findOrderByOrderNumber orders evt.order_number))).isEmpty
                 then acc
                 else (acc.1, acc.2 ++ [(r.1,
                   buildUpdateForMissingFields (selectCols shipmentColsBatched r.2)
                     (makeShipmentRowFromShipStationEvent parse evt
                       (findOrderByOrderNumber orders evt.order_number)))])) := by
          unfold batchStep
          dsimp only
          rw [if_neg ht, hgx, hgo]
          cases rows.find? (trackingEq (trimL (evt.tracking_number.getD ""))) with
          | none => rfl
          | some r => rfl
        rw [hstep]
        cases hfind : rows.find? (trackingEq (trimL (evt.tracking_number.getD ""))) with
        | none =>
            dsimp only
            rw [ih hex' hord' (acc.1 ++ [makeShipmentRowFromShipStationEvent parse evt
              (findOrderByOrderNumber orders evt.order_number)], acc.2)]
            dsimp only
            rw [List.append_assoc]
            rfl
        | some r =>
            dsimp only
            rw [buildUpdate_views_agree r.2 (makeShipmentRowFromShipStationEvent parse evt
              (findOrderByOrderNumber orders evt.order_number))]
            cases hemp : (buildUpdateForMissingFields (selectCols shipmentColsUnbatched r.2)
                (makeShipmentRowFromShipStationEvent parse evt
                  (findOrderByOrderNumber orders evt.order_number))).isEmpty with
            | true =>
                rw [if_pos rfl, if_pos rfl]
                exact ih hex' hord' acc
            | false =>
                rw [if_neg Bool.false_ne_true, if_neg Bool.false_ne_true]
                rw [ih hex' hord' (acc.1, acc.2 ++ [(r.1,
                  buildUpdateForMissingFields (selectCols shipmentColsUnbatched r.2)
                    (makeShipmentRowFromShipStationEvent parse evt
                      (findOrderByOrderNumber orders evt.order_number)))])]
                dsimp only
                rw [List.append_assoc]
                rfl

theorem processPageBatched_eq_spec (parse : String → Option String)
    (orders : List OrderRow) (tbl : ShipTable) (events : List SSEvent)
    (hrows : (tbl.rows.filterMap fun r => trackStrOf r.2).Nodup)
    (hnodOrd : (orders.filterMap OrderRow.order_number).Nodup) :
    processPageBatched parse orders tbl events =
      (classifyEvents parse orders tbl.rows events).2.foldl applyUpd1
        { rows := tbl.rows ++ (classifyEvents parse orders tbl.rows events).1.enum.map
            fun p => (tbl.nextId + p.1, p.2),
          nextId := tbl.nextId + (classifyEvents parse orders tbl.rows events).1.length } := by
  unfold processPageBatched
  dsimp only
  rw [batchFold_eq_classify parse orders (existingViewsOf tbl (pageTrackings events))
    (orderRowsOf orders (pageOrderNumbers events)) tbl.rows events
    (fun e he hne => getExistingB_eq tbl (pageTrackings events) _ hne
      (pageTrackings_mem events e he hne) hrows)
    (fun e he => orderLookup_eq orders (pageOrderNumbers events) e.order_number e.store_id
      hnodOrd (pageOrderNumbers_ne events)
      (fun o ho hone => pageOrderNumbers_mem events e o he ho hone))
    ([], [])]
  dsimp only [List.nil_append]

theorem filterMap_ext {α β : Type} (f f' : α → Option β) :
    ∀ l : List α, (∀ x ∈ l, f x = f' x) → l.filterMap f = l.filterMap f' := by
  intro l
  induction l with
  | nil => intro _; rfl
  | cons a t ih =>
      intro h
      rw [List.filterMap_cons, List.filterMap_cons, h a (by simp)]
      cases f' a with
      | none => exact ih fun x hx => h x (by simp [hx])
      | some b => rw [ih fun x hx => h x (by simp [hx])]

theorem filterMap_map_ext {α β γ : Type} (g : α → β) (f : β → Option γ)
    (f' : α → Option γ) :
    ∀ l : List α, (∀ x ∈ l, f (g x) = f' x) → (l.map g).filterMap f = l.filterMap f' := by
  intro l
  induction l with
  | nil => intro _; rfl
  | cons a t ih =>
      intro h
      rw [List.map_cons, List.filterMap_cons, List.filterMap_cons, h a (by simp)]
      cases f' a with
      | none => exact ih fun x hx => h x (by simp [hx])
      | some b => rw [ih fun x hx => h x (by simp [hx])]

theorem trackStr_congr (a b : Row)
    (h : getField a "tracking_number" = getField b "tracking_number") :
    trackStrOf a = trackStrOf b := by
  unfold trackStrOf
  rw [h]

theorem classify_append_stable (parse : String → Option String) (orders : List OrderRow)
    (rows : List ShipRow) (extra : ShipRow) (t : String)
    (hex : getField extra.2 "tracking_number" = some (.s t)) :
    ∀ rest : List SSEvent,
      (∀ e ∈ rest, trimL (e.tracking_number.getD "") ≠ t) →
      classifyEvents parse orders (rows ++ [extra]) rest =
        classifyEvents parse orders rows rest := by
  intro rest
  induction rest with
  | nil => intro _; rfl
  | cons e rest ih =>
      intro hne
      rw [classifyEvents_cons, classifyEvents_cons]
      dsimp only
      rw [ih fun x hx => hne x (List.mem_cons_of_mem e hx)]
      by_cases ht : trimL (e.tracking_number.getD "") = ""
      · rw [if_pos ht, if_pos ht]
      · rw [if_neg ht, if_neg ht]
        have hextra : trackingEq (trimL (e.tracking_number.getD "")) extra = false := by
          unfold trackingEq
          rw [hex]
          refine beq_eq_false_iff_ne.mpr ?_
          intro hc
          have hct : t = trimL (e.tracking_number.getD "") := by simpa using hc
          exact hne e (List.mem_cons_self e rest) hct.symm
        rw [find?_append_eq]
        cases hf : rows.find? (trackingEq (trimL (e.tracking_number.getD ""))) with
        | some ex => rfl
        | none =>
            dsimp only
            rw [show List.find? (trackingEq (trimL (e.tracking_number.getD ""))) [extra] = none
              from by simp [List.find?, hextra]]

theorem classify_update_stable (parse : String → Option String) (orders : List OrderRow)
    (rows : List ShipRow) (ex : ShipRow) (upd : List (String × FVal)) (t : String)
    (hids : (rows.map Prod.fst).Nodup)
    (hexm : ex ∈ rows) (ht : t ≠ "") (htr : trackingEq t ex = true)
    (hupd : upd.lookup "tracking_number" = none) :
    ∀ rest : List SSEvent,
      (∀ e ∈ rest, trimL (e.tracking_number.getD "") ≠ t) →
      classifyEvents parse orders
        (rows.map fun r => if r.1 = ex.1 then (r.1, applyUpdate r.2 upd) else r) rest =
      classifyEvents parse orders rows rest := by
  have hpres : ∀ (t' : String) (r : ShipRow),
      trackingEq t' (if r.1 = ex.1 then (r.1, applyUpdate r.2 upd) else r) =
        trackingEq t' r := by
    intro t' r
    by_cases hr : r.1 = ex.1
    · rw [if_pos hr]
      unfold trackingEq
      rw [show getField ((r.1, applyUpdate r.2 upd) : ShipRow).2 "tracking_number"
          = getField r.2 "tracking_number" from getField_applyUpdate_miss upd _ hupd r.2]
    · rw [if_neg hr]
  have hfind : ∀ t' : String, t' ≠ t →
      (rows.map fun r => if r.1 = ex.1 then (r.1, applyUpdate r.2 upd) else r).find?
        (trackingEq t') = rows.find? (trackingEq t') := by
    intro t' hne
    rw [find?_map_of_pred _ _ rows fun x _ => hpres t' x]
    cases hf : rows.find? (trackingEq t') with
    | none => rfl
    | some r' =>
        have hr'm : r' ∈ rows := List.mem_of_find?_eq_some hf
        have hr'p : trackingEq t' r' = true := List.find?_some hf
        have hne1 : r'.1 ≠ ex.1 := by
          intro hc
          have hre : r' = ex := eq_of_id_nodup Prod.fst rows hids hr'm hexm hc
          subst hre
          have h1 : getField r'.2 "tracking_number" = some (.s t') := beq_iff_eq.mp hr'p
          have h2 : getField r'.2 "tracking_number" = some (.s t) := beq_iff_eq.mp htr
          rw [h1] at h2
          have : t' = t := by simpa using h2
          exact hne this
        dsimp only [Option.map]
        rw [if_neg hne1]
  intro rest
  induction rest with
  | nil => intro _; rfl
  | cons e rest ih =>
      intro hne
      rw [classifyEvents_cons, classifyEvents_cons]
      dsimp only
      rw [ih fun x hx => hne x (List.mem_cons_of_mem e hx)]
      by_cases hte : trimL (e.tracking_number.getD "") = ""
      · rw [if_pos hte, if_pos hte]
      · rw [if_neg hte, if_neg hte]
        rw [hfind (trimL (e.tracking_number.getD "")) (hne e (List.mem_cons_self e rest))]

theorem pageTrackings_cons_skip (e : SSEvent) (rest : List SSEvent)
    (ht : trimL (e.tracking_number.getD "") = "") :
    pageTrackings (e :: rest) = pageTrackings rest := by
  unfold pageTrackings
  rw [List.filterMap_cons]
  dsimp only
  rw [if_pos ht]

theorem pageTrackings_cons_keep (e : SSEvent) (rest : List SSEvent)
    (ht : ¬trimL (e.tracking_number.getD "") = "") :
    pageTrackings (e :: rest) =
      trimL (e.tracking_number.getD "") :: pageTrackings rest := by
  unfold pageTrackings
  rw [List.filterMap_cons]
  dsimp only
  rw [if_neg ht]

theorem processPageUnbatched_eq_spec (parse : String → Option String) (orders : List OrderRow) :
    ∀ (events : List SSEvent) (tbl : ShipTable),
      (∀ e ∈ events, trimL (e.tracking_number.getD "") = e.tracking_number.getD "") →
      (pageTrackings events).Nodup →
      (tbl.rows.filterMap fun r => trackStrOf r.2).Nodup →
      (tbl.rows.map Prod.fst).Nodup →
      (∀ r ∈ tbl.rows, r.1 < tbl.nextId) →
      processPageUnbatched parse orders tbl events =
        (classifyEvents parse orders tbl.rows events).2.foldl applyUpd1
          { rows := tbl.rows ++ (classifyEvents parse orders tbl.rows events).1.enum.map
              fun p => (tbl.nextId + p.1, p.2),
            nextId := tbl.nextId + (classifyEvents parse orders tbl.rows events).1.length } := by
  intro events
  induction events with
  | nil =>
      intro tbl _ _ _ _ _
      show tbl = _
      rw [show classifyEvents parse orders tbl.rows [] = ([], []) from rfl]
      dsimp only
      rw [show (([] : List Row).enum.map fun p => (tbl.nextId + p.1, p.2)) = [] from rfl]
      rw [List.append_nil]
      rfl
  | cons e rest ih =>
      intro tbl htrim hdist hrowsN hids hlt
      have htrim' := fun x hx => htrim x (List.mem_cons_of_mem e hx)
      rw [show processPageUnbatched parse orders tbl (e :: rest) =
          processPageUnbatched parse orders
            (upsertShipmentFromShipStationEvent parse orders tbl e) rest from rfl]
      rw [classifyEvents_cons]
      dsimp only
      by_cases ht : trimL (e.tracking_number.getD "") = ""
      · rw [if_pos ht]
        rw [show upsertShipmentFromShipStationEvent parse orders tbl e = tbl from by
          unfold upsertShipmentFromShipStationEvent
          dsimp only
          rw [if_pos ht]]
        have hdist' : (pageTrackings rest).Nodup := by
          rw [pageTrackings_cons_skip e rest ht] at hdist
          exact hdist
        exact ih tbl htrim' hdist' hrowsN hids hlt
      · rw [if_neg ht]
        have hdist2 := hdist
        rw [pageTrackings_cons_keep e rest ht] at hdist2
        have hdist' : (pageTrackings rest).Nodup := hdist2.of_cons
        have hnotin : trimL (e.tracking_number.getD "") ∉ pageTrackings rest :=
          (List.nodup_cons.mp hdist2).1
        have hrestne : ∀ x ∈ rest,
            trimL (x.tracking_number.getD "") ≠ trimL (e.tracking_number.getD "") := by
          intro x hx hc
          by_cases hxe : trimL (x.tracking_number.getD "") = ""
          · rw [hxe] at hc
            exact ht hc.symm
          · exact hnotin (hc ▸ pageTrackings_mem rest x hx hxe)
        have hcand : getField (makeShipmentRowFromShipStationEvent parse e
            (findOrderByOrderNumber orders e.order_number)) "tracking_number" =
            some (.s (trimL (e.tracking_number.getD ""))) := by
          have h0 : getField (makeShipmentRowFromShipStationEvent parse e
              (findOrderByOrderNumber orders e.order_number)) "tracking_number" =
              sOrNull e.tracking_number := by
            simp only [makeShipmentRowFromShipStationEvent]
            rfl
          rw [h0]
          cases ho : e.tracking_number with
          | none =>
              exfalso
              apply ht
              rw [ho]
              rfl
          | some s =>
              have hs : trimL s = s := by
                have h1 := htrim e (List.mem_cons_self e rest)
                rw [ho] at h1
                exact h1
              have hsne : s ≠ "" := by
                intro hc
                apply ht
                rw [ho, hc]
                rfl
              unfold sOrNull
              dsimp only
              rw [if_neg hsne]
              rw [show (some s).getD "" = s from rfl, hs]
        rw [show upsertShipmentFromShipStationEvent parse orders tbl e =
            (match tbl.rows.find? (trackingEq (trimL (e.tracking_number.getD ""))) with
             | none =>
                 { rows := tbl.rows ++ [(tbl.nextId,
                     makeShipmentRowFromShipStationEvent parse e
                       (findOrderByOrderNumber orders e.order_number))],
                   nextId := tbl.nextId + 1 }
             | some ex =>
                 if (buildUpdateForMissingFields (selectCols shipmentColsUnbatched ex.2)
                     (makeShipmentRowFromShipStationEvent parse e
                       (findOrderByOrderNumber orders e.order_number))).isEmpty
                 then tbl
                 else { tbl with rows := tbl.rows.map fun r =>
                     if r.1 = ex.1 then (r.1, applyUpdate r.2
                       (buildUpdateForMissingFields (selectCols shipmentColsUnbatched ex.2)
                         (makeShipmentRowFromShipStationEvent parse e
                           (findOrderByOrderNumber orders e.order_number)))) else r }) from by
          unfold upsertShipmentFromShipStationEvent findShipmentByTracking
          dsimp only
          rw [if_neg ht, if_neg ht]]
        cases hfind : tbl.rows.find? (trackingEq (trimL (e.tracking_number.getD ""))) with
        | none =>
            dsimp only
            have htsc : trackStrOf (makeShipmentRowFromShipStationEvent parse e
                (findOrderByOrderNumber orders e.order_number)) =
                some (trimL (e.tracking_number.getD "")) := by
              unfold trackStrOf
              rw [hcand]
              dsimp only
              rw [if_neg ht]
            have hnotrows : trimL (e.tracking_number.getD "") ∉
                tbl.rows.filterMap fun r => trackStrOf r.2 := by
              intro hc
              obtain ⟨r, hrm, hrt⟩ := List.mem_filterMap.mp hc
              have hfalse : trackingEq (trimL (e.tracking_number.getD "")) r = false := by
                have := List.find?_eq_none.mp hfind r hrm
                cases hb : trackingEq (trimL (e.tracking_number.getD "")) r
                · rfl
                · exact absurd hb this
              have : trackingEq (trimL (e.tracking_number.getD "")) r = true :=
                (trackingEq_true_iff _ ht r).mpr hrt
              rw [hfalse] at this
              exact absurd this (by simp)
            have hrowsN' : (((tbl.rows ++ [(tbl.nextId,
                makeShipmentRowFromShipStationEvent parse e
                  (findOrderByOrderNumber orders e.order_number))]).filterMap
                fun r => trackStrOf r.2)).Nodup := by
              rw [List.filterMap_append]
              rw [show ([(tbl.nextId, makeShipmentRowFromShipStationEvent parse e
                  (findOrderByOrderNumber orders e.order_number))].filterMap
                  fun r => trackStrOf r.2) =
                [trimL (e.tracking_number.getD "")] from by
                rw [List.filterMap_cons]
                dsimp only
                rw [htsc]
                rfl]
              rw [List.nodup_append]
              refine ⟨hrowsN, by simp, ?_⟩
              intro x hx hy
              have : x = trimL (e.tracking_number.getD "") := by simpa using hy
              subst this
              exact hnotrows hx
            have hids' : (((tbl.rows ++ [(tbl.nextId,
                makeShipmentRowFromShipStationEvent parse e
                  (findOrderByOrderNumber orders e.order_number))]).map Prod.fst)).Nodup := by
              rw [List.map_append]
              rw [List.nodup_append]
              refine ⟨hids, by simp, ?_⟩
              intro x hx hy
              have hxid : x = tbl.nextId := by simpa using hy
              subst hxid
              obtain ⟨r, hrm, hre⟩ := List.mem_map.mp hx
              have := hlt r hrm
              omega
            have hlt' : ∀ r ∈ tbl.rows ++ [(tbl.nextId,
                makeShipmentRowFromShipStationEvent parse e
                  (findOrderByOrderNumber orders e.order_number))],
                r.1 < tbl.nextId + 1 := by
              intro r hr
              rcases List.mem_append.mp hr with hr | hr
              · have := hlt r hr
                omega
              · have : r = (tbl.nextId, makeShipmentRowFromShipStationEvent parse e
                    (findOrderByOrderNumber orders e.order_number)) := by simpa using hr
                rw [this]
                omega
            rw [ih _ htrim' hdist' hrowsN' hids' hlt']
            dsimp only
            rw [classify_append_stable parse orders tbl.rows _
              (trimL (e.tracking_number.getD "")) hcand rest hrestne]
            refine congrArg (fun b => List.foldl applyUpd1 b
              (classifyEvents parse orders tbl.rows rest).2) ?_
            have hnid : tbl.nextId + 1 +
                (classifyEvents parse orders tbl.rows rest).1.length =
                tbl.nextId + ((classifyEvents parse orders tbl.rows rest).1.length + 1) := by
              omega
            rw [enum_shift_cons, List.append_assoc]
            rw [show ([(tbl.nextId, makeShipmentRowFromShipStationEvent parse e
                (findOrderByOrderNumber orders e.order_number))] ++
                ((classifyEvents parse orders tbl.rows rest).1.enum.map
                  fun p => (tbl.nextId + 1 + p.1, p.2))) =
              ((tbl.nextId, makeShipmentRowFromShipStationEvent parse e
                (findOrderByOrderNumber orders e.order_number)) ::
                ((classifyEvents parse orders tbl.rows rest).1.enum.map
                  fun p => (tbl.nextId + 1 + p.1, p.2))) from rfl]
            rw [hnid]
            rfl
        | some ex =>
            dsimp only
            have hexm : ex ∈ tbl.rows := List.mem_of_find?_eq_some hfind
            have htrEx : trackingEq (trimL (e.tracking_number.getD "")) ex = true :=
              List.find?_some hfind
            cases hemp : (buildUpdateForMissingFields (selectCols shipmentColsUnbatched ex.2)
                (makeShipmentRowFromShipStationEvent parse e
                  (findOrderByOrderNumber orders e.order_number))).isEmpty with
            | true =>
                rw [if_pos rfl, if_pos rfl]
                exact ih tbl htrim' hdist' hrowsN hids hlt
            | false =>
                rw [if_neg Bool.false_ne_true, if_neg Bool.false_ne_true]
                have hupdN : (buildUpdateForMissingFields (selectCols shipmentColsUnbatched ex.2)
                    (makeShipmentRowFromShipStationEvent parse e
                      (findOrderByOrderNumber orders e.order_number))).lookup
                    "tracking_number" = none := by
                  refine buildUpdate_lookup_none _ _ ?_ _
                  rw [getField_selectCols ex.2 "tracking_number" shipmentColsUnbatched
                    (by simp [shipmentColsUnbatched])]
                  rw [beq_iff_eq.mp htrEx]
                  simp
                have hpresT : ∀ r ∈ tbl.rows,
                    trackStrOf ((if r.1 = ex.1 then (r.1, applyUpdate r.2
                      (buildUpdateForMissingFields (selectCols shipmentColsUnbatched ex.2)
                        (makeShipmentRowFromShipStationEvent parse e
                          (findOrderByOrderNumber orders e.order_number)))) else r) :
                      ShipRow).2 = trackStrOf r.2 := by
                  intro r _
                  by_cases hr : r.1 = ex.1
                  · rw [if_pos hr]
                    exact trackStr_congr _ _ (getField_applyUpdate_miss _ _ hupdN r.2)
                  · rw [if_neg hr]
                have hrowsN' : (((tbl.rows.map fun r =>
                    if r.1 = ex.1 then (r.1, applyUpdate r.2
                      (buildUpdateForMissingFields (selectCols shipmentColsUnbatched ex.2)
                        (makeShipmentRowFromShipStationEvent parse e
                          (findOrderByOrderNumber orders e.order_number)))) else r).filterMap
                    fun r => trackStrOf r.2)).Nodup := by
                  rw [filterMap_map_ext
                    (fun r : ShipRow => if r.1 = ex.1 then (r.1, applyUpdate r.2
                      (buildUpdateForMissingFields (selectCols shipmentColsUnbatched ex.2)
                        (makeShipmentRowFromShipStationEvent parse e
                          (findOrderByOrderNumber orders e.order_number)))) else r)
                    (fun r => trackStrOf r.2) (fun r => trackStrOf r.2) tbl.rows
                    (fun x hx => hpresT x hx)]
                  exact hrowsN
                have hidmap : ((tbl.rows.map fun r =>
                    if r.1 = ex.1 then (r.1, applyUpdate r.2
                      (buildUpdateForMissingFields (selectCols shipmentColsUnbatched ex.2)
                        (makeShipmentRowFromShipStationEvent parse e
                          (findOrderByOrderNumber orders e.order_number)))) else r).map
                    Prod.fst) = tbl.rows.map Prod.fst := by
                  rw [List.map_map]
                  refine List.map_congr_left ?_
                  intro r _
                  by_cases hr : r.1 = ex.1
                  · simp [Function.comp, hr]
                  · simp [Function.comp, hr]
                have hids' : (((tbl.rows.map fun r =>
                    if r.1 = ex.1 then (r.1, applyUpdate r.2
                      (buildUpdateForMissingFields (selectCols shipmentColsUnbatched ex.2)
                        (makeShipmentRowFromShipStationEvent parse e
                          (findOrderByOrderNumber orders e.order_number)))) else r).map
                    Prod.fst)).Nodup := by
                  rw [hidmap]
                  exact hids
                have hlt' : ∀ r ∈ (tbl.rows.map fun r =>
                    if r.1 = ex.1 then (r.1, applyUpdate r.2
                      (buildUpdateForMissingFields (selectCols shipmentColsUnbatched ex.2)
                        (makeShipmentRowFromShipStationEvent parse e
                          (findOrderByOrderNumber orders e.order_number)))) else r),
                    r.1 < tbl.nextId := by
                  intro r hr
                  obtain ⟨x, hxm, hxe⟩ := List.mem_map.mp hr
                  have hx1 : r.1 = x.1 := by
                    rw [← hxe]
                    by_cases hx : x.1 = ex.1
                    · rw [if_pos hx]
                    · rw [if_neg hx]
                  rw [hx1]
                  exact hlt x hxm
                rw [ih _ htrim' hdist' hrowsN' hids' hlt']
                dsimp only
                rw [classify_update_stable parse orders tbl.rows ex _
                  (trimL (e.tracking_number.getD "")) hids hexm ht htrEx hupdN rest hrestne]
                rw [List.foldl_cons]
                refine congrArg (fun b => List.foldl applyUpd1 b
                  (classifyEvents parse orders tbl.rows rest).2) ?_
                unfold applyUpd1
                dsimp only
                rw [List.map_append]
                have hmapE : (((classifyEvents parse orders tbl.rows rest).1.enum.map
                    fun p => (tbl.nextId + p.1, p.2)).map fun r =>
                    if r.1 = ex.1 then (r.1, applyUpdate r.2
                      (buildUpdateForMissingFields (selectCols shipmentColsUnbatched ex.2)
                        (makeShipmentRowFromShipStationEvent parse e
                          (findOrderByOrderNumber orders e.order_number)))) else r) =
                    ((classifyEvents parse orders tbl.rows rest).1.enum.map
                      fun p => (tbl.nextId + p.1, p.2)) := by
                  refine List.map_congr_left ?_ |>.trans (List.map_id _)
                  intro r hr
                  obtain ⟨p, hpm, hpe⟩ := List.mem_map.mp hr
                  have hr1 : r.1 = tbl.nextId + p.1 := by
                    rw [← hpe]
                  have hexlt : ex.1 < tbl.nextId := hlt ex hexm
                  have hne1 : ¬ r.1 = ex.1 := by
                    rw [hr1]
                    omega
                  rw [if_neg hne1]
                  rfl
                rw [hmapE]

/-- C3 counterexample: with two events carrying the same tracking number in
one page, the unbatched per-event path inserts once and then updates that
row, leaving one shipment row, while the batched path — whose existing-rows
snapshot was taken before any insert — classifies both events as inserts
and leaves two rows.  The two paths do not leave the table in the same
state. -/
theorem batched_unbatched_diverge_on_duplicate_tracking :
    (processPageUnbatched (fun _ => none) [] ⟨[], 0⟩
      [⟨some 1, none, none, none, some "T1", none, none, none, none, none, none, none, none,
        none, none, none, none, none, none⟩,
       ⟨some 1, none, none, none, some "T1", none, none, none, none, none, none, none, none,
        none, none, none, none, none, none⟩]).rows.length = 1
    ∧ (processPageBatched (fun _ => none) [] ⟨[], 0⟩
      [⟨some 1, none, none, none, some "T1", none, none, none, none, none, none, none, none,
        none, none, none, none, none, none⟩,
       ⟨some 1, none, none, none, some "T1", none, none, none, none, none, none, none, none,
        none, none, none, none, none, none⟩]).rows.length = 2 := by
  refine ⟨by decide, by decide⟩

/-- C3 (amended): when the page's trimmed truthy tracking numbers are
pairwise distinct and already trimmed on the events, the table holds at
most one row per truthy tracking with unique ids below the insertion
cursor, and order numbers are unique across order rows, the batched page
processing leaves the shipments table in exactly the state the unbatched
per-event path leaves it in. -/
theorem batched_equals_unbatched_on_distinct_trackings
    (parse : String → Option String) (orders : List OrderRow) (tbl : ShipTable)
    (events : List SSEvent)
    (htrim : ∀ e ∈ events, trimL (e.tracking_number.getD "") = e.tracking_number.getD "")
    (hdist : (pageTrackings events).Nodup)
    (hrows : (tbl.rows.filterMap fun r => trackStrOf r.2).Nodup)
    (hids : (tbl.rows.map Prod.fst).Nodup)
    (hlt : ∀ r ∈ tbl.rows, r.1 < tbl.nextId)
    (hnodOrd : (orders.filterMap OrderRow.order_number).Nodup) :
    processPageBatched parse orders tbl events =
      processPageUnbatched parse orders tbl events := by
  rw [processPageBatched_eq_spec parse orders tbl events hrows hnodOrd,
    processPageUnbatched_eq_spec parse orders events tbl htrim hdist hrows hids hlt]

/-- Witness for the amended C3: one existing row, one updating event and
one inserting event with distinct trackings. -/
theorem batched_equals_unbatched_on_distinct_trackings_witness :
    (∀ e ∈ [(⟨some 7, none, some "ON1", some 5, some "T0", none, none, none, none, none,
          none, none, none, none, none, none, none, none, none⟩ : SSEvent),
        ⟨some 8, none, none, none, some "T1", none, none, none, none, none, none, none,
          none, none, none, none, none, none, none⟩],
      trimL (e.tracking_number.getD "") = e.tracking_number.getD "")
    ∧ (pageTrackings [⟨some 7, none, some "ON1", some 5, some "T0", none, none, none, none,
        none, none, none, none, none, none, none, none, none, none⟩,
       ⟨some 8, none, none, none, some "T1", none, none, none, none, none, none, none,
        none, none, none, none, none, none, none⟩]).Nodup
    ∧ ((([(0, [("tracking_number", some (.s "T0")), ("id", some (.i 0))])] :
        List ShipRow).filterMap fun r => trackStrOf r.2)).Nodup
    ∧ (([(0, [("tracking_number", some (.s "T0")), ("id", some (.i 0))])] :
        List ShipRow).map Prod.fst).Nodup
    ∧ (∀ r ∈ ([(0, [("tracking_number", some (.s "T0")), ("id", some (.i 0))])] :
        List ShipRow), r.1 < 1)
    ∧ (([⟨100, some "ON1", some 5⟩] : List OrderRow).filterMap OrderRow.order_number).Nodup
    ∧ processPageBatched (fun _ => none) [⟨100, some "ON1", some 5⟩]
        ⟨[(0, [("tracking_number", some (.s "T0")), ("id", some (.i 0))])], 1⟩
        [⟨some 7, none, some "ON1", some 5, some "T0", none, none, none, none, none,
          none, none, none, none, none, none, none, none, none⟩,
         ⟨some 8, none, none, none, some "T1", none, none, none, none, none, none, none,
          none, none, none, none, none, none, none⟩] =
      processPageUnbatched (fun _ => none) [⟨100, some "ON1", some 5⟩]
        ⟨[(0, [("tracking_number", some (.s "T0")), ("id", some (.i 0))])], 1⟩
        [⟨some 7, none, some "ON1", some 5, some "T0", none, none, none, none, none,
          none, none, none, none, none, none, none, none, none⟩,
         ⟨some 8, none, none, none, some "T1", none, none, none, none, none, none, none,
          none, none, none, none, none, none, none⟩] :=
  ⟨by decide, by decide, by decide, by decide, by decide, by decide,
    batched_equals_unbatched_on_distinct_trackings (fun _ => none)
      [⟨100, some "ON1", some 5⟩]
      ⟨[(0, [("tracking_number", some (.s "T0")), ("id", some (.i 0))])], 1⟩
      [⟨some 7, none, some "ON1", some 5, some "T0", none, none, none, none, none,
        none, none, none, none, none, none, none, none, none⟩,
       ⟨some 8, none, none, none, some "T1", none, none, none, none, none, none, none,
        none, none, none, none, none, none, none⟩]
      (by decide) (by decide) (by decide) (by decide) (by decide) (by decide)⟩

end CronJobs
